import Mathlib

/-!
# Stock news aggregator: ingestion, deduplicating store, balanced retrieval, quote normalizer

A shallow embedding of the Go backend (`internal/database/db.go`,
`internal/services/news_service.go`, `internal/services/market_indices.go`, `main.go`)
together with the properties its specification states about it.

Conventions of the embedding

* Go slices are lists; the `nil` slice is `[]`.
* `time.Time` / `DATETIME` values are integers (seconds).
* The SQLite handle is a value of type `DB`; every statement is executed against a
  healthy handle, so the `error` results of `db.Exec` / `db.QueryRow` are `ok`.
  The branches of the callers that handle such errors are kept.
* Go `int` is `Int`; a counter that starts at 0 and is only incremented is `Nat`.
* Go `float64` is `F64`, IEEE 754 binary64 with round-to-nearest-even arithmetic.
* A call that may block forever returns an `Option` (`none`: it never returns); a loop is
  run with fuel and its result is a `Run` (value, panic, or out of fuel).
-/

namespace NewsAggregator

/-! ## Data model (`internal/models/news.go`, `internal/database/db.go`) -/

abbrev Time := Int

/-- Go `models.Source`. -/
structure Source where
  name : String
deriving DecidableEq, Repr

/-- Go `models.Article`. -/
structure Article where
  title : String
  description : String
  content : String
  url : String
  imageURL : String
  source : Source
  publishedAt : Time
deriving DecidableEq, Repr

/-- Go `database.Article`: one row of the `articles` table. -/
structure DbArticle where
  id : Int
  title : String
  url : String
  source : String
  content : String
  description : String
  publishedAt : Time
  createdAt : Time
  lastScrapedAt : Time
deriving DecidableEq, Repr

/-- The `articles` table: its rows in rowid order and the AUTOINCREMENT counter
(`sqlite_sequence`), the largest rowid ever allocated. -/
structure DB where
  rows : List DbArticle
  seq : Int
deriving DecidableEq, Repr

/-- The table right after `InitDB` on a fresh file: `CREATE TABLE IF NOT EXISTS articles`. -/
def InitDB : DB := { rows := [], seq := 0 }

/-- Go `IsArticleScraped`: `SELECT EXISTS(SELECT 1 FROM articles WHERE url = ?)`. -/
def IsArticleScraped (db : DB) (url : String) : Except String Bool :=
  .ok (db.rows.any fun r => r.url == url)

/-- Go `InsertArticle`: `INSERT OR IGNORE INTO articles (title, url, source, content,
description, published_at, last_scraped_at) VALUES (?, ?, ?, ?, ?, ?, CURRENT_TIMESTAMP)`.
When a row with that URL exists, the `url UNIQUE` constraint makes the statement leave every
row as it is; SQLite has allocated a rowid by then, so the AUTOINCREMENT counter still advances.
Otherwise a row is appended with the next AUTOINCREMENT id and `created_at` defaulting to
`CURRENT_TIMESTAMP`. `now` is the value of `CURRENT_TIMESTAMP` when the statement runs. -/
def InsertArticle (db : DB) (now : Time) (title url source content description : String)
    (publishedAt : Time) : Except String DB :=
  if db.rows.any (fun r => r.url == url) then
    .ok { rows := db.rows, seq := db.seq + 1 }
  else
    .ok { rows := db.rows ++ [{ id := db.seq + 1, title := title, url := url, source := source,
                                content := content, description := description,
                                publishedAt := publishedAt, createdAt := now,
                                lastScrapedAt := now }],
          seq := db.seq + 1 }

/-! ## Ingestion (`ScrapeAndStoreNews`, `internal/services/news_service.go`) -/

/-- The variables captured by the `storeArticles` closure: the database and the two counters. -/
structure IngestState where
  db : DB
  totalStored : Int
  totalSkipped : Int
deriving DecidableEq, Repr

/-- Body of the `for _, article := range articles` loop of `storeArticles`. -/
def storeArticle (now : Time) (st : IngestState) (article : Article) : IngestState :=
  match IsArticleScraped st.db article.url with
  | .error _ => st
  | .ok found =>
    if !found then
      match InsertArticle st.db now article.title article.url article.source.name
              article.content article.description article.publishedAt with
      | .error _ => st
      | .ok db => { st with db := db, totalStored := st.totalStored + 1 }
    else
      { st with totalSkipped := st.totalSkipped + 1 }

/-- The loop of `storeArticles`, the `i`-th iteration running at time `clock i`. -/
def storeArticlesFrom (clock : Nat → Time) : Nat → List Article → IngestState → IngestState
  | _, [], st => st
  | i, article :: rest, st =>
    storeArticlesFrom clock (i + 1) rest (storeArticle (clock i) st article)

/-- Go closure `storeArticles(articles, source)`; for the `nil` slice (`[]`) it returns at once. -/
def storeArticles (clock : Nat → Time) (articles : List Article) (st : IngestState) :
    IngestState :=
  if articles = [] then st else storeArticlesFrom clock 0 articles st

/-- The seven channels made by `ScrapeAndStoreNews`; all are unbuffered (`make(chan T)`). -/
inductive Chan
  | livemintChan | etChan | mcChan | growwChan | bsChan | indiaTodayChan | errorChan
deriving DecidableEq, Repr

/-- A value sent on a channel: an article slice on a result channel, an error on `errorChan`. -/
inductive Msg
  | articles (l : List Article)
  | err (e : String)
deriving DecidableEq, Repr

/-- What is left of a scraping goroutine once its adapter has returned: the channel sends it
still has to perform, in program order. Each send blocks until a receiver takes the value. -/
abbrev Task := List (Chan × Msg)

/-- The goroutine `go func() { articles, err := Scrape(); if err != nil { errorChan <- err;
ch <- nil; return }; ch <- articles }()`. -/
def scrapeTask (ch : Chan) (outcome : Except String (List Article)) : Task :=
  match outcome with
  | .error e => [(Chan.errorChan, Msg.err e), (ch, Msg.articles [])]
  | .ok articles => [(ch, Msg.articles articles)]

/-- The outcomes of the six source adapters. -/
structure Outcomes where
  livemint : Except String (List Article)
  et : Except String (List Article)
  mc : Except String (List Article)
  groww : Except String (List Article)
  bs : Except String (List Article)
  indiaToday : Except String (List Article)

/-- An adapter outcome that is an error. -/
def failed (outcome : Except String (List Article)) : Bool :=
  match outcome with
  | .error _ => true
  | .ok _ => false

/-- At least one of the six adapters returned an error. -/
def Outcomes.anyFailed (o : Outcomes) : Bool :=
  failed o.livemint || failed o.et || failed o.mc || failed o.groww || failed o.bs ||
    failed o.indiaToday

/-- The six goroutines started by `ScrapeAndStoreNews`. -/
def spawn (o : Outcomes) : List Task :=
  [scrapeTask Chan.livemintChan o.livemint, scrapeTask Chan.etChan o.et,
   scrapeTask Chan.mcChan o.mc, scrapeTask Chan.growwChan o.groww,
   scrapeTask Chan.bsChan o.bs, scrapeTask Chan.indiaTodayChan o.indiaToday]

/-- A receive `<-c` by the calling goroutine: it pairs with the first goroutine whose next action
is a send on `c`, which then moves on. `none` when no goroutine is ready to send on `c`. -/
def rendezvous (c : Chan) : List Task → Option (Msg × List Task)
  | [] => none
  | [] :: ts => (rendezvous c ts).map fun (m, ts') => (m, [] :: ts')
  | ((c', m) :: k) :: ts =>
    if c' = c then some (m, k :: ts)
    else (rendezvous c ts).map fun (m', ts') => (m', ((c', m) :: k) :: ts')

/-- The receives `<-livemintChan; <-etChan; ...` of the calling goroutine, in order. The calling
goroutine is the only receiver, and a goroutine's only actions are sends, so when the receive at
hand finds no ready sender no goroutine can ever move again: the result is `none` (the call
never returns). -/
def collect : List Chan → List Task → Option (List Msg)
  | [], _ => some []
  | c :: cs, tasks =>
    match rendezvous c tasks with
    | none => none
    | some (m, tasks') => (collect cs tasks').map fun ms => m :: ms

/-- The article slice carried by a message. -/
def Msg.slice : Msg → List Article
  | .articles l => l
  | .err _ => []

/-- The order in which the calling goroutine receives from the result channels. -/
def receiveOrder : List Chan :=
  [Chan.livemintChan, Chan.etChan, Chan.mcChan, Chan.growwChan, Chan.bsChan, Chan.indiaTodayChan]

/-- Go `ScrapeAndStoreNews`. `none`: the call never returns. `some (err, st)`: it returns `err`
(always `nil`, here `none`) having left the database and counters as in `st`. The `k`-th
`storeArticles` call runs with the clock `clocks k`. -/
def ScrapeAndStoreNews (o : Outcomes) (clocks : Nat → Nat → Time) (db : DB) :
    Option (Option String × IngestState) :=
  match collect receiveOrder (spawn o) with
  | none => none
  | some msgs =>
    let st0 : IngestState := { db := db, totalStored := 0, totalSkipped := 0 }
    let st := (msgs.enum).foldl (fun st p => storeArticles (clocks p.1) p.2.slice st) st0
    some (none, st)

/-! ## Inputs used in examples -/

/-- An article with the given URL from the given source. -/
def mkArticle (url src : String) : Article :=
  { title := "t", description := "", content := "", url := url, imageURL := "",
    source := { name := src }, publishedAt := 0 }

/-- Groww fails, the five other adapters each return one article. -/
def growwFails : Outcomes :=
  { livemint := .ok [mkArticle "l1" "Livemint"],
    et := .ok [mkArticle "e1" "Economic Times"],
    mc := .ok [mkArticle "m1" "MoneyControl"],
    groww := .error "error visiting Groww",
    bs := .ok [mkArticle "b1" "Business Standard"],
    indiaToday := .ok [mkArticle "i1" "India Today"] }

/-- All six adapters succeed. -/
def allSucceed : Outcomes :=
  { growwFails with groww := .ok [mkArticle "g1" "Groww"] }

/-- A sequence of `InsertArticle` calls, each with the time it runs at and its arguments. -/
def insertAll (db : DB) (calls : List (Time × Article)) : DB :=
  calls.foldl (fun db c =>
    match InsertArticle db c.1 c.2.title c.2.url c.2.source.name c.2.content c.2.description
            c.2.publishedAt with
    | .ok db' => db'
    | .error _ => db) db

/-- The row that `InsertArticle` appends for an article at time `now`. -/
def newRow (db : DB) (now : Time) (a : Article) : DbArticle :=
  { id := db.seq + 1, title := a.title, url := a.url, source := a.source.name,
    content := a.content, description := a.description, publishedAt := a.publishedAt,
    createdAt := now, lastScrapedAt := now }

/-! ## Store query (`GetArticles`, `internal/database/db.go`) -/

/-- `ORDER BY published_at DESC`: most recent first; rows with equal `published_at` (an order
SQLite leaves open) stay in rowid order. -/
def orderByPublishedAtDesc (rows : List DbArticle) : List DbArticle :=
  rows.insertionSort fun a b => b.publishedAt ≤ a.publishedAt

/-- Go `int` arithmetic is 64 bits wide and wraps around: the value in `[-2^63, 2^63)` that
differs from `x` by a multiple of `2^64`. -/
def wrapInt (x : Int) : Int :=
  (x + 9223372036854775808) % 18446744073709551616 - 9223372036854775808

/-- `LIMIT limit OFFSET offset` of SQLite: a negative offset counts as 0, a negative limit as
no limit. -/
def limitOffset (limit offset : Int) (rows : List DbArticle) : List DbArticle :=
  let rest := rows.drop offset.toNat
  if limit < 0 then rest else rest.take limit.toNat

/-- Go `GetArticles(page, pageSize, search)`. `like pattern text` is SQLite's `LIKE` operator
(`text LIKE pattern`), a parameter of the model. The offset `(page-1)*pageSize` is computed in
Go's `int`. -/
def GetArticles (like : String → String → Bool) (db : DB) (page pageSize : Int)
    (search : String) : Except String (List DbArticle × Int) :=
  let searchTerm := "%" ++ search ++ "%"
  let matching :=
    if search ≠ "" then
      db.rows.filter fun r =>
        like searchTerm r.title || like searchTerm r.content || like searchTerm r.description
    else db.rows
  let totalCount : Int := matching.length
  let articles :=
    limitOffset pageSize (wrapInt ((page - 1) * pageSize)) (orderByPublishedAtDesc matching)
  .ok (articles, totalCount)

/-! ## Balanced retrieval (`GetNewsFromDB`, `internal/services/news_service.go`) -/

/-- Go `map[string][]database.Article`. -/
abbrev SourceGroups := String → Option (List DbArticle)

/-- Go `m[k]` as a value: the `nil` slice for a missing key. -/
def SourceGroups.get (m : SourceGroups) (k : String) : List DbArticle := (m k).getD []

/-- Go `m[k] = v`. -/
def SourceGroups.set (m : SourceGroups) (k : String) (v : List DbArticle) : SourceGroups :=
  fun k' => if k' = k then some v else m k'

/-- Body of the grouping loop: a source not yet in the map is appended to `sources`, and the
article is appended to its source's group. -/
def groupStep (st : SourceGroups × List String) (article : DbArticle) :
    SourceGroups × List String :=
  let sources := if (st.1 article.source).isSome then st.2 else st.2 ++ [article.source]
  (st.1.set article.source (st.1.get article.source ++ [article]), sources)

/-- The grouping loop `for _, article := range articles`. -/
def groupBySource (articles : List DbArticle) : SourceGroups × List String :=
  articles.foldl groupStep (fun _ => none, [])

/-- Go `sort.Strings`. -/
def sortStrings (l : List String) : List String := l.insertionSort (· ≤ ·)

/-- An outcome of `rnd.Shuffle` on the group of each source: some rearrangement of the group.
Which one depends on the clock-seeded generator and on the map iteration order. -/
structure Shuffle where
  arrange : String → List DbArticle → List DbArticle
  perm : ∀ s l, (arrange s l).Perm l

/-- The loop `for _, articles := range sourceGroups { rnd.Shuffle(...) }`: every group is
rearranged in place. -/
def shuffleGroups (sh : Shuffle) (m : SourceGroups) : SourceGroups :=
  fun k => (m k).map (sh.arrange k)

/-- The variables of the selection loop. -/
structure LoopState where
  selectedArticles : List DbArticle
  sourceGroups : SourceGroups
  sourceIndex : Nat

/-- How a run of a loop ends: it returns a value, it stops with a run-time panic, or the fuel
given to the model is used up before the loop exits. -/
inductive Run (α : Type)
  | ret (a : α)
  | panic
  | outOfFuel
deriving DecidableEq, Repr

/-- The selection loop
`for len(selectedArticles) < pageSize && len(selectedArticles) < len(articles) { ... }`, one
iteration per unit of fuel. `sources[sourceIndex%len(sources)]` panics (integer divide by
zero) when `sources` is empty. -/
def selectLoop (pageSize : Int) (articles : List DbArticle) (sources : List String) :
    Nat → LoopState → Run (List DbArticle)
  | 0, _ => .outOfFuel
  | fuel + 1, st =>
    if (st.selectedArticles.length : Int) < pageSize ∧
        st.selectedArticles.length < articles.length then
      match sources[st.sourceIndex % sources.length]? with
      | none => .panic
      | some source =>
        match st.sourceGroups.get source with
        | a :: rest =>
          selectLoop pageSize articles sources fuel
            { selectedArticles := st.selectedArticles ++ [a],
              sourceGroups := st.sourceGroups.set source rest,
              sourceIndex := st.sourceIndex + 1 }
        | [] =>
          selectLoop pageSize articles sources fuel { st with sourceIndex := st.sourceIndex + 1 }
    else .ret st.selectedArticles

/-- Lines 42-75 of `GetNewsFromDB`: group the window by source, sort the sources, shuffle each
group, select round-robin. -/
def balancedSelection (sh : Shuffle) (fuel : Nat) (pageSize : Int) (articles : List DbArticle) :
    Run (List DbArticle) :=
  let grouped := groupBySource articles
  let sources := sortStrings grouped.2
  let sourceGroups := shuffleGroups sh grouped.1
  selectLoop pageSize articles sources fuel
    { selectedArticles := [], sourceGroups := sourceGroups, sourceIndex := 0 }

/-- The conversion of a `database.Article` to a `models.Article` at the end of
`GetNewsFromDB`; `ImageURL` is left at its zero value. -/
def toModelArticle (article : DbArticle) : Article :=
  { title := article.title, url := article.url, source := { name := article.source },
    content := article.content, description := article.description,
    publishedAt := article.publishedAt, imageURL := "" }

/-- Go `GetNewsFromDB(page, pageSize, search)`, returning `(modelArticles, totalCount)` or the
error of `GetArticles`. -/
def GetNewsFromDB (like : String → String → Bool) (sh : Shuffle) (fuel : Nat) (db : DB)
    (page pageSize : Int) (search : String) : Run (Except String (List Article × Int)) :=
  let multiplier : Int := 3
  match GetArticles like db page (pageSize * multiplier) search with
  | .error err => .ret (.error err)
  | .ok (articles, totalCount) =>
    match balancedSelection sh fuel pageSize articles with
    | .ret selectedArticles => .ret (.ok (selectedArticles.map toModelArticle, totalCount))
    | .panic => .panic
    | .outOfFuel => .outOfFuel

/-- The shuffle outcome that leaves every group as it is. -/
def Shuffle.id : Shuffle := { arrange := fun _ l => l, perm := fun _ l => List.Perm.refl l }

/-- The shuffle outcome that reverses every group. -/
def Shuffle.rev : Shuffle :=
  { arrange := fun _ l => l.reverse, perm := fun _ l => List.reverse_perm l }

/-- A `LIKE` that matches nothing; irrelevant when the search term is empty. -/
def noLike : String → String → Bool := fun _ _ => false

/-- A row with the given id, source and publish time; its URL is derived from the id. -/
def mkRow (id : Int) (src : String) (publishedAt : Time) : DbArticle :=
  { id := id, title := "t", url := "u" ++ toString id, source := src, content := "",
    description := "", publishedAt := publishedAt, createdAt := 0, lastScrapedAt := 0 }

/-- A store with ten articles of source A, published at times 11..20, one article of source B
published at time 1 and one of source C published at time 2. -/
def skewedStore : DB :=
  { rows := [mkRow 1 "B" 1, mkRow 2 "C" 2, mkRow 3 "A" 11, mkRow 4 "A" 12, mkRow 5 "A" 13,
             mkRow 6 "A" 14, mkRow 7 "A" 15, mkRow 8 "A" 16, mkRow 9 "A" 17, mkRow 10 "A" 18,
             mkRow 11 "A" 19, mkRow 12 "A" 20],
    seq := 12 }

/-! ### Vocabulary for the analysis of the selection loop -/

/-- The window's articles of source `s`, in window order. -/
def groupOf (articles : List DbArticle) (s : String) : List DbArticle :=
  articles.filter fun a => a.source == s

/-- The groups as the selection loop finds them: grouped, then shuffled. -/
def initialGroups (sh : Shuffle) (articles : List DbArticle) (s : String) : List DbArticle :=
  (shuffleGroups sh (groupBySource articles).1).get s

/-- The `sources` slice as the selection loop finds it: first occurrences, then sorted. -/
def sortedSources (articles : List DbArticle) : List String :=
  sortStrings (groupBySource articles).2

/-- The sources visited in pass number `j` (counting from 0) whose group, of size `cnt s` at the
start, still has an article then. -/
def passNames (sources : List String) (cnt : String → Nat) (j : Nat) : List String :=
  sources.filter fun s => decide (j < cnt s)

/-- The sources emitted by the first `q` complete passes over `sources`. -/
def passesNames (sources : List String) (cnt : String → Nat) (q : Nat) : List String :=
  (List.range q).flatMap (passNames sources cnt)

/-- The state of the selection loop after `q` complete passes over `sources` and `r` further
iterations, in terms of the groups `G` at loop entry. -/
structure LoopInv (pageSize : Int) (articles : List DbArticle) (sources : List String)
    (G : String → List DbArticle) (st : LoopState) (q r : Nat) : Prop where
  index : st.sourceIndex = sources.length * q + r
  le : r ≤ sources.length
  groups : ∀ i (h : i < sources.length),
    st.sourceGroups.get sources[i] = (G sources[i]).drop (q + if i < r then 1 else 0)
  split : ∀ s, (st.selectedArticles.filter fun a => a.source == s) ++ st.sourceGroups.get s = G s
  names : st.selectedArticles.map (fun a => a.source) =
    passesNames sources (fun s => (G s).length) q ++
      (sources.take r).filter fun s => decide (q < (G s).length)
  lenPage : (st.selectedArticles.length : Int) ≤ max pageSize 0
  lenWin : st.selectedArticles.length ≤ articles.length

/-- What the loop needs to know about the groups at its entry. -/
structure GroupsOk (articles : List DbArticle) (sources : List String)
    (G : String → List DbArticle) : Prop where
  nodup : sources.Nodup
  source_eq : ∀ s, ∀ a ∈ G s, a.source = s
  outside : ∀ s, s ∉ sources → G s = []
  total : (sources.map fun s => (G s).length).sum = articles.length
  bound : ∀ s, (G s).length ≤ articles.length

/-- Number of articles of source `s` in a list. -/
def countSource (s : String) (l : List DbArticle) : Nat :=
  l.countP fun a => a.source == s

/-- What the selection loop guarantees about its result `out` for the window `articles`. -/
structure SelectionOk (pageSize : Int) (articles out : List DbArticle) : Prop where
  lenPage : (out.length : Int) ≤ max pageSize 0
  lenWin : out.length ≤ articles.length
  exit : ¬ ((out.length : Int) < pageSize ∧ out.length < articles.length)
  names : out.map (fun a => a.source) <+:
    passesNames (sortedSources articles) (fun s => (groupOf articles s).length) articles.length
  balance : ∀ s ∈ sortedSources articles, ∀ t ∈ sortedSources articles,
    countSource s out ≤ countSource t out + 1 ∨ ∀ a ∈ articles, a.source = t → a ∈ out
  sub : ∀ a ∈ out, a ∈ articles

/-! ### The round-robin of the specification (section 4.4, steps 2 and 4) -/

/-- Spec, step 2: the distinct sources present in the window, sorted lexicographically. -/
def specSources (articles : List DbArticle) : List String :=
  ((articles.map fun a => a.source).toFinset).sort (· ≤ ·)

/-- Spec, step 4, one trip through the sources in order, each paired with the number of
articles its group still has: a source whose group still has an article is emitted and its
group loses one article; an exhausted source is skipped. -/
def rrPass : List (String × Nat) → List String × List (String × Nat)
  | [] => ([], [])
  | (s, c) :: rest =>
    if 0 < c then (s :: (rrPass rest).1, (s, c - 1) :: (rrPass rest).2)
    else ((rrPass rest).1, (s, c) :: (rrPass rest).2)

/-- Spec, step 4: the sources emitted by cycling through the sources `passes` times. -/
def roundRobinNames : Nat → List (String × Nat) → List String
  | 0, _ => []
  | passes + 1, groups => (rrPass groups).1 ++ roundRobinNames passes (rrPass groups).2

/-- Spec, steps 2 and 4: the round-robin sequence of source names for a window, truncated to
`min(pageSize, window size)`. As many trips as the window has articles exhaust every group. -/
def specNames (pageSize : Int) (articles : List DbArticle) : List String :=
  (roundRobinNames articles.length
    ((specSources articles).map fun s => (s, countSource s articles))).take
    (min pageSize articles.length).toNat

/-- A store with ten articles of source A published at times 11..20, one of source B published
at time 30 and one of source C published at time 25. -/
def mixedStore : DB :=
  { rows := [mkRow 1 "B" 30, mkRow 2 "C" 25, mkRow 3 "A" 11, mkRow 4 "A" 12, mkRow 5 "A" 13,
             mkRow 6 "A" 14, mkRow 7 "A" 15, mkRow 8 "A" 16, mkRow 9 "A" 17, mkRow 10 "A" 18,
             mkRow 11 "A" 19, mkRow 12 "A" 20],
    seq := 12 }

/-! ## IEEE 754 binary64 (`float64`) -/

/-- A `float64` value: NaN, an infinity, or the finite value `(-1)^neg * m * 2^e`. Finite values
are kept in the form with `m` odd, or `m = 0` and `e = 0` (the two zeros differ in `neg`). -/
inductive F64
  | nan
  | inf (neg : Bool)
  | fin (neg : Bool) (m : Nat) (e : Int)
deriving DecidableEq, Repr

namespace F64

/-- Binary search for the position of the leading bit: the largest `a < acc + 2^k` with
`2^a <= n`, given `2^acc <= n`. -/
def leadingBit : Nat → Nat → Nat → Nat
  | 0, _, acc => acc
  | k + 1, n, acc =>
    if 2 ^ (acc + 2 ^ k) ≤ n then leadingBit k n (acc + 2 ^ k) else leadingBit k n acc

/-- Number of binary digits of `n` (for `n < 2^8192`). -/
def bitLen (n : Nat) : Nat := if n = 0 then 0 else leadingBit 13 n 0 + 1

/-- Removes up to `2^k - 1` trailing zero bits of `m`, adding their number to `e`. -/
def strip : Nat → Nat → Int → Nat × Int
  | 0, m, e => (m, e)
  | k + 1, m, e =>
    if m % 2 ^ 2 ^ k = 0 then strip k (m / 2 ^ 2 ^ k) (e + 2 ^ k) else strip k m e

/-- The finite value `(-1)^neg * m * 2^e` in the form with an odd `m`. -/
def canon (neg : Bool) (m : Nat) (e : Int) : F64 :=
  if m = 0 then fin neg 0 0 else fin neg (strip 13 m e).1 (strip 13 m e).2

/-- Rounding to nearest, ties to even, of the real number `(-1)^neg * (m + t) * 2^e`, where
`0 < t < 1` if `sticky` and `t = 0` otherwise: 53 significant bits, least exponent `-1074`,
overflow to infinity from `2^1024` on. -/
def pack (neg : Bool) (m : Nat) (e : Int) (sticky : Bool) : F64 :=
  let shift : Int := max ((bitLen m : Int) - 53) (-1074 - e)
  if shift ≤ 0 then
    if (bitLen m : Int) + e > 1024 then inf neg else canon neg m e
  else
    let s := shift.toNat
    let q := m / 2 ^ s
    let r := m % 2 ^ s
    let half := 2 ^ (s - 1)
    let up : Bool := decide (half < r) || (decide (r = half) && (sticky || decide (q % 2 = 1)))
    let q' := if up then q + 1 else q
    if (bitLen q' : Int) + (e + s) > 1024 then inf neg else canon neg q' (e + s)

/-- The integer `n` as a `float64` (exact for `|n| < 2^53`). -/
def ofInt (n : Int) : F64 := pack (decide (n < 0)) n.natAbs 0 false

/-- Go `-x`. -/
def neg : F64 → F64
  | nan => nan
  | inf s => inf (!s)
  | fin s m e => fin (!s) m e

/-- Go `x + y`. -/
def add : F64 → F64 → F64
  | nan, _ => nan
  | _, nan => nan
  | inf s, inf t => if s = t then inf s else nan
  | inf s, fin _ _ _ => inf s
  | fin _ _ _, inf t => inf t
  | fin s m e, fin t n f =>
    let g := min e f
    let a : Int := (if s then -(m : Int) else m) * 2 ^ (e - g).toNat
    let b : Int := (if t then -(n : Int) else n) * 2 ^ (f - g).toNat
    let c := a + b
    if c = 0 then
      (if m = 0 ∧ n = 0 then fin (s && t) 0 0 else fin false 0 0)
    else pack (decide (c < 0)) c.natAbs g false

/-- Go `x - y`. -/
def sub (x y : F64) : F64 := add x (neg y)

/-- Go `x * y`. -/
def mul : F64 → F64 → F64
  | nan, _ => nan
  | _, nan => nan
  | inf s, inf t => inf (xor s t)
  | inf s, fin t n _ => if n = 0 then nan else inf (xor s t)
  | fin s m _, inf t => if m = 0 then nan else inf (xor s t)
  | fin s m e, fin t n f => pack (xor s t) (m * n) (e + f) false

/-- Go `x / y`. -/
def div : F64 → F64 → F64
  | nan, _ => nan
  | _, nan => nan
  | inf _, inf _ => nan
  | inf s, fin t _ _ => inf (xor s t)
  | fin s _ _, inf t => fin (xor s t) 0 0
  | fin s m e, fin t n f =>
    if n = 0 then (if m = 0 then nan else inf (xor s t))
    else if m = 0 then fin (xor s t) 0 0
    else
      let k := bitLen n + 56
      pack (xor s t) (m * 2 ^ k / n) (e - f - k) (decide (m * 2 ^ k % n ≠ 0))

/-- Go `math.Round`: the nearest integer, halves away from zero. -/
def round : F64 → F64
  | nan => nan
  | inf s => inf s
  | fin s m e =>
    if 0 ≤ e then fin s m e
    else
      let k := (-e).toNat
      let q := m / 2 ^ k
      let r := m % 2 ^ k
      canon s (if 2 ^ k ≤ 2 * r then q + 1 else q) 0

/-- Go `math.Abs`. -/
def abs : F64 → F64
  | nan => nan
  | inf _ => inf false
  | fin _ m e => fin false m e

/-- Go `math.IsNaN`. -/
def isNaN : F64 → Bool
  | nan => true
  | _ => false

/-- Go `math.IsInf(x, 0)`. -/
def isInf : F64 → Bool
  | inf _ => true
  | _ => false

/-- Go `x == y`: false when either is NaN; the two zeros are equal. -/
def eq : F64 → F64 → Bool
  | nan, _ => false
  | _, nan => false
  | fin _ 0 _, fin _ 0 _ => true
  | x, y => decide (x = y)

/-- Go `x < y`: false when either is NaN. -/
def lt : F64 → F64 → Bool
  | nan, _ => false
  | _, nan => false
  | inf s, inf t => s && !t
  | inf s, fin _ _ _ => s
  | fin _ _ _, inf t => !t
  | fin s m e, fin t n f =>
    let g := min e f
    let a : Int := (if s then -(m : Int) else m) * 2 ^ (e - g).toNat
    let b : Int := (if t then -(n : Int) else n) * 2 ^ (f - g).toNat
    decide (a < b)

/-- The value `+0`. -/
def zero : F64 := fin false 0 0

/-- The decimal constant `num / den` as Go converts it to `float64`: the nearest value. -/
def ofRatio (num den : Nat) : F64 := div (ofInt num) (ofInt den)

/-- A value that a `float64` variable can hold. -/
def Valid : F64 → Bool
  | nan => true
  | inf _ => true
  | fin _ m e =>
    (decide (m = 0) && decide (e = 0)) ||
      (decide (m % 2 = 1) && decide (bitLen m ≤ 53) && decide (-1074 ≤ e) &&
        decide ((bitLen m : Int) + e ≤ 1024))

end F64
/-! ## Market indices (`internal/services/market_indices.go`) -/

/-- Go `MarketIndex`. -/
structure MarketIndex where
  Symbol : String
  Name : String
  Price : F64
  Change : F64
  ChangePerc : F64
  UpdatedAt : Time
  IsDelayed : Bool
deriving DecidableEq, Repr

/-- The `Meta` struct of a chart result in Go `YahooResponse`. A field absent from the JSON
document has its zero value. -/
structure ChartMeta where
  Symbol : String
  RegularMarketPrice : F64
  ChartPreviousClose : F64
  PreviousClose : F64
  RegularMarketTime : Int
deriving DecidableEq, Repr

/-- An element of `Indicators.Quote` in Go `YahooResponse`. -/
structure ChartQuote where
  Close : List F64
  Open : List F64
deriving DecidableEq, Repr

/-- An element of `Chart.Result` in Go `YahooResponse`; `Quote` is `Indicators.Quote`. -/
structure ChartResult where
  Meta : ChartMeta
  Timestamp : List Int
  Quote : List ChartQuote
deriving DecidableEq, Repr

/-- The `Chart.Error` struct of Go `YahooResponse`. -/
structure ChartError where
  Code : String
  Description : String
deriving DecidableEq, Repr

/-- Go `YahooResponse` (its `Chart` member). -/
structure YahooResponse where
  Result : List ChartResult
  Error : Option ChartError
deriving DecidableEq, Repr

/-- Go `isValidNumber`. -/
def isValidNumber (n : F64) : Bool := !n.isNaN && !n.isInf

/-- Go `calculateChange`, returning `(change, changePerc)`. -/
def calculateChange (currentPrice previousClose : F64) : F64 × F64 :=
  if !isValidNumber currentPrice || !isValidNumber previousClose then
    (F64.zero, F64.zero)
  else
    let change := currentPrice.sub previousClose
    let changePerc :=
      if previousClose.eq F64.zero || previousClose.abs.lt (F64.ofRatio 1 1000000) then
        F64.zero
      else
        let changePerc := (change.div previousClose).mul (F64.ofInt 100)
        if !isValidNumber changePerc then F64.zero else changePerc
    let change := ((change.mul (F64.ofInt 100)).round).div (F64.ofInt 100)
    let changePerc := ((changePerc.mul (F64.ofInt 100)).round).div (F64.ofInt 100)
    (change, changePerc)

/-- Go `getIndexName`. -/
def getIndexName (symbol : String) : String :=
  if symbol = "^NSEI" then "NIFTY 50"
  else if symbol = "^BSESN" then "BSE SENSEX"
  else symbol

/-- The price and baseline that `fetchSingleIndex` resolves (lines 129-164): the current price,
the previous close and the `isDelayed` flag. -/
def resolvePrice (result : ChartResult) : F64 × F64 × Bool :=
  let currentPrice := result.Meta.RegularMarketPrice
  let previousClose := result.Meta.PreviousClose
  let currentPrice := if !isValidNumber currentPrice then F64.zero else currentPrice
  let previousClose := if !isValidNumber previousClose then F64.zero else previousClose
  match result.Quote with
  | [] => (currentPrice, previousClose, false)
  | quote :: _ =>
    if currentPrice.eq F64.zero && decide (quote.Close.length > 0) then
      let lastIdx := quote.Close.length - 1
      let historicalPrice := quote.Close.getD lastIdx F64.zero
      if isValidNumber historicalPrice then
        let previousClose :=
          if lastIdx > 0 then
            let prevPrice := quote.Close.getD (lastIdx - 1) F64.zero
            if isValidNumber prevPrice then prevPrice else previousClose
          else previousClose
        (historicalPrice, previousClose, true)
      else (currentPrice, previousClose, false)
    else (currentPrice, previousClose, false)

/-- The market time that `fetchSingleIndex` resolves (lines 173-180); `now` is `time.Now()`. -/
def resolveMarketTime (result : ChartResult) (now : Time) : Time :=
  if result.Meta.RegularMarketTime > 0 then result.Meta.RegularMarketTime
  else if result.Timestamp.length > 0 then
    result.Timestamp.getD (result.Timestamp.length - 1) 0
  else now

/-- The part of `fetchSingleIndex` after `result := yahooResp.Chart.Result[0]` (lines 126-190):
the normalization of one decoded chart result. `now` is `time.Now()`. -/
def normalizeQuote (symbol : String) (result : ChartResult) (now : Time) :
    Except String MarketIndex :=
  let (currentPrice, previousClose, isDelayed) := resolvePrice result
  if currentPrice.eq F64.zero then
    .error ("no valid price data available for " ++ symbol)
  else
    let (change, changePerc) := calculateChange currentPrice previousClose
    let marketTime := resolveMarketTime result now
    .ok { Symbol := symbol, Name := getIndexName symbol, Price := currentPrice,
          Change := change, ChangePerc := changePerc, UpdatedAt := marketTime,
          IsDelayed := isDelayed }

/-- Go `fetchSingleIndex(symbol)`. `fetched` is what the HTTP exchange and `json.Unmarshal`
produced: the decoded response, or the error of the request, status check, body read or
decoding. -/
def fetchSingleIndex (symbol : String) (fetched : Except String YahooResponse) (now : Time) :
    Except String MarketIndex :=
  match fetched with
  | .error err => .error err
  | .ok yahooResp =>
    match yahooResp.Error with
    | some e => .error ("yahoo API error: " ++ e.Code ++ " - " ++ e.Description)
    | none =>
      match yahooResp.Result with
      | [] => .error ("no data received for symbol " ++ symbol)
      | result :: _ => normalizeQuote symbol result now

/-- The rounding `math.Round(x*100) / 100` that `calculateChange` applies to both results. -/
def round2 (x : F64) : F64 := ((x.mul (F64.ofInt 100)).round).div (F64.ofInt 100)

/-- A decoded response with one result: the given live price and previous close, and one quote
with the given closes. -/
def mkResponse (live previousClose : F64) (closes : List F64) : YahooResponse :=
  { Result := [{ Meta := { Symbol := "^NSEI", RegularMarketPrice := live,
                           ChartPreviousClose := F64.zero, PreviousClose := previousClose,
                           RegularMarketTime := 1700000000 },
                 Timestamp := [], Quote := [{ Close := closes, Open := [] }] }],
    Error := none }

/-- The `float64` values 100, 105 and 5. -/
def f100 : F64 := F64.fin false 25 2

/-- In the words of the specification: the live price is zero or non-finite. -/
def liveUnusable (result : ChartResult) : Bool :=
  result.Meta.RegularMarketPrice.eq F64.zero || !isValidNumber result.Meta.RegularMarketPrice

/-- In the words of the specification: there is no historical close series, or its last close is zero or
non-finite. -/
def historyUnusable (result : ChartResult) : Bool :=
  match result.Quote with
  | [] => true
  | quote :: _ =>
    match quote.Close.getLast? with
    | none => true
    | some c => c.eq F64.zero || !isValidNumber c

/-- The `float64` value `2^1020` (about `1.1e307`). -/
def f2p1020 : F64 := F64.fin false 1 1020

/-- The `float64` value `2^997` (about `1.3e300`). -/
def f2p997 : F64 := F64.fin false 1 997

/-! ## HTTP handlers and the legacy view (`main.go`, `FetchAllNews`) -/

/-- Go `PaginatedResponse`. -/
structure PaginatedResponse where
  Articles : List Article
  TotalCount : Int
  CurrentPage : Int
  PageSize : Int
  TotalPages : Int
deriving DecidableEq, Repr

/-- Go `FetchAllNews()`: the first 1000 rows of `GetArticles(1, 1000, "")`, converted; the
conversion leaves `Description` and `ImageURL` at their zero values. -/
def FetchAllNews (like : String → String → Bool) (db : DB) : Except String (List Article) :=
  match GetArticles like db 1 1000 "" with
  | .error err => .error err
  | .ok (articles, _) =>
    .ok (articles.map fun article =>
      { title := article.title, url := article.url, source := { name := article.source },
        content := article.content, publishedAt := article.publishedAt, description := "",
        imageURL := "" })

/-- The lines "Ensure valid pagination values" that open both `getNews` and `getNewsFromDB`,
applied to the results of `strconv.Atoi` on the `page` and `pageSize` query parameters (1 and 10
when a parameter is absent, 0 when it is not a number). Returns `(page, pageSize)`. -/
def validPagination (page pageSize : Int) : Int × Int :=
  let page := if page < 1 then 1 else page
  let pageSize := if pageSize < 1 then 10 else pageSize
  let pageSize := if pageSize > 50 then 50 else pageSize
  (page, pageSize)

/-- Go slice expression `s[low:high]` on a slice without spare capacity: a run-time panic unless
`0 <= low <= high <= len(s)`. -/
def sliceRange (s : List Article) (low high : Int) : Run (List Article) :=
  if 0 ≤ low ∧ low ≤ high ∧ high ≤ (s.length : Int) then
    .ret ((s.drop low.toNat).take (high - low).toNat)
  else .panic

/-- Go handler `getNews`: the value passed to `c.JSON(http.StatusOK, ...)`, or the error sent
with status 500. -/
def getNews (like : String → String → Bool) (db : DB) (page pageSize : Int) :
    Run (Except String PaginatedResponse) :=
  let (page, pageSize) := validPagination page pageSize
  match FetchAllNews like db with
  | .error err => .ret (.error err)
  | .ok allNews =>
    let totalCount : Int := allNews.length
    let totalPages := Int.tdiv (totalCount + pageSize - 1) pageSize
    let page := if page > totalPages then totalPages else page
    let page := if page < 1 then 1 else page
    let start := (page - 1) * pageSize
    let stop := start + pageSize
    let stop := if stop > totalCount then totalCount else stop
    if start < totalCount then
      match sliceRange allNews start stop with
      | .ret pagedArticles =>
        .ret (.ok { Articles := pagedArticles, TotalCount := totalCount, CurrentPage := page,
                    PageSize := pageSize, TotalPages := totalPages })
      | .panic => .panic
      | .outOfFuel => .outOfFuel
    else
      .ret (.ok { Articles := [], TotalCount := totalCount, CurrentPage := page,
                  PageSize := pageSize, TotalPages := totalPages })

/-- Go handler `getNewsFromDB`: the value passed to `c.JSON(http.StatusOK, ...)`, or the error
sent with status 500. -/
def getNewsFromDB (like : String → String → Bool) (sh : Shuffle) (fuel : Nat) (db : DB)
    (page pageSize : Int) (search : String) : Run (Except String PaginatedResponse) :=
  let (page, pageSize) := validPagination page pageSize
  match GetNewsFromDB like sh fuel db page pageSize search with
  | .ret (.error err) => .ret (.error err)
  | .ret (.ok (articles, totalCount)) =>
    let totalPages := Int.tdiv (totalCount + pageSize - 1) pageSize
    .ret (.ok { Articles := articles, TotalCount := totalCount, CurrentPage := page,
                PageSize := pageSize, TotalPages := totalPages })
  | .panic => .panic
  | .outOfFuel => .outOfFuel

/-- A store with `n` rows of source A, row `i` published at time `i`. -/
def storeOfSize (n : Nat) : DB :=
  { rows := (List.range n).map fun (i : Nat) => mkRow (Int.ofNat i) "A" (Int.ofNat i),
    seq := Int.ofNat n }

/-- The rows that `GetArticles` counts and pages through: all rows, or with a non-empty search
term those whose title, content or description is `LIKE '%term%'`. -/
def matchingRows (like : String → String → Bool) (db : DB) (search : String) : List DbArticle :=
  if search ≠ "" then
    db.rows.filter fun r =>
      like ("%" ++ search ++ "%") r.title || like ("%" ++ search ++ "%") r.content ||
        like ("%" ++ search ++ "%") r.description
  else db.rows

/-- The value a handler or service call returned, if it returned one without error. -/
def Run.answer {α : Type} : Run (Except String α) → Option α
  | .ret (.ok a) => some a
  | _ => none

/-- The fixed symbol list of `FetchMarketIndices`. -/
def symbols : List String := ["^NSEI", "^BSESN"]

/-- Go `FetchMarketIndices()`; `fetch symbol` is what `fetchSingleIndex(symbol)` returns. -/
def FetchMarketIndices (fetch : String → Except String MarketIndex) :
    Except String (List MarketIndex) :=
  let indices := symbols.foldl (fun indices symbol =>
    match fetch symbol with
    | .error _ => indices
    | .ok index => indices ++ [index]) []
  if indices.length = 0 then .error "no valid market indices data found" else .ok indices

/-- What the handler `getMarketIndices` sends: status 200 with the indices, status 404, or
status 500 with the error. -/
inductive IndicesAnswer
  | ok (indices : List MarketIndex)
  | notFound
  | internalServerError (details : String)
deriving DecidableEq, Repr

/-- Go handler `getMarketIndices`. -/
def getMarketIndices (fetch : String → Except String MarketIndex) : IndicesAnswer :=
  match FetchMarketIndices fetch with
  | .error err => .internalServerError err
  | .ok indices => if indices.length = 0 then .notFound else .ok indices

/-- A store with the single row `mkRow 1 "Groww" 5`, whose URL is `u1` and whose
`lastScrapedAt` is 0. -/
def oneRowStore : DB := { rows := [mkRow 1 "Groww" 5], seq := 1 }

/-! ## SQLite `LIKE` -/

/-- Some suffix of the text (the text itself and the empty suffix included) satisfies `f`. -/
def anySuffix (f : List Char → Bool) : List Char → Bool
  | [] => f []
  | c :: t => f (c :: t) || anySuffix f t

/-- The zero value of Go `time.Time` (1 January of year 1), in seconds. -/
def zeroTime : Time := -62135596800

/-- What an adapter's `OnHTML` callback reads from the element it is called on: the text of the
adapter's title selector and of its fallback title selector, the `href` of the first link, the
text of the description selector, and the `src` and `data-src` of the first image. -/
structure Element where
  title : String
  fallbackTitle : String
  href : String
  description : String
  imgSrc : String
  imgDataSrc : String
deriving DecidableEq, Repr

/-- The functions of Go's `strings` and `unicode` packages whose definition involves the Unicode
tables (`strings.TrimSpace`, `strings.ToLower`, `unicode.IsSpace`); they are parameters of the
models that call them. -/
structure StringsPkg where
  TrimSpace : String → String
  ToLower : String → String
  IsSpace : Char → Bool

/-- Go `strings.HasPrefix`. -/
def HasPrefix (s pre : String) : Bool := pre.toList.isPrefixOf s.toList

/-- Go `strings.Contains`. -/
def Contains (s substr : String) : Bool :=
  anySuffix (fun t => substr.toList.isPrefixOf t) s.toList

/-- The `OnHTML` callback of `ScrapeLivemint` for one `div.listtostory`: the article appended to
`articles`, if any. `now` is `time.Now()`. -/
def livemintArticle (sp : StringsPkg) (now : Time) (el : Element) : Option Article :=
  let article : Article :=
    { title := sp.TrimSpace el.title, description := sp.TrimSpace el.description,
      url := el.href, source := { name := "Livemint" }, publishedAt := now, content := "",
      imageURL := "" }
  let article :=
    if !HasPrefix article.url "http" then
      { article with url := "https://www.livemint.com" ++ article.url }
    else article
  let article := if el.imgSrc ≠ "" then { article with imageURL := el.imgSrc } else article
  if article.title ≠ "" then some article else none

/-- The `OnHTML` callback of `ScrapeEconomicTimes` for one `div.eachStory`. -/
def economicTimesArticle (sp : StringsPkg) (now : Time) (e : Element) : Option Article :=
  let article : Article :=
    { title := sp.TrimSpace e.title, description := sp.TrimSpace e.description,
      url := "https://economictimes.indiatimes.com" ++ e.href,
      source := { name := "Economic Times" }, publishedAt := now, content := "",
      imageURL := "" }
  let article := if e.imgSrc ≠ "" then { article with imageURL := e.imgSrc } else article
  if article.title ≠ "" then some article else none

/-- The `OnHTML` callback of `ScrapeMoneyControl` for one `li.clearfix`. -/
def moneyControlArticle (sp : StringsPkg) (now : Time) (e : Element) : Option Article :=
  let title := sp.TrimSpace e.title
  let title := if title = "" then sp.TrimSpace e.fallbackTitle else title
  let url := e.href
  let description := sp.TrimSpace e.description
  if title = "" ∨ url = "" then none
  else if !Contains (sp.ToLower url) "markets" && !Contains (sp.ToLower url) "stocks" then none
  else
    let article : Article :=
      { title := title, description := description, url := url,
        source := { name := "MoneyControl" }, publishedAt := now, content := "",
        imageURL := "" }
    let article :=
      if !HasPrefix article.url "http" then
        { article with url := "https://www.moneycontrol.com" ++ article.url }
      else article
    let imageURL := e.imgDataSrc
    let imageURL := if imageURL = "" then e.imgSrc else imageURL
    let article := if imageURL ≠ "" then { article with imageURL := imageURL } else article
    some article

/-- The `OnHTML` callback of `ScrapeGroww` for one news card. The composite literal sets no
`PublishedAt`, which is therefore the zero `time.Time`. -/
def growwArticle (e : Element) : Option Article :=
  let title := e.title
  let link := e.href
  let description := e.description
  let imageURL := e.imgSrc
  if title ≠ "" ∧ link ≠ "" then
    let link := if !HasPrefix link "http" then "https://groww.in" ++ link else link
    some { title := title, url := link, source := { name := "Groww" }, imageURL := imageURL,
           description := description, content := "", publishedAt := zeroTime }
  else none

/-- The `OnHTML` callback of `ScrapeBusinessStandard` for one element. The composite literal
sets no `PublishedAt`, which is therefore the zero `time.Time`. -/
def businessStandardArticle (e : Element) : Option Article :=
  let title := e.title
  let link := e.href
  let description := e.description
  let imageURL := e.imgSrc
  if title ≠ "" ∧ link ≠ "" then
    let link :=
      if !HasPrefix link "http" then "https://www.business-standard.com" ++ link else link
    some { title := title, url := link, source := { name := "Business Standard" },
           imageURL := imageURL, description := description, content := "",
           publishedAt := zeroTime }
  else none

/-- The `OnHTML` callback of `ScrapeIndiaToday` for one element. -/
def indiaTodayArticle (sp : StringsPkg) (now : Time) (e : Element) : Option Article :=
  let title := sp.TrimSpace e.title
  let link := e.href
  let description := sp.TrimSpace e.description
  let imageURL := e.imgSrc
  if title = "" ∨ link = "" then none
  else
    let link := if !HasPrefix link "http" then "https://www.indiatoday.in" ++ link else link
    if !Contains (sp.ToLower title) "stock" && !Contains (sp.ToLower title) "market" &&
        !Contains (sp.ToLower title) "sensex" && !Contains (sp.ToLower title) "nifty" &&
        !Contains (sp.ToLower link) "market" then none
    else
      let article : Article :=
        { title := title, description := description, url := link,
          source := { name := "India Today" }, publishedAt := now, content := "",
          imageURL := "" }
      let article := if imageURL ≠ "" then { article with imageURL := imageURL } else article
      some article

/-- An element with title `T` and link `/x`. -/
def sampleElement : Element :=
  { title := "T", fallbackTitle := "", href := "/x", description := "", imgSrc := "",
    imgDataSrc := "" }

/-! ### The numbers behind `float64` values -/

/-- The rational number a finite `float64` stands for (0 for NaN and the infinities). -/
def F64.toRat : F64 → ℚ
  | .nan => 0
  | .inf _ => 0
  | .fin s m e => (if s then -1 else 1) * (m : ℚ) * (2 : ℚ) ^ e

/-- Rounding of a rational number to the nearest integer, halves away from zero:
`sign(x) * floor(|x| + 1/2)`. -/
def roundHalfAway (x : ℚ) : ℤ :=
  if x < 0 then -⌊-x + 1 / 2⌋ else ⌊x + 1 / 2⌋

/-- In the words of the specification: rounding to 2 decimal places with
round-half-away-from-zero, `sign(x) * floor(|x| * 100 + 1/2) / 100`. -/
def specRound2 (x : ℚ) : ℚ := (roundHalfAway (x * 100) : ℚ) / 100

/-- The `float64` values that the decimals 101.005, 1.115, 1.12 and 1 denote. -/
def f101_005 : F64 := F64.fin false 888449375708119 (-43)

@[inherit_doc f101_005]
def f1_115 : F64 := F64.fin false 5021513584518103 (-52)

@[inherit_doc f101_005]
def f1_12 : F64 := F64.fin false 1261007895663739 (-50)

@[inherit_doc f101_005]
def f1 : F64 := F64.fin false 1 0

/-! ## The extractive summarizer (`internal/services/summarizer.go`) -/

/-- Go `TextSummarizer`. -/
structure TextSummarizer where
  maxSentences : Int
deriving DecidableEq, Repr

/-- Go `NewTextSummarizer`. -/
def NewTextSummarizer (maxSentences : Int) : TextSummarizer :=
  { maxSentences := if maxSentences ≤ 0 then 5 else maxSentences }

/-- Go `strings.FieldsFunc`: the maximal pieces of `s` between characters that satisfy `f`,
empty pieces left out. -/
def FieldsFunc (s : String) (f : Char → Bool) : List String :=
  ((s.toList.splitOnP f).filter fun piece => piece ≠ []).map String.mk

/-- Go `strings.Trim(s, cutset)`: `s` without its leading and trailing characters that occur
in `cutset`. -/
def Trim (s cutset : String) : String :=
  String.mk ((s.toList.dropWhile fun c => cutset.toList.contains c).rdropWhile
    fun c => cutset.toList.contains c)

/-- The cutset of `scoreSentence`. -/
def punctuation : String := ".,!?\"'()[]\x7b\x7d"

/-- Go `splitIntoSentences`. -/
def splitIntoSentences (sp : StringsPkg) (text : String) : List String :=
  let text := sp.TrimSpace text
  let sentences := FieldsFunc text fun r => r == '.' || r == '!' || r == '?'
  sentences.foldl (fun result s =>
    let s := sp.TrimSpace s
    if s ≠ "" then result ++ [s ++ "."] else result) []

/-- Go `scoreSentence`. The map `wordFreq` is the function that counts the occurrences of a word
among the trimmed, lower-cased, non-empty words of the full text. -/
def scoreSentence (sp : StringsPkg) (sentence fullText : String) : F64 :=
  let words := FieldsFunc sentence sp.IsSpace
  if words.length = 0 then F64.zero
  else
    let counted := ((FieldsFunc fullText sp.IsSpace).map fun word =>
      sp.ToLower (Trim word punctuation)).filter fun word => word ≠ ""
    let wordFreq : String → Int := fun word => (counted.count word : Int)
    let score := words.foldl (fun score word =>
      let word := sp.ToLower (Trim word punctuation)
      if word ≠ "" then score.add (F64.ofInt (wordFreq word)) else score) F64.zero
    score.div (F64.ofInt (words.length : Int))

/-- The local type `scoredSentence` of `Summarize`. -/
structure ScoredSentence where
  sentence : String
  score : F64
deriving DecidableEq, Repr

/-- Go `scored[i], scored[j] = scored[j], scored[i]`. -/
def swapAt (scored : List ScoredSentence) (i j : Nat) : List ScoredSentence :=
  match scored[i]?, scored[j]? with
  | some a, some b => (scored.set i b).set j a
  | _, _ => scored

/-- The inner loop `for j := ...; j < len(scored); j++` of the sort in `Summarize`, from index
`j` on, with `n` iterations left: positions `i` and `j` are exchanged when
`scored[j].score > scored[i].score`. -/
def sortInner (i : Nat) : Nat → Nat → List ScoredSentence → List ScoredSentence
  | 0, _, scored => scored
  | n + 1, j, scored =>
    let scored :=
      match scored[i]?, scored[j]? with
      | some a, some b => if a.score.lt b.score then swapAt scored i j else scored
      | _, _ => scored
    sortInner i n (j + 1) scored

/-- The outer loop `for i := ...; i < len(scored)-1; i++` of the sort in `Summarize`, from index
`i` on, with `n` iterations left. -/
def sortOuter : Nat → Nat → List ScoredSentence → List ScoredSentence
  | 0, _, scored => scored
  | n + 1, i, scored =>
    sortOuter n (i + 1) (sortInner i (scored.length - (i + 1)) (i + 1) scored)

/-- The sort "by score (descending)" of `Summarize`. -/
def sortByScore (scored : List ScoredSentence) : List ScoredSentence :=
  sortOuter (scored.length - 1) 0 scored

/-- The slice `summary` that `Summarize` joins, for a text with more sentences than
`maxSentences`: the first sentence, then the first `maxSentences - 1` sentences of the sorted
rest. -/
def summaryOf (sp : StringsPkg) (ts : TextSummarizer) (text : String) (first : String)
    (rest : List String) : List String :=
  let scored := rest.map fun sent =>
    ({ sentence := sent, score := scoreSentence sp sent text } : ScoredSentence)
  let scored := sortByScore scored
  [first] ++ (scored.take (ts.maxSentences - 1).toNat).map fun s => s.sentence

/-- Go `(*TextSummarizer).Summarize`. -/
def Summarize (sp : StringsPkg) (ts : TextSummarizer) (text : String) : Except String String :=
  if text = "" then .error "empty text provided"
  else
    match splitIntoSentences sp text with
    | [] => .error "no sentences found in text"
    | first :: rest =>
      if ((first :: rest).length : Int) ≤ ts.maxSentences then
        .ok (" ".intercalate (first :: rest))
      else
        .ok (" ".intercalate (summaryOf sp ts text first rest))

/-- An instance of the library functions: trimming and space detection for the ASCII blank,
tab and line ends, lower-casing of the ASCII letters. -/
def asciiStrings : StringsPkg :=
  { TrimSpace := fun s =>
      String.mk ((s.toList.dropWhile Char.isWhitespace).rdropWhile Char.isWhitespace)
    ToLower := fun s => String.mk (s.toList.map Char.toLower)
    IsSpace := Char.isWhitespace }

/-- Before position `i` the list is in its final order: no element after one of these positions
has a strictly higher score. -/
def NoLaterGreater (l : List ScoredSentence) (i : Nat) : Prop :=
  ∀ p q a b, p < i → p < q → l[p]? = some a → l[q]? = some b → a.score.lt b.score = false

/-- No element at a position strictly between `i` and `j` has a strictly higher score than the
one at `i`. -/
def InnerDone (l : List ScoredSentence) (i j : Nat) : Prop :=
  ∀ q a b, i < q → q < j → l[i]? = some a → l[q]? = some b → a.score.lt b.score = false

/-- A text for the summarizer examples: five sentences. -/
def sampleText : String :=
  "Stocks rose today. The market was calm! Was it? Stocks stocks stocks. a b c d."

/-- The part of `getNews` that follows the fetch (lines 108-116 and 126-149), for the fetched
list `allNews`: the response, or a run-time panic of the slice expression. -/
def getNewsPage (allNews : List Article) (page pageSize : Int) : Run PaginatedResponse :=
  let (page, pageSize) := validPagination page pageSize
  let totalCount : Int := allNews.length
  let totalPages := Int.tdiv (totalCount + pageSize - 1) pageSize
  let page := if page > totalPages then totalPages else page
  let page := if page < 1 then 1 else page
  let start := (page - 1) * pageSize
  let stop := start + pageSize
  let stop := if stop > totalCount then totalCount else stop
  if start < totalCount then
    match sliceRange allNews start stop with
    | .ret pagedArticles =>
      .ret { Articles := pagedArticles, TotalCount := totalCount, CurrentPage := page,
             PageSize := pageSize, TotalPages := totalPages }
    | .panic => .panic
    | .outOfFuel => .outOfFuel
  else
    .ret { Articles := [], TotalCount := totalCount, CurrentPage := page,
           PageSize := pageSize, TotalPages := totalPages }

/-- The indices `start` and `end` that `getNews` computes (lines 126-141) for `totalCount`
fetched articles and the requested page and page size, and whether the guard
`start < totalCount` of the slice expression `allNews[start:end]` holds. -/
def sliceBounds (totalCount page pageSize : Int) : Int × Int × Bool :=
  let (page, pageSize) := validPagination page pageSize
  let totalPages := Int.tdiv (totalCount + pageSize - 1) pageSize
  let page := if page > totalPages then totalPages else page
  let page := if page < 1 then 1 else page
  let start := (page - 1) * pageSize
  let stop := start + pageSize
  let stop := if stop > totalCount then totalCount else stop
  (start, stop, decide (start < totalCount))

/-- The state of the selection loop after `k` iterations from `st`: `none` when the loop has
exited, or stopped with a panic, before. -/
def loopAfter (pageSize : Int) (articles : List DbArticle) (sources : List String) :
    Nat → LoopState → Option LoopState
  | 0, st => some st
  | k + 1, st =>
    if (st.selectedArticles.length : Int) < pageSize ∧
        st.selectedArticles.length < articles.length then
      match sources[st.sourceIndex % sources.length]? with
      | none => none
      | some source =>
        match st.sourceGroups.get source with
        | a :: rest =>
          loopAfter pageSize articles sources k
            { selectedArticles := st.selectedArticles ++ [a],
              sourceGroups := st.sourceGroups.set source rest,
              sourceIndex := st.sourceIndex + 1 }
        | [] =>
          loopAfter pageSize articles sources k { st with sourceIndex := st.sourceIndex + 1 }
    else none

/-- The state in which `GetNewsFromDB` enters the selection loop for the window `articles`. -/
def loopEntry (sh : Shuffle) (articles : List DbArticle) : LoopState :=
  { selectedArticles := [], sourceGroups := shuffleGroups sh (groupBySource articles).1,
    sourceIndex := 0 }

/-! # Properties -/

/-! ## The store and ingestion -/

theorem any_url_eq_false {rows : List DbArticle} {url : String}
    (h : ∀ r ∈ rows, r.url ≠ url) : (rows.any fun r => r.url == url) = false := by
  simpa [List.any_eq_false] using h

theorem any_url_eq_true {rows : List DbArticle} {url : String} {r : DbArticle}
    (hr : r ∈ rows) (h : r.url = url) : (rows.any fun r => r.url == url) = true := by
  simp only [List.any_eq_true, beq_iff_eq]
  exact ⟨r, hr, h⟩

theorem storeArticle_absent (now : Time) (st : IngestState) (a : Article)
    (h : ∀ r ∈ st.db.rows, r.url ≠ a.url) :
    storeArticle now st a =
      { db := { rows := st.db.rows ++ [newRow st.db now a], seq := st.db.seq + 1 },
        totalStored := st.totalStored + 1, totalSkipped := st.totalSkipped } := by
  simp [storeArticle, IsArticleScraped, InsertArticle, any_url_eq_false h, newRow]

theorem storeArticle_present (now : Time) (st : IngestState) (a : Article) (r : DbArticle)
    (hr : r ∈ st.db.rows) (h : r.url = a.url) :
    storeArticle now st a = { st with totalSkipped := st.totalSkipped + 1 } := by
  simp [storeArticle, IsArticleScraped, any_url_eq_true hr h]

theorem storeArticles_single (clock : Nat → Time) (a : Article) (st : IngestState) :
    storeArticles clock [a] st = storeArticle (clock 0) st a := by
  simp [storeArticles, storeArticlesFrom]

theorem storeArticles_pair (clock : Nat → Time) (a b : Article) (st : IngestState) :
    storeArticles clock [a, b] st = storeArticle (clock 1) (storeArticle (clock 0) st a) b := by
  simp [storeArticles, storeArticlesFrom]

theorem insert_present (db : DB) (now : Time) (t u s c d : String) (p : Time) (r : DbArticle)
    (hr : r ∈ db.rows) (h : r.url = u) :
    InsertArticle db now t u s c d p = .ok { rows := db.rows, seq := db.seq + 1 } := by
  simp [InsertArticle, any_url_eq_true hr h]

theorem insert_rows (db : DB) (now : Time) (t u s c d : String) (p : Time) :
    ∃ db', InsertArticle db now t u s c d p = .ok db' ∧
      (db'.rows = db.rows ∨
        ((∀ r ∈ db.rows, r.url ≠ u) ∧ ∃ r, r.url = u ∧ db'.rows = db.rows ++ [r])) := by
  unfold InsertArticle
  by_cases h : (db.rows.any fun r => r.url == u) = true
  · exact ⟨{ rows := db.rows, seq := db.seq + 1 }, by rw [if_pos h], Or.inl rfl⟩
  · refine ⟨_, by simp [h]; rfl, Or.inr ⟨?_, _, rfl, rfl⟩⟩
    simpa [List.any_eq_true] using h

/-- Rows are only ever appended: a sequence of inserts keeps the old rows as a prefix, and keeps
the URLs pairwise distinct when they were so before. -/
theorem insertAll_spec (calls : List (Time × Article)) (db : DB)
    (hnd : (db.rows.map (·.url)).Nodup) :
    ((insertAll db calls).rows.map (·.url)).Nodup ∧
      ∃ extra, (insertAll db calls).rows = db.rows ++ extra := by
  induction calls generalizing db with
  | nil => exact ⟨hnd, [], by simp [insertAll]⟩
  | cons c cs ih =>
    obtain ⟨db', hins, hrows⟩ :=
      insert_rows db c.1 c.2.title c.2.url c.2.source.name c.2.content c.2.description
        c.2.publishedAt
    have hstep : insertAll db (c :: cs) = insertAll db' cs := by
      simp [insertAll, hins]
    rw [hstep]
    rcases hrows with hsame | ⟨habs, r, hru, happ⟩
    · obtain ⟨h1, extra, h2⟩ := ih db' (by rw [hsame]; exact hnd)
      exact ⟨h1, extra, by rw [h2, hsame]⟩
    · have hnd' : (db'.rows.map (·.url)).Nodup := by
        rw [happ, List.map_append, List.nodup_append]
        refine ⟨hnd, by simp, ?_⟩
        intro a ha hb
        simp only [List.map_cons, List.map_nil, List.mem_singleton] at hb
        obtain ⟨r', hr', rfl⟩ := List.mem_map.1 ha
        exact habs r' hr' (by rw [hb, hru])
      obtain ⟨h1, extra, h2⟩ := ih db' hnd'
      exact ⟨h1, [r] ++ extra, by rw [h2, happ, List.append_assoc]⟩

theorem insertAll_append (db : DB) (c1 c2 : List (Time × Article)) :
    insertAll db (c1 ++ c2) = insertAll (insertAll db c1) c2 := by
  simp [insertAll, List.foldl_append]

/-- The ingestion step touches the table through `InsertArticle` only: one call when the
existence probe does not find the URL, none when it does. -/
theorem storeArticle_db (now : Time) (st : IngestState) (a : Article) :
    ∃ calls, (storeArticle now st a).db = insertAll st.db calls := by
  cases h : st.db.rows.any fun r => r.url == a.url with
  | true =>
    refine ⟨[], ?_⟩
    simp only [storeArticle, IsArticleScraped, insertAll, h, List.foldl_nil, Bool.not_true,
      Bool.false_eq_true, if_false, if_true]
  | false =>
    refine ⟨[(now, a)], ?_⟩
    simp only [storeArticle, IsArticleScraped, InsertArticle, insertAll, h, List.foldl_cons,
      List.foldl_nil, Bool.not_false, Bool.false_eq_true, if_false, if_true]

theorem storeArticlesFrom_db (clock : Nat → Time) (articles : List Article) :
    ∀ (i : Nat) (st : IngestState),
      ∃ calls, (storeArticlesFrom clock i articles st).db = insertAll st.db calls := by
  induction articles with
  | nil => intro i st; exact ⟨[], rfl⟩
  | cons a rest ih =>
    intro i st
    obtain ⟨calls, h⟩ := ih (i + 1) (storeArticle (clock i) st a)
    obtain ⟨first, h0⟩ := storeArticle_db (clock i) st a
    refine ⟨first ++ calls, ?_⟩
    rw [storeArticlesFrom, h, h0, insertAll_append]

theorem storeArticles_db (clock : Nat → Time) (articles : List Article) (st : IngestState) :
    ∃ calls, (storeArticles clock articles st).db = insertAll st.db calls := by
  unfold storeArticles
  split_ifs
  · exact ⟨[], rfl⟩
  · exact storeArticlesFrom_db clock articles 0 st

/-- An ingestion run that returns has changed the table by `InsertArticle` calls only. -/
theorem ScrapeAndStoreNews_db {o : Outcomes} {clocks : Nat → Nat → Time} {db : DB}
    {err : Option String} {st : IngestState}
    (h : ScrapeAndStoreNews o clocks db = some (err, st)) :
    ∃ calls, st.db = insertAll db calls := by
  have key : ∀ (ps : List (Nat × Msg)) (st0 : IngestState),
      ∃ calls, (ps.foldl (fun st p => storeArticles (clocks p.1) p.2.slice st) st0).db =
        insertAll st0.db calls := by
    intro ps
    induction ps with
    | nil => intro st0; exact ⟨[], rfl⟩
    | cons p ps ih =>
      intro st0
      obtain ⟨c1, h1⟩ := storeArticles_db (clocks p.1) p.2.slice st0
      obtain ⟨c2, h2⟩ := ih (storeArticles (clocks p.1) p.2.slice st0)
      exact ⟨c1 ++ c2, by rw [List.foldl_cons, h2, h1, insertAll_append]⟩
  unfold ScrapeAndStoreNews at h
  cases hc : collect receiveOrder (spawn o) with
  | none => simp [hc] at h
  | some msgs =>
    simp only [hc, Option.some.injEq, Prod.mk.injEq] at h
    obtain ⟨calls, hcalls⟩ := key msgs.enum { db := db, totalStored := 0, totalSkipped := 0 }
    exact ⟨calls, by rw [← h.2]; exact hcalls⟩

/-- C3. Starting from the empty `articles` table, after any sequence of `InsertArticle` calls
no two rows share a URL (the URLs of the rows, listed row by row, have no repetition); and a
row that exists after some calls is still there, with every field unchanged, after any further
calls: every later row with the same URL is that very row, so its title, source, content,
description and publishedAt are the ones first inserted. An ingestion run that returns changes
the table through `InsertArticle` calls only, so the same holds after every ingestion run. -/
theorem C3_store_invariant (calls later : List (Time × Article)) :
    ((insertAll InitDB calls).rows.map (·.url)).Nodup ∧
    (∀ r ∈ (insertAll InitDB calls).rows,
      r ∈ (insertAll (insertAll InitDB calls) later).rows ∧
      ∀ r' ∈ (insertAll (insertAll InitDB calls) later).rows, r'.url = r.url →
        r' = r ∧ r'.title = r.title ∧ r'.source = r.source ∧ r'.content = r.content ∧
          r'.description = r.description ∧ r'.publishedAt = r.publishedAt) ∧
    (∀ (o : Outcomes) (clocks : Nat → Nat → Time) (err : Option String) (st : IngestState),
      ScrapeAndStoreNews o clocks (insertAll InitDB calls) = some (err, st) →
      (st.db.rows.map (·.url)).Nodup ∧
      ∀ r ∈ (insertAll InitDB calls).rows, r ∈ st.db.rows ∧
        ∀ r' ∈ st.db.rows, r'.url = r.url → r' = r) := by
  have h0 : ((InitDB).rows.map (·.url)).Nodup := by simp [InitDB]
  obtain ⟨hnd1, -⟩ := insertAll_spec calls InitDB h0
  have keep : ∀ further : List (Time × Article),
      ((insertAll (insertAll InitDB calls) further).rows.map (·.url)).Nodup ∧
      ∀ r ∈ (insertAll InitDB calls).rows,
        r ∈ (insertAll (insertAll InitDB calls) further).rows ∧
        ∀ r' ∈ (insertAll (insertAll InitDB calls) further).rows, r'.url = r.url → r' = r := by
    intro further
    obtain ⟨hnd2, extra, hpre⟩ := insertAll_spec further (insertAll InitDB calls) hnd1
    refine ⟨hnd2, fun r hr => ?_⟩
    have hmem : r ∈ (insertAll (insertAll InitDB calls) further).rows := by
      rw [hpre]; exact List.mem_append_left _ hr
    exact ⟨hmem, fun r' hr' hurl => List.inj_on_of_nodup_map hnd2 hr' hmem hurl⟩
  refine ⟨hnd1, ?_, ?_⟩
  · intro r hr
    obtain ⟨hmem, huniq⟩ := (keep later).2 r hr
    refine ⟨hmem, fun r' hr' hurl => ?_⟩
    have : r' = r := huniq r' hr' hurl
    subst this
    exact ⟨rfl, rfl, rfl, rfl, rfl, rfl⟩
  · intro o clocks err st hrun
    obtain ⟨further, hdb⟩ := ScrapeAndStoreNews_db hrun
    rw [hdb]
    exact keep further

/-- C2. For every store state and every article whose URL is absent from it, submitting the
article twice through the ingestion step leaves exactly one row with that URL; the first
submission adds one to `totalStored` and nothing to `totalSkipped`, the second adds one to
`totalSkipped` and nothing to `totalStored` and leaves the database unchanged. The same holds
when both submissions are in one batch. -/
theorem C2_idempotent_ingestion (db : DB) (a : Article) (clock1 clock2 : Nat → Time)
    (stored skipped : Int) (habs : ∀ r ∈ db.rows, r.url ≠ a.url) :
    let st0 : IngestState := { db := db, totalStored := stored, totalSkipped := skipped }
    let st1 := storeArticles clock1 [a] st0
    let st2 := storeArticles clock2 [a] st1
    (st2.db.rows.filter fun r => r.url == a.url).length = 1 ∧
      st1.totalStored = stored + 1 ∧ st1.totalSkipped = skipped ∧
      st2.totalSkipped = skipped + 1 ∧ st2.totalStored = stored + 1 ∧
      st2.db = st1.db ∧
      (st1.db.rows.filter fun r => r.url == a.url).length = 1 ∧
      storeArticles clock1 [a, a] st0 = { st2 with db := st1.db } := by
  intro st0 st1 st2
  have h1 : st1 = { db := { rows := db.rows ++ [newRow db (clock1 0) a], seq := db.seq + 1 },
                    totalStored := stored + 1, totalSkipped := skipped } := by
    show storeArticles clock1 [a] st0 = _
    rw [storeArticles_single, storeArticle_absent _ _ _ habs]
  have hmem : newRow db (clock1 0) a ∈ st1.db.rows := by rw [h1]; simp
  have h2 : st2 = { st1 with totalSkipped := st1.totalSkipped + 1 } := by
    show storeArticles clock2 [a] st1 = _
    rw [storeArticles_single, storeArticle_present _ _ _ _ hmem rfl]
  have hfil : (db.rows.filter fun r => r.url == a.url) = [] := by
    simp only [List.filter_eq_nil_iff, beq_iff_eq]
    exact fun r hr => habs r hr
  have hcount : (st1.db.rows.filter fun r => r.url == a.url).length = 1 := by
    rw [h1]; simp [List.filter_append, hfil, newRow, List.filter_cons]
  have hpair : storeArticles clock1 [a, a] st0 = { st2 with db := st1.db } := by
    rw [storeArticles_pair]
    have e1 : storeArticle (clock1 0) st0 a = st1 := by
      rw [h1, storeArticle_absent _ _ _ habs]
    rw [e1, storeArticle_present _ _ _ _ hmem rfl, h2]
  refine ⟨?_, ?_, ?_, ?_, ?_, ?_, hcount, hpair⟩
  · rw [h2]; exact hcount
  · rw [h1]
  · rw [h1]
  · rw [h2, h1]
  · rw [h2, h1]
  · rw [h2]

/-- C2, at a store holding one other article. -/
theorem C2_idempotent_ingestion_witness :
    (∀ r ∈ ([{ id := 1, title := "x", url := "u0", source := "Groww", content := "",
               description := "", publishedAt := 0, createdAt := 0, lastScrapedAt := 0 }] :
              List DbArticle), r.url ≠ (mkArticle "u1" "Groww").url) ∧
    (let st0 : IngestState :=
        { db := { rows := [{ id := 1, title := "x", url := "u0", source := "Groww",
                             content := "", description := "", publishedAt := 0,
                             createdAt := 0, lastScrapedAt := 0 }], seq := 1 },
          totalStored := 0, totalSkipped := 0 }
     let st1 := storeArticles (fun _ => 7) [mkArticle "u1" "Groww"] st0
     let st2 := storeArticles (fun _ => 9) [mkArticle "u1" "Groww"] st1
     (st2.db.rows.filter fun r => r.url == (mkArticle "u1" "Groww").url).length = 1 ∧
       st1.totalStored = 0 + 1 ∧ st1.totalSkipped = 0 ∧
       st2.totalSkipped = 0 + 1 ∧ st2.totalStored = 0 + 1 ∧
       st2.db = st1.db ∧
       (st1.db.rows.filter fun r => r.url == (mkArticle "u1" "Groww").url).length = 1 ∧
       storeArticles (fun _ => 7) [mkArticle "u1" "Groww", mkArticle "u1" "Groww"] st0 =
         { st2 with db := st1.db }) :=
  ⟨by decide,
   C2_idempotent_ingestion _ (mkArticle "u1" "Groww") (fun _ => 7) (fun _ => 9) 0 0 (by decide)⟩

/-- When every adapter succeeds the six receives all complete and the call returns `nil`. -/
theorem ScrapeAndStoreNews_returns_of_all_ok (l e m g b i : List Article)
    (clocks : Nat → Nat → Time) (db : DB) :
    ∃ st, ScrapeAndStoreNews
      { livemint := .ok l, et := .ok e, mc := .ok m, groww := .ok g, bs := .ok b,
        indiaToday := .ok i } clocks db = some (none, st) := by
  simp [ScrapeAndStoreNews, collect, receiveOrder, spawn, scrapeTask, rendezvous]

/-- With all six adapters succeeding on one fresh article each, the run stores six rows. -/
theorem ScrapeAndStoreNews_allSucceed :
    ∃ st, ScrapeAndStoreNews allSucceed (fun _ _ => 0) InitDB = some (none, st) ∧
      st.totalStored = 6 ∧ st.totalSkipped = 0 ∧ st.db.rows.length = 6 :=
  ⟨_, rfl, by decide, by decide, by decide⟩

/-- C1 (as the code behaves). For every assignment of outcomes to the six adapters in which at
least one adapter returns an error, `ScrapeAndStoreNews` never returns: the failing goroutine
blocks in `errorChan <- err`, a send on an unbuffered channel that nobody receives from, so its
`nil` result is never sent and the caller blocks in the receive from that result channel. -/
theorem C1_never_returns_on_adapter_error (o : Outcomes) (clocks : Nat → Nat → Time) (db : DB)
    (h : o.anyFailed = true) : ScrapeAndStoreNews o clocks db = none := by
  obtain ⟨l, e, m, g, b, i⟩ := o
  cases l <;> cases e <;> cases m <;> cases g <;> cases b <;> cases i <;>
    simp_all [Outcomes.anyFailed, failed, ScrapeAndStoreNews, collect, receiveOrder, spawn,
      scrapeTask, rendezvous]

/-- C1, with Groww failing and the five other adapters returning one article each: the run
does not return, and none of the five articles reaches the store. -/
theorem C1_never_returns_on_adapter_error_witness :
    growwFails.anyFailed = true ∧ ScrapeAndStoreNews growwFails (fun _ _ => 0) InitDB = none :=
  ⟨by decide, C1_never_returns_on_adapter_error growwFails (fun _ _ => 0) InitDB (by decide)⟩

/-! ## Balanced retrieval -/

theorem SourceGroups.get_set_same (m : SourceGroups) (k : String) (v : List DbArticle) :
    (m.set k v).get k = v := by
  simp [SourceGroups.get, SourceGroups.set]

theorem SourceGroups.get_set_other (m : SourceGroups) {k k' : String} (v : List DbArticle)
    (h : k' ≠ k) : (m.set k v).get k' = m.get k' := by
  simp [SourceGroups.get, SourceGroups.set, h]

/-- What the grouping loop computes: each group is the sub-list of the window's articles of
that source, and `sources` lists, without repetition, the sources that occur. -/
theorem groupBySource_spec (articles : List DbArticle) :
    (∀ s, (groupBySource articles).1.get s = articles.filter fun a => a.source == s) ∧
    (∀ s, ((groupBySource articles).1 s).isSome = true ↔ s ∈ (groupBySource articles).2) ∧
    (groupBySource articles).2.Nodup ∧
    (∀ s, s ∈ (groupBySource articles).2 ↔ ∃ a ∈ articles, a.source = s) := by
  induction articles using List.reverseRecOn with
  | nil => simp [groupBySource, SourceGroups.get]
  | append_singleton l a ih =>
    obtain ⟨h1, h2, h3, h4⟩ := ih
    have hstep : groupBySource (l ++ [a]) = groupStep (groupBySource l) a := by
      simp [groupBySource, List.foldl_append]
    rw [hstep]
    refine ⟨?_, ?_, ?_, ?_⟩
    · intro s
      by_cases hs : s = a.source
      · subst hs
        simp only [groupStep, SourceGroups.get_set_same, h1, List.filter_append]
        simp
      · simp only [groupStep, SourceGroups.get_set_other _ _ hs, h1, List.filter_append]
        have : (a.source == s) = false := by simpa using fun h => hs h.symm
        simp [this]
    · intro s
      by_cases hs : s = a.source
      · subst hs
        by_cases hp : ((groupBySource l).1 a.source).isSome = true
        · simp [groupStep, SourceGroups.set, hp, (h2 _).1 hp]
        · simp [groupStep, SourceGroups.set, hp]
      · by_cases hp : ((groupBySource l).1 a.source).isSome = true
        · simp [groupStep, SourceGroups.set, hp, hs, h2]
        · simp [groupStep, SourceGroups.set, hp, hs, h2]
    · by_cases hp : ((groupBySource l).1 a.source).isSome = true
      · simpa [groupStep, hp] using h3
      · have hnot : a.source ∉ (groupBySource l).2 := fun hm => hp ((h2 _).2 hm)
        simp only [groupStep, hp]
        exact List.Nodup.append h3 (List.nodup_singleton _) (by simpa using hnot)
    · intro s
      by_cases hp : ((groupBySource l).1 a.source).isSome = true
      · have hin : a.source ∈ (groupBySource l).2 := (h2 _).1 hp
        simp only [groupStep, hp, if_true, h4, List.mem_append, List.mem_singleton]
        constructor
        · rintro ⟨b, hb, rfl⟩; exact ⟨b, Or.inl hb, rfl⟩
        · rintro ⟨b, hb | rfl, rfl⟩
          · exact ⟨b, hb, rfl⟩
          · exact (h4 _).1 hin
      · have hp' : ((groupBySource l).1 a.source).isSome = false := by simpa using hp
        have e : (groupStep (groupBySource l) a).2 = (groupBySource l).2 ++ [a.source] := by
          simp [groupStep, hp']
        rw [e]
        simp only [List.mem_append, List.mem_singleton, h4]
        constructor
        · rintro (⟨b, hb, rfl⟩ | rfl)
          · exact ⟨b, Or.inl hb, rfl⟩
          · exact ⟨a, Or.inr rfl, rfl⟩
        · rintro ⟨b, hb | rfl, rfl⟩
          · exact Or.inl ⟨b, hb, rfl⟩
          · exact Or.inr rfl

theorem sum_indicator_eq_one {sources : List String} (hnd : sources.Nodup) {x : String}
    (hx : x ∈ sources) : (sources.map fun s => if x = s then 1 else 0).sum = 1 := by
  induction sources with
  | nil => simp at hx
  | cons y ys ih =>
    rw [List.nodup_cons] at hnd
    rcases List.mem_cons.1 hx with rfl | hmem
    · have hz : ∀ s ∈ ys, (if x = s then 1 else 0) = 0 := by
        intro s hs
        have : x ≠ s := fun h => hnd.1 (h ▸ hs)
        simp [this]
      have : (ys.map fun s => if x = s then 1 else 0) = ys.map fun _ => 0 :=
        List.map_congr_left hz
      simp [this]
    · have hne : x ≠ y := fun h => hnd.1 (h ▸ hmem)
      simp [hne, ih hnd.2 hmem]

/-- A list of articles whose sources all occur in a repetition-free list of sources is as long
as its per-source sub-lists together. -/
theorem sum_groupOf_length {sources : List String} (hnd : sources.Nodup) :
    ∀ l : List DbArticle, (∀ a ∈ l, a.source ∈ sources) →
      (sources.map fun s => (groupOf l s).length).sum = l.length := by
  intro l
  induction l with
  | nil => intro _; simp [groupOf]
  | cons a l ih =>
    intro h
    have hl := ih fun b hb => h b (List.mem_cons_of_mem _ hb)
    have ha := sum_indicator_eq_one hnd (h a (List.mem_cons_self _ _))
    have hsplit : ∀ s, (groupOf (a :: l) s).length =
        (groupOf l s).length + (if a.source = s then 1 else 0) := by
      intro s
      by_cases hs : a.source = s
      · simp [groupOf, List.filter_cons, hs]
      · simp [groupOf, List.filter_cons, hs]
    simp only [hsplit, List.sum_map_add, hl, ha, List.length_cons]

theorem initialGroups_perm (sh : Shuffle) (articles : List DbArticle) (s : String) :
    (initialGroups sh articles s).Perm (groupOf articles s) := by
  have h1 := (groupBySource_spec articles).1 s
  unfold initialGroups shuffleGroups
  unfold SourceGroups.get at h1 ⊢
  rw [groupOf, ← h1]
  cases hg : (groupBySource articles).1 s with
  | none => simp [hg]
  | some l => simpa [hg] using sh.perm s l

theorem sortedSources_perm (articles : List DbArticle) :
    (sortedSources articles).Perm (groupBySource articles).2 :=
  List.perm_insertionSort _ _

theorem mem_sortedSources (articles : List DbArticle) (s : String) :
    s ∈ sortedSources articles ↔ ∃ a ∈ articles, a.source = s := by
  rw [(sortedSources_perm articles).mem_iff]
  exact (groupBySource_spec articles).2.2.2 s

theorem sortedSources_nodup (articles : List DbArticle) : (sortedSources articles).Nodup :=
  (sortedSources_perm articles).nodup_iff.2 (groupBySource_spec articles).2.2.1

theorem groupsOk_initial (sh : Shuffle) (articles : List DbArticle) :
    GroupsOk articles (sortedSources articles) (initialGroups sh articles) where
  nodup := sortedSources_nodup articles
  source_eq := by
    intro s a ha
    have := (initialGroups_perm sh articles s).mem_iff.1 ha
    simpa [groupOf] using (List.mem_filter.1 this).2
  outside := by
    intro s hs
    have hnil : groupOf articles s = [] := by
      simp only [groupOf, List.filter_eq_nil_iff, beq_iff_eq]
      intro a ha h
      exact hs ((mem_sortedSources articles s).2 ⟨a, ha, h⟩)
    have := initialGroups_perm sh articles s
    rw [hnil] at this
    exact List.Perm.eq_nil this
  bound := by
    intro s
    rw [(initialGroups_perm sh articles s).length_eq]
    exact List.length_filter_le _ _
  total := by
    have h := sum_groupOf_length (sortedSources_nodup articles) articles
      (fun a ha => (mem_sortedSources articles _).2 ⟨a, ha, rfl⟩)
    rw [← h]
    congr 1
    apply List.map_congr_left
    intro s _
    exact (initialGroups_perm sh articles s).length_eq

theorem passesNames_succ (sources : List String) (cnt : String → Nat) (q : Nat) :
    passesNames sources cnt (q + 1) = passesNames sources cnt q ++ passNames sources cnt q := by
  simp [passesNames, List.range_succ]

theorem loopInv_initial (pageSize : Int) (articles : List DbArticle) (sources : List String)
    (m : SourceGroups) :
    LoopInv pageSize articles sources (fun s => m.get s)
      { selectedArticles := [], sourceGroups := m, sourceIndex := 0 } 0 0 where
  index := by simp
  le := Nat.zero_le _
  groups := by intro i h; simp
  split := by intro s; simp
  names := by simp [passesNames]
  lenPage := by simp
  lenWin := by simp

/-- A pass that has visited every source is a completed pass. -/
theorem LoopInv.wrap {pageSize : Int} {articles : List DbArticle} {sources : List String}
    {G : String → List DbArticle} {st : LoopState} {q : Nat}
    (h : LoopInv pageSize articles sources G st q sources.length) :
    LoopInv pageSize articles sources G st (q + 1) 0 where
  index := by rw [h.index, Nat.mul_succ]; rfl
  le := Nat.zero_le _
  groups := by
    intro i hi
    have := h.groups i hi
    simpa [hi] using this
  split := h.split
  names := by
    rw [h.names, passesNames_succ]
    simp [passNames]
  lenPage := h.lenPage
  lenWin := h.lenWin

/-- Once as many passes are complete as the window has articles, every article is selected. -/
theorem LoopInv.exhausted {pageSize : Int} {articles : List DbArticle} {sources : List String}
    {G : String → List DbArticle} {st : LoopState} {q r : Nat}
    (ok : GroupsOk articles sources G) (h : LoopInv pageSize articles sources G st q r)
    (hq : articles.length ≤ q) : st.selectedArticles.length = articles.length := by
  have hempty : ∀ s ∈ sources, st.sourceGroups.get s = [] := by
    intro s hs
    obtain ⟨i, hi, rfl⟩ := List.getElem_of_mem hs
    rw [h.groups i hi, List.drop_eq_nil_iff]
    have := ok.bound sources[i]
    omega
  have hsel : ∀ a ∈ st.selectedArticles, a.source ∈ sources := by
    intro a ha
    by_contra hns
    have hG := ok.outside _ hns
    have hsplit := h.split a.source
    rw [hG] at hsplit
    have hnil := (List.append_eq_nil.1 hsplit).1
    have hmem : a ∈ st.selectedArticles.filter fun b => b.source == a.source :=
      List.mem_filter.2 ⟨ha, by simp⟩
    rw [hnil] at hmem
    exact List.not_mem_nil _ hmem
  have hsum := sum_groupOf_length ok.nodup st.selectedArticles hsel
  rw [← hsum, ← ok.total]
  congr 1
  apply List.map_congr_left
  intro s hs
  have hsplit := h.split s
  rw [hempty s hs, List.append_nil] at hsplit
  rw [groupOf, hsplit]

/-- An iteration that finds the group of the source at hand non-empty. -/
theorem LoopInv.step_take {pageSize : Int} {articles : List DbArticle} {sources : List String}
    {G : String → List DbArticle} {st : LoopState} {q r : Nat}
    (ok : GroupsOk articles sources G) (h : LoopInv pageSize articles sources G st q r)
    (hr : r < sources.length) {a : DbArticle} {rest : List DbArticle}
    (hg : st.sourceGroups.get sources[r] = a :: rest)
    (hp : (st.selectedArticles.length : Int) < pageSize)
    (hw : st.selectedArticles.length < articles.length) :
    LoopInv pageSize articles sources G
      { selectedArticles := st.selectedArticles ++ [a],
        sourceGroups := st.sourceGroups.set sources[r] rest,
        sourceIndex := st.sourceIndex + 1 } q (r + 1) := by
  have hdrop : (G sources[r]).drop q = a :: rest := by
    have := h.groups r hr
    simpa [hg] using this.symm
  have hlen : q < (G sources[r]).length := by
    by_contra hcon
    rw [List.drop_eq_nil_of_le (by omega)] at hdrop
    exact List.noConfusion hdrop
  have hsrc : a.source = sources[r] := by
    apply ok.source_eq
    have : a ∈ (G sources[r]).drop q := by rw [hdrop]; exact List.mem_cons_self _ _
    exact List.mem_of_mem_drop this
  refine ⟨?_, hr, ?_, ?_, ?_, ?_, ?_⟩
  · show st.sourceIndex + 1 = _
    rw [h.index]; ring
  · intro i hi
    show (st.sourceGroups.set sources[r] rest).get sources[i] = _
    by_cases hir : i = r
    · subst hir
      rw [SourceGroups.get_set_same]
      have : (G sources[i]).drop (q + 1) = rest := by
        rw [← List.drop_drop, hdrop]; rfl
      simpa using this.symm
    · have hne : sources[i] ≠ sources[r] := by
        intro heq
        exact hir ((ok.nodup.getElem_inj_iff).1 heq)
      rw [SourceGroups.get_set_other _ _ hne, h.groups i hi]
      have : (i < r + 1) ↔ (i < r) := by omega
      simp only [this]
  · intro s
    show ((st.selectedArticles ++ [a]).filter fun b => b.source == s) ++
      (st.sourceGroups.set sources[r] rest).get s = G s
    by_cases hs : s = sources[r]
    · subst hs
      rw [SourceGroups.get_set_same, List.filter_append]
      have : ([a].filter fun b => b.source == sources[r]) = [a] := by simp [hsrc]
      rw [this, List.append_assoc, List.singleton_append, ← hg]
      exact h.split _
    · rw [SourceGroups.get_set_other _ _ hs, List.filter_append]
      have : ([a].filter fun b => b.source == s) = [] := by
        have hne : ¬ sources[r] = s := fun h => hs h.symm
        simp [hsrc, hne]
      rw [this, List.append_nil]
      exact h.split s
  · show (st.selectedArticles ++ [a]).map (fun b => b.source) = _
    have ht : sources.take (r + 1) = sources.take r ++ [sources[r]] := by
      rw [List.take_succ, List.getElem?_eq_getElem hr]; rfl
    have hf : ([sources[r]].filter fun s => decide (q < (G s).length)) = [sources[r]] := by
      simp [hlen]
    rw [List.map_append, h.names, ht, List.filter_append, hf, List.append_assoc]
    simp [hsrc]
  · show (((st.selectedArticles ++ [a]).length : Nat) : Int) ≤ max pageSize 0
    rw [List.length_append, List.length_singleton]
    have : pageSize ≤ max pageSize 0 := le_max_left _ _
    push_cast
    omega
  · show (st.selectedArticles ++ [a]).length ≤ articles.length
    rw [List.length_append, List.length_singleton]
    omega

/-- An iteration that finds the group of the source at hand exhausted. -/
theorem LoopInv.step_skip {pageSize : Int} {articles : List DbArticle} {sources : List String}
    {G : String → List DbArticle} {st : LoopState} {q r : Nat}
    (h : LoopInv pageSize articles sources G st q r)
    (hr : r < sources.length) (hg : st.sourceGroups.get sources[r] = []) :
    LoopInv pageSize articles sources G { st with sourceIndex := st.sourceIndex + 1 } q
      (r + 1) := by
  have hdrop : (G sources[r]).drop q = [] := by
    have := h.groups r hr
    simpa [hg] using this.symm
  have hlen : ¬ q < (G sources[r]).length := by
    rw [List.drop_eq_nil_iff] at hdrop
    omega
  refine ⟨?_, hr, ?_, h.split, ?_, h.lenPage, h.lenWin⟩
  · show st.sourceIndex + 1 = _
    rw [h.index]; ring
  · intro i hi
    show st.sourceGroups.get sources[i] = _
    by_cases hir : i = r
    · subst hir
      rw [hg]
      symm
      rw [List.drop_eq_nil_iff]
      simp only [lt_add_one, if_true]
      omega
    · rw [h.groups i hi]
      have : (i < r + 1) ↔ (i < r) := by omega
      simp only [this]
  · show st.selectedArticles.map (fun b => b.source) = _
    have ht : sources.take (r + 1) = sources.take r ++ [sources[r]] := by
      rw [List.take_succ, List.getElem?_eq_getElem hr]; rfl
    have hf : ([sources[r]].filter fun s => decide (q < (G s).length)) = [] := by
      simp [hlen]
    rw [h.names, ht, List.filter_append, hf, List.append_nil]

/-- The selection loop exits, without a panic, after at most `len(sources) * len(articles)`
iterations, in a state described by `LoopInv` in which the loop condition is false. -/
theorem selectLoop_spec {pageSize : Int} {articles : List DbArticle} {sources : List String}
    {G : String → List DbArticle} (ok : GroupsOk articles sources G) :
    ∀ (fuel : Nat) (st : LoopState) (q r : Nat),
      LoopInv pageSize articles sources G st q r →
      sources.length * q + r ≤ sources.length * articles.length →
      sources.length * articles.length < sources.length * q + r + fuel →
      ∃ st' q' r', selectLoop pageSize articles sources fuel st = .ret st'.selectedArticles ∧
        LoopInv pageSize articles sources G st' q' r' ∧
        sources.length * q' + r' ≤ sources.length * articles.length ∧
        ¬ ((st'.selectedArticles.length : Int) < pageSize ∧
            st'.selectedArticles.length < articles.length) := by
  intro fuel
  induction fuel with
  | zero => intro st q r _ h1 h2; omega
  | succ fuel ih =>
    intro st q r h hk hfuel
    rw [selectLoop]
    by_cases hc : (st.selectedArticles.length : Int) < pageSize ∧
        st.selectedArticles.length < articles.length
    · rw [if_pos hc]
      have hn : 0 < sources.length := by
        rcases Nat.eq_zero_or_pos sources.length with h0 | hpos
        · have ht := ok.total
          rw [List.length_eq_zero.1 h0] at ht
          simp at ht
          omega
        · exact hpos
      obtain ⟨q1, r1, h1, hr1, hk1⟩ : ∃ q1 r1, LoopInv pageSize articles sources G st q1 r1 ∧
          r1 < sources.length ∧ sources.length * q1 + r1 = sources.length * q + r := by
        rcases Nat.lt_or_ge r sources.length with hlt | hge
        · exact ⟨q, r, h, hlt, rfl⟩
        · have hre : r = sources.length := le_antisymm h.le hge
          subst hre
          exact ⟨q + 1, 0, h.wrap, hn, by rw [Nat.mul_succ]; rfl⟩
      have hq1 : q1 < articles.length := by
        by_contra hcon
        have := h1.exhausted ok (by omega)
        omega
      have hmul : sources.length * (q1 + 1) ≤ sources.length * articles.length :=
        Nat.mul_le_mul_left _ hq1
      rw [Nat.mul_succ] at hmul
      have hidx : st.sourceIndex % sources.length = r1 := by
        rw [h1.index, Nat.mul_add_mod, Nat.mod_eq_of_lt hr1]
      have hget : sources[st.sourceIndex % sources.length]? = some sources[r1] := by
        rw [hidx, List.getElem?_eq_getElem hr1]
      simp only [hget]
      cases hg : st.sourceGroups.get sources[r1] with
      | nil =>
        simp only []
        exact ih _ q1 (r1 + 1) (h1.step_skip hr1 hg) (by omega) (by omega)
      | cons a rest =>
        simp only []
        exact ih _ q1 (r1 + 1) (h1.step_take ok hr1 hg hc.1 hc.2) (by omega) (by omega)
    · rw [if_neg hc]
      exact ⟨st, q, r, rfl, h, hk, hc⟩

theorem passesNames_mono (sources : List String) (cnt : String → Nat) {q q' : Nat}
    (h : q ≤ q') : passesNames sources cnt q <+: passesNames sources cnt q' := by
  obtain ⟨d, rfl⟩ := Nat.exists_eq_add_of_le h
  unfold passesNames
  rw [List.range_add, List.flatMap_append]
  exact List.prefix_append _ _

/-- The names selected so far are an initial segment of the names of all passes. -/
theorem LoopInv.names_segment {pageSize : Int} {articles : List DbArticle}
    {sources : List String} {G : String → List DbArticle} {st : LoopState} {q r : Nat}
    (h : LoopInv pageSize articles sources G st q r)
    (hk : sources.length * q + r ≤ sources.length * articles.length) :
    st.selectedArticles.map (fun a => a.source) <+:
      passesNames sources (fun s => (G s).length) articles.length := by
  rw [h.names]
  rcases Nat.lt_or_ge q articles.length with hq | hq
  · refine List.IsPrefix.trans ?_ (passesNames_mono sources _ (Nat.succ_le_of_lt hq))
    rw [passesNames_succ]
    exact (List.prefix_append_right_inj _).2 ((List.take_prefix _ _).filter _)
  · rcases Nat.eq_zero_or_pos sources.length with h0 | hpos
    · have e : ∀ k, passesNames ([] : List String) (fun s => (G s).length) k = [] := by
        intro k
        induction k with
        | zero => rfl
        | succ k ih => rw [passesNames_succ, ih]; rfl
      rw [List.length_eq_zero.1 h0, e, e]
      simp
    · have hle : sources.length * articles.length ≤ sources.length * q :=
        Nat.mul_le_mul_left _ hq
      have hr0 : r = 0 := by omega
      have hqe : q = articles.length := by
        have : sources.length * q ≤ sources.length * articles.length := by omega
        exact le_antisymm (Nat.le_of_mul_le_mul_left this hpos) hq
      subst hr0 hqe
      simp

/-- How many articles of the source at position `i` have been selected. -/
theorem LoopInv.count {pageSize : Int} {articles : List DbArticle}
    {sources : List String} {G : String → List DbArticle} {st : LoopState} {q r : Nat}
    (h : LoopInv pageSize articles sources G st q r) (i : Nat) (hi : i < sources.length) :
    (st.selectedArticles.filter fun a => a.source == sources[i]).length =
      min (G sources[i]).length (q + if i < r then 1 else 0) := by
  have hs := congrArg List.length (h.split sources[i])
  rw [List.length_append, h.groups i hi, List.length_drop] at hs
  omega

theorem sortedSources_length_le (articles : List DbArticle) :
    (sortedSources articles).length ≤ articles.length := by
  have h := sum_groupOf_length (sortedSources_nodup articles) articles
    (fun a ha => (mem_sortedSources articles _).2 ⟨a, ha, rfl⟩)
  have hone : ∀ x ∈ (sortedSources articles).map fun s => (groupOf articles s).length,
      1 ≤ x := by
    intro x hx
    obtain ⟨s, hs, rfl⟩ := List.mem_map.1 hx
    obtain ⟨a, ha, hsrc⟩ := (mem_sortedSources articles s).1 hs
    have : a ∈ groupOf articles s := List.mem_filter.2 ⟨ha, by simpa using hsrc⟩
    exact List.length_pos_of_mem this
  have := List.length_le_sum_of_one_le _ hone
  rw [List.length_map, h] at this
  exact this

/-- The selection part of `GetNewsFromDB` returns, given fuel for more iterations than the
square of the window size, and its result satisfies `SelectionOk`. -/
theorem balancedSelection_ok (sh : Shuffle) (pageSize : Int) (articles : List DbArticle)
    (fuel : Nat) (hfuel : articles.length * articles.length < fuel) :
    ∃ out, balancedSelection sh fuel pageSize articles = .ret out ∧
      SelectionOk pageSize articles out := by
  have ok := groupsOk_initial sh articles
  have hn := sortedSources_length_le articles
  have hmul : (sortedSources articles).length * articles.length ≤
      articles.length * articles.length := Nat.mul_le_mul_right _ hn
  obtain ⟨st', q, r, hrun, hinv, hk, hexit⟩ :=
    selectLoop_spec ok fuel
      { selectedArticles := [], sourceGroups := shuffleGroups sh (groupBySource articles).1,
        sourceIndex := 0 } 0 0
      (loopInv_initial pageSize articles (sortedSources articles) _) (by omega) (by omega)
  refine ⟨st'.selectedArticles, hrun, hinv.lenPage, hinv.lenWin, hexit, ?_, ?_, ?_⟩
  · have hseg := hinv.names_segment hk
    have hcnt : (fun s => (initialGroups sh articles s).length) =
        fun s => (groupOf articles s).length :=
      funext fun s => (initialGroups_perm sh articles s).length_eq
    exact hcnt ▸ hseg
  · intro s hs t ht
    obtain ⟨i, hi, rfl⟩ := List.getElem_of_mem hs
    obtain ⟨j, hj, rfl⟩ := List.getElem_of_mem ht
    have ci := hinv.count i hi
    have cj := hinv.count j hj
    simp only [countSource, List.countP_eq_length_filter]
    by_cases hfull : (initialGroups sh articles (sortedSources articles)[j]).length ≤
        q + if j < r then 1 else 0
    · right
      intro a ha hsrc
      have hsplit := hinv.split (sortedSources articles)[j]
      have hgrp := hinv.groups j hj
      rw [List.drop_eq_nil_of_le hfull] at hgrp
      rw [hgrp, List.append_nil] at hsplit
      have hmem : a ∈ groupOf articles (sortedSources articles)[j] :=
        List.mem_filter.2 ⟨ha, by simpa using hsrc⟩
      have hmem' := (initialGroups_perm sh articles _).mem_iff.2 hmem
      have hsplit' : initialGroups sh articles (sortedSources articles)[j] =
          st'.selectedArticles.filter fun a => a.source == (sortedSources articles)[j] :=
        hsplit.symm
      rw [hsplit'] at hmem'
      exact (List.mem_filter.1 hmem').1
    · left
      rw [ci, cj]
      split_ifs <;> omega
  · intro a ha
    have hmem : a ∈ st'.selectedArticles.filter fun b => b.source == a.source :=
      List.mem_filter.2 ⟨ha, by simp⟩
    have hin : a ∈ initialGroups sh articles a.source := by
      have hsplit := hinv.split a.source
      have hsplit' : initialGroups sh articles a.source = _ := hsplit.symm
      rw [hsplit']
      exact List.mem_append_left _ hmem
    exact (List.mem_filter.1 ((initialGroups_perm sh articles _).mem_iff.1 hin)).1

theorem GetArticles_ok (like : String → String → Bool) (db : DB) (page pageSize : Int)
    (search : String) :
    ∃ articles totalCount, GetArticles like db page pageSize search = .ok (articles, totalCount) ∧
      articles.length ≤ db.rows.length := by
  refine ⟨_, _, rfl, ?_⟩
  have hlim : ∀ (l o : Int) (rows : List DbArticle), (limitOffset l o rows).length ≤ rows.length := by
    intro l o rows
    unfold limitOffset
    split_ifs
    · simp
    · rw [List.length_take]
      exact (Nat.min_le_right _ _).trans (by simp)
  refine (hlim _ _ _).trans ?_
  rw [orderByPublishedAtDesc, (List.perm_insertionSort _ _).length_eq]
  split_ifs
  · exact List.length_filter_le _ _
  · exact le_rfl

/-- `GetNewsFromDB` in terms of its two stages. -/
theorem GetNewsFromDB_of_window {like : String → String → Bool} {sh : Shuffle} {fuel : Nat}
    {db : DB} {page pageSize : Int} {search : String} {articles out : List DbArticle}
    {totalCount : Int}
    (hwin : GetArticles like db page (pageSize * 3) search = .ok (articles, totalCount))
    (hsel : balancedSelection sh fuel pageSize articles = .ret out) :
    GetNewsFromDB like sh fuel db page pageSize search =
      .ret (.ok (out.map toModelArticle, totalCount)) := by
  simp only [GetNewsFromDB, hwin, hsel]

theorem SelectionOk.length_eq {pageSize : Int} {articles out : List DbArticle}
    (h : SelectionOk pageSize articles out) :
    out.length = (min pageSize articles.length).toNat := by
  have h1 := h.lenPage
  have h2 := h.lenWin
  have h3 := h.exit
  rcases le_or_lt pageSize 0 with hp | hp
  · rw [max_eq_right hp] at h1
    have : min pageSize (articles.length : Int) ≤ 0 := (min_le_left _ _).trans hp
    rw [Int.toNat_eq_zero.2 this]
    omega
  · rw [max_eq_left hp.le] at h1
    rcases le_or_lt pageSize (articles.length : Int) with hle | hlt
    · rw [min_eq_left hle]
      have : ¬ ((out.length : Int) < pageSize) := fun hlt => h3 ⟨hlt, by omega⟩
      omega
    · rw [min_eq_right hlt.le]
      have : ¬ (out.length < articles.length) := fun hl => h3 ⟨by omega, hl⟩
      simp
      omega

/-- C4. For every window and every `pageSize >= 0` the selection returns a list of length
`min(pageSize, window size)`; and so, for every store, page and search term, `GetNewsFromDB`
returns (no panic, no error, given fuel beyond the square of the table size) a list whose length
is `min(pageSize, size of the window that GetArticles returned)`. -/
theorem C4_balanced_page_length (sh : Shuffle) (pageSize : Int) (hp : 0 ≤ pageSize) :
    (∀ (articles : List DbArticle) (fuel : Nat), articles.length * articles.length < fuel →
      ∃ out, balancedSelection sh fuel pageSize articles = .ret out ∧
        (out.length : Int) = min pageSize articles.length) ∧
    (∀ (like : String → String → Bool) (db : DB) (page : Int) (search : String) (fuel : Nat),
      db.rows.length * db.rows.length < fuel →
      ∃ articles totalCount out,
        GetArticles like db page (pageSize * 3) search = .ok (articles, totalCount) ∧
        GetNewsFromDB like sh fuel db page pageSize search = .ret (.ok (out, totalCount)) ∧
        (out.length : Int) = min pageSize articles.length) := by
  have key : ∀ (articles : List DbArticle) (fuel : Nat),
      articles.length * articles.length < fuel →
      ∃ out, balancedSelection sh fuel pageSize articles = .ret out ∧
        (out.length : Int) = min pageSize articles.length := by
    intro articles fuel hfuel
    obtain ⟨out, hrun, hok⟩ := balancedSelection_ok sh pageSize articles fuel hfuel
    refine ⟨out, hrun, ?_⟩
    rw [hok.length_eq, Int.toNat_of_nonneg]
    exact le_min hp (Int.natCast_nonneg _)
  refine ⟨key, ?_⟩
  intro like db page search fuel hfuel
  obtain ⟨articles, totalCount, hwin, hlen⟩ := GetArticles_ok like db page (pageSize * 3) search
  have hsq : articles.length * articles.length ≤ db.rows.length * db.rows.length :=
    Nat.mul_le_mul hlen hlen
  obtain ⟨out, hrun, hlen'⟩ := key articles fuel (by omega)
  exact ⟨articles, totalCount, out.map toModelArticle, hwin,
    GetNewsFromDB_of_window hwin hrun, by rw [List.length_map]; exact hlen'⟩

/-- C4 at `pageSize = 3` with the groups left unshuffled. -/
theorem C4_balanced_page_length_witness :
    (0 : Int) ≤ 3 ∧
    ((∀ (articles : List DbArticle) (fuel : Nat), articles.length * articles.length < fuel →
      ∃ out, balancedSelection Shuffle.id fuel 3 articles = .ret out ∧
        (out.length : Int) = min (3 : Int) articles.length) ∧
    (∀ (like : String → String → Bool) (db : DB) (page : Int) (search : String) (fuel : Nat),
      db.rows.length * db.rows.length < fuel →
      ∃ articles totalCount out,
        GetArticles like db page (3 * 3) search = .ok (articles, totalCount) ∧
        GetNewsFromDB like Shuffle.id fuel db page 3 search = .ret (.ok (out, totalCount)) ∧
        (out.length : Int) = min (3 : Int) articles.length)) :=
  ⟨by decide, C4_balanced_page_length Shuffle.id 3 (by decide)⟩

theorem rrPass_eq (groups : List (String × Nat)) :
    rrPass groups = ((groups.filter fun g => decide (0 < g.2)).map (fun g => g.1),
      groups.map fun g => (g.1, g.2 - 1)) := by
  induction groups with
  | nil => rfl
  | cons g rest ih =>
    obtain ⟨s, c⟩ := g
    rw [rrPass, ih]
    by_cases hc : 0 < c
    · simp [hc, List.filter_cons]
    · have : c = 0 := by omega
      subst this
      simp [List.filter_cons]

theorem roundRobinNames_eq (passes : Nat) (groups : List (String × Nat)) :
    roundRobinNames passes groups =
      (List.range passes).flatMap fun j =>
        (groups.filter fun g => decide (j < g.2)).map fun g => g.1 := by
  induction passes generalizing groups with
  | zero => rfl
  | succ n ih =>
    rw [roundRobinNames, rrPass_eq, ih, List.range_succ_eq_map, List.flatMap_cons,
      List.flatMap_map]
    congr 1
    apply List.flatMap_congr
    intro j _
    rw [List.filter_map, List.map_map]
    congr 1
    apply List.filter_congr
    intro g _
    simp only [Function.comp, decide_eq_decide]
    omega

theorem roundRobinNames_sources (passes : Nat) (sources : List String) (cnt : String → Nat) :
    roundRobinNames passes (sources.map fun s => (s, cnt s)) =
      passesNames sources cnt passes := by
  rw [roundRobinNames_eq, passesNames]
  apply List.flatMap_congr
  intro j _
  rw [List.filter_map, List.map_map, passNames]
  exact List.map_id _

theorem sortedSources_eq_specSources (articles : List DbArticle) :
    sortedSources articles = specSources articles := by
  apply List.eq_of_perm_of_sorted (r := (· ≤ ·))
  · unfold specSources
    rw [List.perm_ext_iff_of_nodup (sortedSources_nodup articles) (Finset.sort_nodup _ _)]
    intro s
    rw [mem_sortedSources, Finset.mem_sort, List.mem_toFinset, List.mem_map]
  · exact List.sorted_insertionSort _ _
  · exact Finset.sort_sorted _ _

theorem SelectionOk.names_eq {pageSize : Int} {articles out : List DbArticle}
    (h : SelectionOk pageSize articles out) :
    out.map (fun a => a.source) = specNames pageSize articles := by
  have hp := List.prefix_iff_eq_take.1 h.names
  rw [List.length_map, h.length_eq] at hp
  rw [hp, specNames, ← sortedSources_eq_specSources]
  have hcnt : (fun s => (s, countSource s articles)) =
      fun s => (s, (groupOf articles s).length) := by
    funext s
    rw [countSource, List.countP_eq_length_filter, groupOf]
  rw [hcnt, roundRobinNames_sources]

/-- C6. For every window, every `pageSize` and every outcome of the per-source shuffle, the
selection loop returns (given fuel beyond the square of the window size), and the source names
of its result, in order, are the specification's round-robin sequence over the sorted distinct
sources truncated to `min(pageSize, window size)`. Hence for any two sources `s`, `t` of the
window the result holds at most one more article of `s` than of `t`, unless every window
article of `t` is in the result. The same holds for the list returned by `GetNewsFromDB`,
whose window is the one `GetArticles` returns. -/
theorem C6_round_robin_balance (sh : Shuffle) (pageSize : Int) :
    (∀ (articles : List DbArticle) (fuel : Nat), articles.length * articles.length < fuel →
      ∃ out, balancedSelection sh fuel pageSize articles = .ret out ∧
        out.map (fun a => a.source) = specNames pageSize articles ∧
        ∀ s t, (∃ a ∈ articles, a.source = s) → (∃ a ∈ articles, a.source = t) →
          countSource s out ≤ countSource t out + 1 ∨
            ∀ a ∈ articles, a.source = t → a ∈ out) ∧
    (∀ (like : String → String → Bool) (db : DB) (page : Int) (search : String) (fuel : Nat),
      db.rows.length * db.rows.length < fuel →
      ∃ articles totalCount out,
        GetArticles like db page (pageSize * 3) search = .ok (articles, totalCount) ∧
        GetNewsFromDB like sh fuel db page pageSize search =
          .ret (.ok (out.map toModelArticle, totalCount)) ∧
        (out.map toModelArticle).map (fun a => a.source.name) = specNames pageSize articles ∧
        ∀ s t, (∃ a ∈ articles, a.source = s) → (∃ a ∈ articles, a.source = t) →
          countSource s out ≤ countSource t out + 1 ∨
            ∀ a ∈ articles, a.source = t → a ∈ out) := by
  have key : ∀ (articles : List DbArticle) (fuel : Nat),
      articles.length * articles.length < fuel →
      ∃ out, balancedSelection sh fuel pageSize articles = .ret out ∧
        out.map (fun a => a.source) = specNames pageSize articles ∧
        ∀ s t, (∃ a ∈ articles, a.source = s) → (∃ a ∈ articles, a.source = t) →
          countSource s out ≤ countSource t out + 1 ∨
            ∀ a ∈ articles, a.source = t → a ∈ out := by
    intro articles fuel hfuel
    obtain ⟨out, hrun, hok⟩ := balancedSelection_ok sh pageSize articles fuel hfuel
    exact ⟨out, hrun, hok.names_eq, fun s t hs ht =>
      hok.balance s ((mem_sortedSources articles s).2 hs) t ((mem_sortedSources articles t).2 ht)⟩
  refine ⟨key, ?_⟩
  intro like db page search fuel hfuel
  obtain ⟨articles, totalCount, hwin, hlen⟩ := GetArticles_ok like db page (pageSize * 3) search
  have hsq : articles.length * articles.length ≤ db.rows.length * db.rows.length :=
    Nat.mul_le_mul hlen hlen
  obtain ⟨out, hrun, hnames, hbal⟩ := key articles fuel (by omega)
  refine ⟨articles, totalCount, out, hwin, GetNewsFromDB_of_window hwin hrun, ?_, hbal⟩
  rw [← hnames, List.map_map]
  rfl

theorem length_eq_three_counts {A B C : String} (hAB : A ≠ B) (hAC : A ≠ C) (hBC : B ≠ C) :
    ∀ l : List DbArticle, (∀ a ∈ l, a.source = A ∨ a.source = B ∨ a.source = C) →
      l.length = countSource A l + countSource B l + countSource C l := by
  intro l
  induction l with
  | nil => intro _; rfl
  | cons a l ih =>
    intro h
    have hl := ih fun b hb => h b (List.mem_cons_of_mem _ hb)
    simp only [countSource] at hl ⊢
    rcases h a (List.mem_cons_self _ _) with ha | ha | ha
    · simp [List.countP_cons, ha, hAB, hAC, hl]; omega
    · simp [List.countP_cons, ha, hAB.symm, hBC, hl]; omega
    · simp [List.countP_cons, ha, hAC.symm, hBC.symm, hl]; omega

theorem countSource_pos {s : String} {l : List DbArticle} {a : DbArticle} (ha : a ∈ l)
    (hs : a.source = s) : 0 < countSource s l :=
  List.countP_pos_iff.2 ⟨a, ha, by simpa using hs⟩

/-- A window with articles of exactly three sources, each present: a page of three holds one
article of each. -/
theorem one_of_each {pageSize : Int} {articles out : List DbArticle} {A B C : String}
    (hAB : A ≠ B) (hAC : A ≠ C) (hBC : B ≠ C) (hpage : pageSize = 3)
    (hsrc : ∀ a ∈ articles, a.source = A ∨ a.source = B ∨ a.source = C)
    (hA : ∃ a ∈ articles, a.source = A) (hB : ∃ a ∈ articles, a.source = B)
    (hC : ∃ a ∈ articles, a.source = C) (hlen : 3 ≤ articles.length)
    (hok : SelectionOk pageSize articles out) :
    out.length = 3 ∧ countSource A out = 1 ∧ countSource B out = 1 ∧ countSource C out = 1 := by
  have hl : out.length = 3 := by
    rw [hok.length_eq, hpage]
    have : min (3 : Int) (articles.length : Int) = 3 := min_eq_left (by omega)
    rw [this]; rfl
  have hsum := length_eq_three_counts hAB hAC hBC out fun a ha => hsrc a (hok.sub a ha)
  have hpos : ∀ X, (∃ a ∈ articles, a.source = X) → 0 < countSource X out := by
    intro X hX
    by_contra hzero
    have hz : countSource X out = 0 := by omega
    have hle : ∀ S, (∃ a ∈ articles, a.source = S) → countSource S out ≤ 1 := by
      intro S hS
      rcases hok.balance S ((mem_sortedSources articles S).2 hS) X
          ((mem_sortedSources articles X).2 hX) with h | h
      · omega
      · obtain ⟨a, ha, hsa⟩ := hX
        have := countSource_pos (h a ha hsa) hsa
        omega
    have h1 := hle A hA
    have h2 := hle B hB
    have h3 := hle C hC
    have : countSource A out = 0 ∨ countSource B out = 0 ∨ countSource C out = 0 := by
      obtain ⟨a, ha, hsa⟩ := hX
      rcases hsrc a ha with e | e | e
      · left; rw [← e, hsa]; exact hz
      · right; left; rw [← e, hsa]; exact hz
      · right; right; rw [← e, hsa]; exact hz
    omega
  have pA := hpos A hA
  have pB := hpos B hB
  have pC := hpos C hC
  omega

theorem GetArticles_first_window {like : String → String → Bool} {db : DB}
    {articles : List DbArticle} {totalCount : Int}
    (hwin : GetArticles like db 1 (3 * 3) "" = .ok (articles, totalCount)) :
    articles = (orderByPublishedAtDesc db.rows).take 9 := by
  simp only [GetArticles, limitOffset, ne_eq, not_true_eq_false, if_false, Except.ok.injEq,
    Prod.mk.injEq] at hwin
  have e1 : ((3 : Int) * 3).toNat = 9 := by decide
  have e2 : (wrapInt (((1 : Int) - 1) * (3 * 3))).toNat = 0 := by decide
  have e3 : ¬ ((3 : Int) * 3 < 0) := by decide
  rw [if_neg e3, e1, e2, List.drop_zero] at hwin
  exact hwin.1.symm

/-- C5 (amended). For every store that holds articles of three distinct sources A, B, C only,
ten of A, one of B and one of C, and for every shuffle outcome: if the article of B and the
article of C are in the over-fetched window (the nine most recently published rows, which
`GetArticles(1, 9, "")` returns), then `GetNewsFromDB(1, 3, "")` returns three articles,
exactly one from each of A, B and C. -/
theorem C5_one_of_each_when_in_window (like : String → String → Bool) (sh : Shuffle) (db : DB)
    (A B C : String) (fuel : Nat) (articles : List DbArticle) (totalCount : Int)
    (hAB : A ≠ B) (hAC : A ≠ C) (hBC : B ≠ C)
    (hsrc : ∀ r ∈ db.rows, r.source = A ∨ r.source = B ∨ r.source = C)
    (hcA : countSource A db.rows = 10) (hcB : countSource B db.rows = 1)
    (hcC : countSource C db.rows = 1)
    (hwin : GetArticles like db 1 (3 * 3) "" = .ok (articles, totalCount))
    (hB : ∃ a ∈ articles, a.source = B) (hC : ∃ a ∈ articles, a.source = C)
    (hfuel : 81 < fuel) :
    ∃ out, GetNewsFromDB like sh fuel db 1 3 "" =
        .ret (.ok (out.map toModelArticle, totalCount)) ∧
      out.length = 3 ∧ countSource A out = 1 ∧ countSource B out = 1 ∧
      countSource C out = 1 := by
  have hart := GetArticles_first_window hwin
  have hperm : (orderByPublishedAtDesc db.rows).Perm db.rows := List.perm_insertionSort _ _
  have hsub : articles.Sublist (orderByPublishedAtDesc db.rows) := by
    rw [hart]; exact List.take_sublist _ _
  have hrows : db.rows.length = 12 := by
    rw [length_eq_three_counts hAB hAC hBC db.rows hsrc, hcA, hcB, hcC]
  have hlen : articles.length = 9 := by
    rw [hart, List.length_take, hperm.length_eq, hrows]; rfl
  have hmem : ∀ a ∈ articles, a ∈ db.rows := fun a ha => hperm.mem_iff.1 (hsub.subset ha)
  have hsrc' : ∀ a ∈ articles, a.source = A ∨ a.source = B ∨ a.source = C :=
    fun a ha => hsrc a (hmem a ha)
  have hle : ∀ X, countSource X articles ≤ countSource X db.rows := by
    intro X
    unfold countSource
    rw [← hperm.countP_eq]
    exact hsub.countP_le _
  have hA : ∃ a ∈ articles, a.source = A := by
    have h3 := length_eq_three_counts hAB hAC hBC articles hsrc'
    have hb := hle B
    have hc := hle C
    have hpos : 0 < countSource A articles := by omega
    obtain ⟨a, ha, hs⟩ := List.countP_pos_iff.1 hpos
    exact ⟨a, ha, by simpa using hs⟩
  obtain ⟨out, hrun, hok⟩ := balancedSelection_ok sh 3 articles fuel (by rw [hlen]; omega)
  exact ⟨out, GetNewsFromDB_of_window hwin hrun,
    one_of_each hAB hAC hBC rfl hsrc' hA hB hC (by omega) hok⟩

/-- C5 at the store `mixedStore`, whose B and C articles are the two most recent. -/
theorem C5_one_of_each_when_in_window_witness :
    ∃ out, GetNewsFromDB noLike Shuffle.rev 100 mixedStore 1 3 "" =
        .ret (.ok (out.map toModelArticle, 12)) ∧
      out.length = 3 ∧ countSource "A" out = 1 ∧ countSource "B" out = 1 ∧
      countSource "C" out = 1 :=
  C5_one_of_each_when_in_window noLike Shuffle.rev mixedStore "A" "B" "C" 100
    ((orderByPublishedAtDesc mixedStore.rows).take 9) 12
    (by decide) (by decide) (by decide) (by decide) (by decide) (by decide) (by decide)
    rfl (by decide) (by decide) (by decide)

/-- C5 as stated fails: the store `skewedStore` holds ten articles of A, one of B and one of C,
and `GetNewsFromDB(1, 3, "")` returns three articles of A, because the articles of B and C are
the oldest and fall outside the nine-row window. -/
theorem C5_counterexample :
    countSource "A" skewedStore.rows = 10 ∧ countSource "B" skewedStore.rows = 1 ∧
    countSource "C" skewedStore.rows = 1 ∧ skewedStore.rows.length = 12 ∧
    ∃ out, GetNewsFromDB noLike Shuffle.id 100 skewedStore 1 3 "" = .ret (.ok (out, 12)) ∧
      out.map (fun a => a.source.name) = ["A", "A", "A"] :=
  ⟨by decide, by decide, by decide, by decide, _, rfl, by decide⟩

/-! ## The quote normalizer -/

theorem calculateChange_fst_of_valid (currentPrice previousClose : F64)
    (hc : isValidNumber currentPrice = true) (hp : isValidNumber previousClose = true) :
    (calculateChange currentPrice previousClose).1 = round2 (currentPrice.sub previousClose) := by
  simp [calculateChange, hc, hp, round2]

theorem normalizeQuote_of_resolved {symbol : String} {result : ChartResult} {now : Time}
    {price baseline : F64} {delayed : Bool}
    (hres : resolvePrice result = (price, baseline, delayed))
    (hnz : price.eq F64.zero = false) :
    normalizeQuote symbol result now =
      .ok { Symbol := symbol, Name := getIndexName symbol, Price := price,
            Change := (calculateChange price baseline).1,
            ChangePerc := (calculateChange price baseline).2,
            UpdatedAt := resolveMarketTime result now, IsDelayed := delayed } := by
  simp only [normalizeQuote, hres, hnz]
  rfl

theorem normalizeQuote_of_zero {symbol : String} {result : ChartResult} {now : Time}
    {price baseline : F64} {delayed : Bool}
    (hres : resolvePrice result = (price, baseline, delayed))
    (hz : price.eq F64.zero = true) :
    normalizeQuote symbol result now =
      .error ("no valid price data available for " ++ symbol) := by
  simp only [normalizeQuote, hres, hz]
  rfl

theorem getLast?_eq_getD (l : List F64) (d : F64) (h : l ≠ []) :
    l.getLast? = some (l.getD (l.length - 1) d) := by
  have hpos : l.length - 1 < l.length := by
    have := List.length_pos.2 h
    omega
  rw [List.getLast?_eq_getElem?, List.getD_eq_getElem?_getD, List.getElem?_eq_getElem hpos]
  rfl

theorem zero_eq_zero : F64.zero.eq F64.zero = true := by decide

/-- The resolved price is zero exactly when neither the live price nor the last historical
close is usable. -/
theorem resolvePrice_zero_iff (result : ChartResult) :
    (resolvePrice result).1.eq F64.zero = (liveUnusable result && historyUnusable result) := by
  obtain ⟨m, ts, quotes⟩ := result
  cases hv : isValidNumber m.RegularMarketPrice <;>
    cases hz : m.RegularMarketPrice.eq F64.zero <;>
    cases quotes with
    | nil => simp [resolvePrice, liveUnusable, historyUnusable, hv, hz, zero_eq_zero]
    | cons q qs =>
      by_cases hc : q.Close = []
      · simp [resolvePrice, liveUnusable, historyUnusable, hv, hz, hc, zero_eq_zero]
      · have hlen : q.Close.length > 0 := List.length_pos.2 hc
        have hlast := getLast?_eq_getD q.Close F64.zero hc
        simp only [resolvePrice, liveUnusable, historyUnusable, hlast]
        generalize q.Close.getD (q.Close.length - 1) F64.zero = c
        cases hh : isValidNumber c <;> simp [hv, hz, hlen, hh, zero_eq_zero]

/-- C8. For every decoded response without an API error and with a non-empty result list,
`fetchSingleIndex` returns an error if and only if the resolved price is zero; the resolved
price is zero if and only if the live price is zero or non-finite and there is no historical
close series or its last close is zero or non-finite; in every other case `fetchSingleIndex`
returns a `MarketIndex` whose price is not zero. -/
theorem C8_zero_price_is_hard_failure (symbol : String) (result : ChartResult)
    (moreResults : List ChartResult) (now : Time) :
    ((∃ err, fetchSingleIndex symbol (.ok { Result := result :: moreResults, Error := none })
        now = .error err) ↔ (resolvePrice result).1.eq F64.zero = true) ∧
    ((resolvePrice result).1.eq F64.zero = true ↔
      (liveUnusable result = true ∧ historyUnusable result = true)) ∧
    (¬ (liveUnusable result = true ∧ historyUnusable result = true) →
      ∃ idx, fetchSingleIndex symbol (.ok { Result := result :: moreResults, Error := none })
        now = .ok idx ∧ idx.Price.eq F64.zero = false) := by
  have hfetch : fetchSingleIndex symbol (.ok { Result := result :: moreResults, Error := none })
      now = normalizeQuote symbol result now := rfl
  have hiff : (resolvePrice result).1.eq F64.zero = true ↔
      (liveUnusable result = true ∧ historyUnusable result = true) := by
    rw [resolvePrice_zero_iff, Bool.and_eq_true]
  obtain ⟨price, baseline, delayed, hres⟩ : ∃ p b d, resolvePrice result = (p, b, d) :=
    ⟨_, _, _, rfl⟩
  rw [hfetch]
  refine ⟨?_, hiff, ?_⟩
  · cases hz : price.eq F64.zero with
    | true =>
      rw [normalizeQuote_of_zero hres hz, hres]
      exact ⟨fun _ => hz, fun _ => ⟨_, rfl⟩⟩
    | false =>
      rw [normalizeQuote_of_resolved hres hz, hres]
      constructor
      · rintro ⟨err, h⟩
        exact Except.noConfusion h
      · intro h
        rw [hz] at h
        exact Bool.noConfusion h
  · intro hnot
    have hz : price.eq F64.zero = false := by
      cases hp : price.eq F64.zero with
      | false => rfl
      | true => exact absurd (hiff.1 (by rw [hres]; exact hp)) hnot
    exact ⟨_, normalizeQuote_of_resolved hres hz, hz⟩

theorem round2_zero :
    ((F64.zero.mul (F64.ofInt 100)).round).div (F64.ofInt 100) = F64.zero := by decide!

/-- C9 (as the code behaves). `calculateChange` returns a non-finite `change` for the finite
inputs `currentPrice = 2^1020`, `previousClose = 0`: the difference `2^1020` is finite, but
`change*100` overflows to `+Inf`, and `math.Round(+Inf)/100` is `+Inf`; `fetchSingleIndex`
passes that value on as `Change` for a quote with that live price and no previous close.
Likewise `changePerc` is `+Inf` for `currentPrice = 2^997`, `previousClose = 0.000001`. All
inputs are valid `float64` values. -/
theorem C9_change_not_finite :
    F64.Valid f2p1020 = true ∧ isValidNumber f2p1020 = true ∧ isValidNumber F64.zero = true ∧
    calculateChange f2p1020 F64.zero = (F64.inf false, F64.zero) ∧
    isValidNumber (calculateChange f2p1020 F64.zero).1 = false ∧
    (∃ idx, fetchSingleIndex "^NSEI" (.ok (mkResponse f2p1020 F64.zero [])) 0 = .ok idx ∧
      idx.Change = F64.inf false) ∧
    F64.Valid f2p997 = true ∧ F64.Valid (F64.ofRatio 1 1000000) = true ∧
    (calculateChange f2p997 (F64.ofRatio 1 1000000)).2 = F64.inf false := by
  have h1 : calculateChange f2p1020 F64.zero = (F64.inf false, F64.zero) := by decide!
  have hres : resolvePrice
      { Meta := { Symbol := "^NSEI", RegularMarketPrice := f2p1020,
                  ChartPreviousClose := F64.zero, PreviousClose := F64.zero,
                  RegularMarketTime := 1700000000 },
        Timestamp := [], Quote := [{ Close := [], Open := [] }] } =
      (f2p1020, F64.zero, false) := by decide!
  refine ⟨by decide!, by decide!, by decide!, h1, by rw [h1]; decide, ?_, by decide!,
    by decide!, by decide!⟩
  have hfetch : fetchSingleIndex "^NSEI" (.ok (mkResponse f2p1020 F64.zero [])) 0 =
      normalizeQuote "^NSEI"
        { Meta := { Symbol := "^NSEI", RegularMarketPrice := f2p1020,
                    ChartPreviousClose := F64.zero, PreviousClose := F64.zero,
                    RegularMarketTime := 1700000000 },
          Timestamp := [], Quote := [{ Close := [], Open := [] }] } 0 := rfl
  rw [hfetch, normalizeQuote_of_resolved hres (by decide!), h1]
  exact ⟨_, rfl, rfl⟩

/-- C10. For every finite `currentPrice` and every finite `previousClose` whose absolute value
is below `0.000001` (the comparison `math.Abs(previousClose) < 0.000001` of the code, in
`float64`), `calculateChange` returns `changePerc` exactly `0`. -/
theorem C10_near_zero_guard (currentPrice previousClose : F64)
    (hc : isValidNumber currentPrice = true) (hp : isValidNumber previousClose = true)
    (hsmall : previousClose.abs.lt (F64.ofRatio 1 1000000) = true) :
    (calculateChange currentPrice previousClose).2 = F64.zero := by
  simp only [calculateChange, hc, hp, hsmall, Bool.not_true, Bool.or_self, Bool.or_true,
    Bool.false_eq_true, if_false, if_true]
  exact round2_zero

/-- C10 for `currentPrice = 100` and `previousClose = 0.0000001`. -/
theorem C10_near_zero_guard_witness :
    isValidNumber f100 = true ∧ isValidNumber (F64.ofRatio 1 10000000) = true ∧
    (F64.ofRatio 1 10000000).abs.lt (F64.ofRatio 1 1000000) = true ∧
    (calculateChange f100 (F64.ofRatio 1 10000000)).2 = F64.zero :=
  ⟨by decide, by decide!, by decide!,
    C10_near_zero_guard f100 (F64.ofRatio 1 10000000) (by decide) (by decide!) (by decide!)⟩

/-! ## Pagination and the read handlers -/

theorem GetArticles_eq (like : String → String → Bool) (db : DB) (page pageSize : Int)
    (search : String) :
    GetArticles like db page pageSize search =
      .ok (limitOffset pageSize (wrapInt ((page - 1) * pageSize))
            (orderByPublishedAtDesc (matchingRows like db search)),
           ((matchingRows like db search).length : Int)) := rfl

/-- A value in the range of Go's `int` is not changed by the wrap-around. -/
theorem wrapInt_of_range (x : Int) (hlo : -9223372036854775808 ≤ x)
    (hhi : x ≤ 9223372036854775807) : wrapInt x = x := by
  unfold wrapInt
  omega

theorem validPagination_eq (p s : Int) :
    validPagination p s = (max p 1, if s < 1 then 10 else min s 50) ∧
      1 ≤ (validPagination p s).2 ∧ (validPagination p s).2 ≤ 50 := by
  unfold validPagination
  refine ⟨?_, ?_, ?_⟩
  · ext
    · simp only []
      split_ifs <;> omega
    · simp only []
      split_ifs <;> omega
  · simp only []
    split_ifs <;> omega
  · simp only []
    split_ifs <;> omega

theorem balancedSelection_nil (sh : Shuffle) (fuel : Nat) (pageSize : Int) (hfuel : 0 < fuel) :
    balancedSelection sh fuel pageSize [] = .ret [] := by
  obtain ⟨k, rfl⟩ := Nat.exists_eq_succ_of_ne_zero (by omega : fuel ≠ 0)
  simp [balancedSelection, selectLoop]

/-- A window whose offset is at or beyond the number of matching rows is empty. -/
theorem window_empty_of_offset (like : String → String → Bool) (db : DB) (limit offset : Int)
    (search : String) (h : ((matchingRows like db search).length : Int) ≤ offset) :
    limitOffset limit offset (orderByPublishedAtDesc (matchingRows like db search)) = [] := by
  have hlen : (orderByPublishedAtDesc (matchingRows like db search)).length ≤ offset.toNat := by
    rw [orderByPublishedAtDesc, (List.perm_insertionSort _ _).length_eq]
    omega
  unfold limitOffset
  rw [List.drop_eq_nil_of_le hlen]
  split_ifs <;> simp

/-- `GetNewsFromDB` returns the empty list once `(page - 1) * 3 * pageSize` reaches the number
of matching rows, as long as that product is in the range of Go's `int`. -/
theorem GetNewsFromDB_empty (like : String → String → Bool) (sh : Shuffle) (fuel : Nat)
    (db : DB) (page pageSize : Int) (search : String) (hfuel : 0 < fuel)
    (h : ((matchingRows like db search).length : Int) ≤ (page - 1) * 3 * pageSize)
    (hwrap : (page - 1) * 3 * pageSize ≤ 9223372036854775807) :
    GetNewsFromDB like sh fuel db page pageSize search =
      .ret (.ok ([], ((matchingRows like db search).length : Int))) := by
  have hoff : ((matchingRows like db search).length : Int) ≤
      wrapInt ((page - 1) * (pageSize * 3)) := by
    have : (page - 1) * (pageSize * 3) = (page - 1) * 3 * pageSize := by ring
    rw [this, wrapInt_of_range _ (by omega) hwrap]; exact h
  have hwin : GetArticles like db page (pageSize * 3) search =
      .ok ([], ((matchingRows like db search).length : Int)) := by
    rw [GetArticles_eq, window_empty_of_offset like db _ _ search hoff]
  rw [GetNewsFromDB_of_window hwin (balancedSelection_nil sh fuel pageSize hfuel)]
  rfl

/-- What `getNewsFromDB` answers, in terms of the validated parameters. -/
theorem getNewsFromDB_eq (like : String → String → Bool) (sh : Shuffle) (fuel : Nat) (db : DB)
    (p s : Int) (search : String) (out : List Article) (totalCount : Int)
    (h : GetNewsFromDB like sh fuel db (validPagination p s).1 (validPagination p s).2 search =
      .ret (.ok (out, totalCount))) :
    getNewsFromDB like sh fuel db p s search =
      .ret (.ok { Articles := out, TotalCount := totalCount,
                  CurrentPage := (validPagination p s).1,
                  PageSize := (validPagination p s).2,
                  TotalPages :=
                    Int.tdiv (totalCount + (validPagination p s).2 - 1)
                      (validPagination p s).2 }) := by
  unfold getNewsFromDB
  simp only [h]

/-- C20 as stated fails. For page 9223372036854775807 and `pageSize = 10` on the twelve-row
store `skewedStore` the product `(page - 1) * 3 * pageSize` is far beyond the 12 matching rows,
but Go computes it in its 64-bit `int`, where it wraps around to -60; SQLite reads that offset
as 0, the window holds all twelve rows and `GetNewsFromDB` returns ten articles. -/
theorem C20_counterexample :
    ((matchingRows noLike skewedStore "").length : Int) ≤ (9223372036854775807 - 1) * 3 * 10 ∧
    wrapInt ((9223372036854775807 - 1) * (10 * 3)) = -60 ∧
    (GetArticles noLike skewedStore 9223372036854775807 (10 * 3) "").toOption.map
        (fun r => (r.1.length, r.2)) = some (12, 12) ∧
    (GetNewsFromDB noLike Shuffle.id 200 skewedStore 9223372036854775807 10 "").answer.map
        (fun r => (r.1.length, r.2)) = some (10, 12) :=
  ⟨by decide, by decide, by decide!, by decide!⟩

/-- C20 (amended). `GetArticles` reads a window of `windowSize` rows at the offset
`(page - 1) * windowSize` as Go's 64-bit `int` computes it (with wrap-around), and
`GetNewsFromDB` asks it for a window of `3 * pageSize` rows. When the product
`(page - 1) * 3 * pageSize` is in the range of Go's `int` (at most `2^63 - 1`) and reaches the
number `totalCount` of matching rows, the window starts at that offset and the returned list is
empty (and `totalCount` is still returned). For every store of 30 rows and `pageSize = 10` the
handler `getNewsFromDB` reports `TotalPages = 3` while its answers for pages 2 and 3 hold no
article. -/
theorem C20_overfetch_stride (like : String → String → Bool) (sh : Shuffle) (db : DB)
    (page pageSize : Int) (search : String) (fuel : Nat) (hfuel : 0 < fuel)
    (hoff : ((matchingRows like db search).length : Int) ≤ (page - 1) * 3 * pageSize)
    (hwrap : (page - 1) * 3 * pageSize ≤ 9223372036854775807) :
    (∀ anyPage windowSize : Int,
      GetArticles like db anyPage windowSize search =
        .ok (limitOffset windowSize (wrapInt ((anyPage - 1) * windowSize))
              (orderByPublishedAtDesc (matchingRows like db search)),
             ((matchingRows like db search).length : Int))) ∧
    (∃ articles, GetArticles like db page (pageSize * 3) search =
        .ok (articles, ((matchingRows like db search).length : Int)) ∧
      articles = limitOffset (pageSize * 3) ((page - 1) * 3 * pageSize)
        (orderByPublishedAtDesc (matchingRows like db search))) ∧
    GetNewsFromDB like sh fuel db page pageSize search =
      .ret (.ok ([], ((matchingRows like db search).length : Int))) ∧
    (∀ db30 : DB, db30.rows.length = 30 → ∀ page30 : Int, page30 = 2 ∨ page30 = 3 →
      getNewsFromDB like sh fuel db30 page30 10 "" =
        .ret (.ok { Articles := [], TotalCount := 30, CurrentPage := page30, PageSize := 10,
                    TotalPages := 3 })) := by
  have hring : ∀ a b : Int, (a - 1) * (b * 3) = (a - 1) * 3 * b := fun a b => by ring
  refine ⟨fun anyPage windowSize => GetArticles_eq like db anyPage windowSize search,
    ⟨_, GetArticles_eq like db page (pageSize * 3) search, ?_⟩,
    GetNewsFromDB_empty like sh fuel db page pageSize search hfuel hoff hwrap, ?_⟩
  · rw [hring, wrapInt_of_range _ (by omega) hwrap]
  · intro db30 h30 page30 hp
    have hm : matchingRows like db30 "" = db30.rows := by simp [matchingRows]
    have hv : validPagination page30 10 = (page30, 10) := by
      rcases hp with rfl | rfl <;> rfl
    have hrun : GetNewsFromDB like sh fuel db30 (validPagination page30 10).1
        (validPagination page30 10).2 "" = .ret (.ok ([], 30)) := by
      have := GetNewsFromDB_empty like sh fuel db30 page30 10 "" hfuel
        (by rw [hm, h30]; rcases hp with rfl | rfl <;> decide)
        (by rcases hp with rfl | rfl <;> decide)
      rw [hm, h30] at this
      rw [hv]
      exact this
    rw [getNewsFromDB_eq like sh fuel db30 page30 10 "" _ _ hrun, hv]
    rfl

/-- C20 (amended) for page 2 of `skewedStore` (12 rows) with `pageSize = 4`: the offset is
12. -/
theorem C20_overfetch_stride_witness :
    (∀ anyPage windowSize : Int,
      GetArticles noLike skewedStore anyPage windowSize "" =
        .ok (limitOffset windowSize (wrapInt ((anyPage - 1) * windowSize))
              (orderByPublishedAtDesc (matchingRows noLike skewedStore "")),
             ((matchingRows noLike skewedStore "").length : Int))) ∧
    (∃ articles, GetArticles noLike skewedStore 2 (4 * 3) "" =
        .ok (articles, ((matchingRows noLike skewedStore "").length : Int)) ∧
      articles = limitOffset (4 * 3) ((2 - 1) * 3 * 4)
        (orderByPublishedAtDesc (matchingRows noLike skewedStore ""))) ∧
    GetNewsFromDB noLike Shuffle.id 1 skewedStore 2 4 "" =
      .ret (.ok ([], ((matchingRows noLike skewedStore "").length : Int))) ∧
    (∀ db30 : DB, db30.rows.length = 30 → ∀ page30 : Int, page30 = 2 ∨ page30 = 3 →
      getNewsFromDB noLike Shuffle.id 1 db30 page30 10 "" =
        .ret (.ok { Articles := [], TotalCount := 30, CurrentPage := page30, PageSize := 10,
                    TotalPages := 3 })) :=
  C20_overfetch_stride noLike Shuffle.id skewedStore 2 4 "" 1 (by decide) (by decide)
    (by decide)

theorem FetchAllNews_length (like : String → String → Bool) (db : DB) :
    ∃ allNews, FetchAllNews like db = .ok allNews ∧
      allNews.length = min 1000 db.rows.length := by
  refine ⟨_, rfl, ?_⟩
  have hm : matchingRows like db "" = db.rows := by simp [matchingRows]
  rw [List.length_map]
  show (limitOffset 1000 (wrapInt ((1 - 1) * 1000))
    (orderByPublishedAtDesc (matchingRows like db ""))).length = _
  rw [hm]
  have e1 : ¬ ((1000 : Int) < 0) := by decide
  have e2 : (wrapInt (((1 : Int) - 1) * 1000)).toNat = 0 := by decide
  have e3 : (1000 : Int).toNat = 1000 := by decide
  rw [limitOffset]
  simp only [e1, e2, e3, if_false, List.drop_zero, List.length_take]
  rw [orderByPublishedAtDesc, (List.perm_insertionSort _ _).length_eq]

/-- The answer of `getNews`: no panic, and the response in terms of what `FetchAllNews`
returned. -/
theorem getNews_spec (like : String → String → Bool) (db : DB) (p s : Int) :
    ∃ allNews resp, FetchAllNews like db = .ok allNews ∧
      getNews like db p s = .ret (.ok resp) ∧
      resp.TotalCount = (allNews.length : Int) ∧
      resp.PageSize = (validPagination p s).2 ∧
      resp.TotalPages = Int.tdiv (resp.TotalCount + resp.PageSize - 1) resp.PageSize ∧
      resp.CurrentPage = max (min (max p 1) resp.TotalPages) 1 ∧
      resp.Articles.length ≤ resp.PageSize.toNat := by
  obtain ⟨allNews, hall, -⟩ := FetchAllNews_length like db
  obtain ⟨hv, hlo, hhi⟩ := validPagination_eq p s
  have hpage : (validPagination p s).1 = max p 1 := by rw [hv]
  unfold getNews
  simp only [hall]
  generalize (validPagination p s).2 = size at hlo hhi ⊢
  rw [hpage]
  generalize max p 1 = page0
  set totalCount : Int := (allNews.length : Int) with htc
  have hcount : (0 : Int) ≤ totalCount := Int.natCast_nonneg _
  set totalPages := Int.tdiv (totalCount + size - 1) size with htp
  have hpg : (if (if page0 > totalPages then totalPages else page0) < 1 then 1
      else (if page0 > totalPages then totalPages else page0)) =
      max (min page0 totalPages) 1 := by
    split_ifs <;> omega
  rw [hpg]
  set page := max (min page0 totalPages) 1 with hpdef
  have hp1 : 1 ≤ page := le_max_right _ _
  have hstart : 0 ≤ (page - 1) * size := by nlinarith
  by_cases hlt : (page - 1) * size < totalCount
  · rw [if_pos hlt]
    have hstop : (page - 1) * size ≤
        (if (page - 1) * size + size > totalCount then totalCount
          else (page - 1) * size + size) := by
      split_ifs <;> omega
    have hstop2 : (if (page - 1) * size + size > totalCount then totalCount
          else (page - 1) * size + size) ≤ totalCount := by
      split_ifs <;> omega
    have hwidth : (if (page - 1) * size + size > totalCount then totalCount
          else (page - 1) * size + size) - (page - 1) * size ≤ size := by
      split_ifs <;> omega
    simp only [sliceRange, hstart, hstop, hstop2, and_self, if_true]
    refine ⟨allNews, _, rfl, rfl, rfl, rfl, rfl, rfl, ?_⟩
    simp only [List.length_take]
    refine (Nat.min_le_left _ _).trans ?_
    exact Int.toNat_le_toNat hwidth
  · rw [if_neg hlt]
    exact ⟨allNews, _, rfl, rfl, rfl, rfl, rfl, rfl, by simp⟩
/-- C15 as stated fails: a requested `pageSize` of 0 (below 1) becomes 10, not 1, in both
handlers, which then answer with ten articles; and `getNews` answers a request for page 5 of
two with page 2, not `max(5, 1)`. -/
theorem C15_counterexample :
    (validPagination 1 0).2 = 10 ∧
    (getNewsFromDB noLike Shuffle.id 200 skewedStore 1 0 "").answer.map
        (fun r => (r.PageSize, r.Articles.length)) = some (10, 10) ∧
    (getNews noLike skewedStore 1 0).answer.map
        (fun r => (r.PageSize, r.Articles.length)) = some (10, 10) ∧
    (getNews noLike skewedStore 5 10).answer.map
        (fun r => (r.TotalPages, r.CurrentPage)) = some (2, 2) :=
  ⟨by decide, by decide!, by decide!, by decide!⟩

/-- C15 (amended). For every requested integer page `p` and page size `s`, both handlers start
from the page `max(p, 1)` and from an effective page size that is 10 when `s < 1`, 50 when
`s > 50` and `s` otherwise, so that `1 <= pageSize <= 50`. `getNewsFromDB` behaves as if called
with these values, and reports them as `CurrentPage` and `PageSize`; `getNews` reports that
page size, and as `CurrentPage` the page `max(p, 1)` lowered to `TotalPages` when larger, but
not below 1. -/
theorem C15_pagination_clamping (p s : Int) :
    validPagination p s = (max p 1, if s < 1 then 10 else min s 50) ∧
    1 ≤ (validPagination p s).2 ∧ (validPagination p s).2 ≤ 50 ∧
    (∀ (like : String → String → Bool) (sh : Shuffle) (fuel : Nat) (db : DB) (search : String),
      getNewsFromDB like sh fuel db p s search =
        getNewsFromDB like sh fuel db (max p 1) (if s < 1 then 10 else min s 50) search ∧
      ∀ resp, getNewsFromDB like sh fuel db p s search = .ret (.ok resp) →
        resp.CurrentPage = max p 1 ∧ resp.PageSize = (if s < 1 then 10 else min s 50)) ∧
    (∀ (like : String → String → Bool) (db : DB),
      ∃ resp, getNews like db p s = .ret (.ok resp) ∧
        resp.PageSize = (if s < 1 then 10 else min s 50) ∧
        resp.CurrentPage = max (min (max p 1) resp.TotalPages) 1) := by
  obtain ⟨hv, hlo, hhi⟩ := validPagination_eq p s
  have hidem : validPagination (max p 1) (if s < 1 then 10 else min s 50) =
      (max p 1, if s < 1 then 10 else min s 50) := by
    obtain ⟨hv2, -, -⟩ := validPagination_eq (max p 1) (if s < 1 then 10 else min s 50)
    rw [hv2]
    ext
    · simp
    · simp only []
      split_ifs <;> omega
  refine ⟨hv, hlo, hhi, ?_, ?_⟩
  · intro like sh fuel db search
    constructor
    · unfold getNewsFromDB
      rw [hv, hidem]
    · intro resp hresp
      unfold getNewsFromDB at hresp
      rw [hv] at hresp
      simp only [] at hresp
      revert hresp
      cases GetNewsFromDB like sh fuel db (max p 1) (if s < 1 then 10 else min s 50) search with
      | ret r =>
        cases r with
        | error e => intro h; simp at h
        | ok v =>
          obtain ⟨articles, totalCount⟩ := v
          intro h
          simp only [Run.ret.injEq, Except.ok.injEq] at h
          rw [← h]
          exact ⟨rfl, rfl⟩
      | panic => intro h; simp at h
      | outOfFuel => intro h; simp at h
  · intro like db
    obtain ⟨allNews, resp, -, hrun, -, hps, -, hcp, -⟩ := getNews_spec like db p s
    refine ⟨resp, hrun, ?_, hcp⟩
    rw [hps, hv]

/-- C16 (as the code behaves). For every store `FetchAllNews` returns `min(1000, number of rows)`
articles. For the store of 1001 rows `storeOfSize 1001` it returns 1000 articles, and `getNews`
reports `TotalCount = 1000`. -/
theorem C16_legacy_view_capped :
    (∀ (like : String → String → Bool) (db : DB), ∃ allNews,
      FetchAllNews like db = .ok allNews ∧ allNews.length = min 1000 db.rows.length) ∧
    (storeOfSize 1001).rows.length = 1001 ∧
    (∃ allNews, FetchAllNews noLike (storeOfSize 1001) = .ok allNews ∧
      allNews.length = 1000) ∧
    (∃ resp, getNews noLike (storeOfSize 1001) 1 10 = .ret (.ok resp) ∧
      resp.TotalCount = 1000) := by
  have hrows : (storeOfSize 1001).rows.length = 1001 := by
    simp [storeOfSize]
  obtain ⟨allNews, hall, hlen⟩ := FetchAllNews_length noLike (storeOfSize 1001)
  rw [hrows] at hlen
  have hlen' : allNews.length = 1000 := by rw [hlen]; rfl
  refine ⟨FetchAllNews_length, hrows, ⟨allNews, hall, hlen'⟩, ?_⟩
  obtain ⟨allNews2, resp, hall2, hrun, htc, -⟩ := getNews_spec noLike (storeOfSize 1001) 1 10
  have : allNews2 = allNews := by
    rw [hall] at hall2
    simp only [Except.ok.injEq] at hall2
    exact hall2.symm
  rw [this, hlen'] at htc
  exact ⟨resp, hrun, by rw [htc]; rfl⟩

/-! ## The multi-symbol batch -/

/-- C12. For every assignment of fetch outcomes to the symbols, `FetchMarketIndices` returns an
error if and only if every symbol failed; otherwise it returns exactly the indices of the
successful symbols, in symbol-list order; it never returns an empty list with a nil error, so
the handler `getMarketIndices` never answers "not found". -/
theorem C12_multi_symbol_batch (fetch : String → Except String MarketIndex) :
    ((∃ err, FetchMarketIndices fetch = .error err) ↔
      ∀ s ∈ symbols, ∃ e, fetch s = .error e) ∧
    ((∃ s ∈ symbols, ∃ index, fetch s = .ok index) →
      FetchMarketIndices fetch =
        .ok (symbols.filterMap fun s =>
          match fetch s with
          | .ok index => some index
          | .error _ => none)) ∧
    FetchMarketIndices fetch ≠ .ok [] ∧
    getMarketIndices fetch ≠ .notFound := by
  cases h1 : fetch "^NSEI" <;> cases h2 : fetch "^BSESN" <;>
    simp [FetchMarketIndices, getMarketIndices, symbols, h1, h2]

/-! ## The scrape timestamp -/

/-- C17 as stated fails: `oneRowStore` holds a row with URL `u1` whose `lastScrapedAt` is 0; an
`InsertArticle` call with that URL at time 9, and the ingestion step for an article with that
URL at time 9, both leave the rows of the table as they are, so `lastScrapedAt` stays 0. -/
theorem C17_counterexample :
    (∃ r ∈ oneRowStore.rows, r.url = "u1" ∧ r.lastScrapedAt = 0) ∧
    (∃ db1, InsertArticle oneRowStore 9 "t" "u1" "Groww" "" "" 9 = .ok db1 ∧
      db1.rows = oneRowStore.rows) ∧
    (storeArticles (fun _ => 9) [mkArticle "u1" "Groww"]
      { db := oneRowStore, totalStored := 0, totalSkipped := 0 }).db = oneRowStore ∧
    ∀ r ∈ oneRowStore.rows, r.url = "u1" → r.lastScrapedAt = 0 ∧ r.lastScrapedAt ≠ 9 :=
  ⟨by decide, ⟨_, rfl, rfl⟩, by decide, by decide⟩

/-- C17 (amended). For every store that already contains a row with URL `u`, an ingestion attempt
that targets `u` at any time (`InsertArticle` called with `u`, or the `storeArticles` step for
an article with URL `u`) leaves every row of the table unchanged, so the `lastScrapedAt` of that
row keeps the value it has; `lastScrapedAt` is written only when a row is first inserted, and
then it is the time of that insert. -/
theorem C17_lastScrapedAt_kept (db : DB) (now : Time) (a : Article) (r : DbArticle)
    (hr : r ∈ db.rows) (hu : r.url = a.url) :
    (∃ db1, InsertArticle db now a.title a.url a.source.name a.content a.description
        a.publishedAt = .ok db1 ∧ db1.rows = db.rows) ∧
    (∀ stored skipped : Int,
      (storeArticles (fun _ => now) [a]
        { db := db, totalStored := stored, totalSkipped := skipped }).db = db) ∧
    (∀ (db0 : DB), (∀ r0 ∈ db0.rows, r0.url ≠ a.url) →
      ∃ db1, InsertArticle db0 now a.title a.url a.source.name a.content a.description
          a.publishedAt = .ok db1 ∧
        ∀ r1 ∈ db1.rows, r1.url = a.url → r1.lastScrapedAt = now) := by
  refine ⟨⟨_, insert_present db now _ _ _ _ _ _ r hr hu, rfl⟩, ?_, ?_⟩
  · intro stored skipped
    rw [storeArticles_single, storeArticle_present _ _ _ r hr hu]
  · intro db0 habs
    refine ⟨_, by simp [InsertArticle, any_url_eq_false habs]; rfl, ?_⟩
    intro r1 hr1 hu1
    simp only [List.mem_append, List.mem_singleton] at hr1
    rcases hr1 with h | h
    · exact absurd hu1 (habs r1 h)
    · rw [h]

/-- C17 (amended) at `oneRowStore`. -/
theorem C17_lastScrapedAt_kept_witness :
    (∃ db1, InsertArticle oneRowStore 9 (mkArticle "u1" "Groww").title
        (mkArticle "u1" "Groww").url (mkArticle "u1" "Groww").source.name
        (mkArticle "u1" "Groww").content (mkArticle "u1" "Groww").description
        (mkArticle "u1" "Groww").publishedAt = .ok db1 ∧ db1.rows = oneRowStore.rows) ∧
    (∀ stored skipped : Int,
      (storeArticles (fun _ => 9) [mkArticle "u1" "Groww"]
        { db := oneRowStore, totalStored := stored, totalSkipped := skipped }).db =
          oneRowStore) ∧
    (∀ (db0 : DB), (∀ r0 ∈ db0.rows, r0.url ≠ (mkArticle "u1" "Groww").url) →
      ∃ db1, InsertArticle db0 9 (mkArticle "u1" "Groww").title (mkArticle "u1" "Groww").url
          (mkArticle "u1" "Groww").source.name (mkArticle "u1" "Groww").content
          (mkArticle "u1" "Groww").description (mkArticle "u1" "Groww").publishedAt =
            .ok db1 ∧
        ∀ r1 ∈ db1.rows, r1.url = (mkArticle "u1" "Groww").url → r1.lastScrapedAt = 9) :=
  C17_lastScrapedAt_kept oneRowStore 9 (mkArticle "u1" "Groww") (mkRow 1 "Groww" 5)
    (by decide) (by decide)

/-! ## The search filter -/

theorem livemintArticle_publishedAt (sp : StringsPkg) (now : Time) (el : Element) (a : Article)
    (h : livemintArticle sp now el = some a) : a.publishedAt = now := by
  unfold livemintArticle at h
  simp only [] at h
  split_ifs at h <;> simp only [Option.some.injEq] at h <;> rw [← h]

theorem economicTimesArticle_publishedAt (sp : StringsPkg) (now : Time) (e : Element)
    (a : Article) (h : economicTimesArticle sp now e = some a) : a.publishedAt = now := by
  unfold economicTimesArticle at h
  simp only [] at h
  split_ifs at h <;> simp only [Option.some.injEq] at h <;> rw [← h]

theorem moneyControlArticle_publishedAt (sp : StringsPkg) (now : Time) (e : Element)
    (a : Article) (h : moneyControlArticle sp now e = some a) : a.publishedAt = now := by
  unfold moneyControlArticle at h
  simp only [] at h
  split_ifs at h <;> simp only [Option.some.injEq] at h <;> rw [← h]

theorem indiaTodayArticle_publishedAt (sp : StringsPkg) (now : Time) (e : Element)
    (a : Article) (h : indiaTodayArticle sp now e = some a) : a.publishedAt = now := by
  unfold indiaTodayArticle at h
  simp only [] at h
  split_ifs at h <;> simp only [Option.some.injEq] at h <;> rw [← h]

theorem growwArticle_publishedAt (e : Element) (a : Article)
    (h : growwArticle e = some a) : a.publishedAt = zeroTime := by
  unfold growwArticle at h
  simp only [] at h
  split_ifs at h <;> simp only [Option.some.injEq] at h <;> rw [← h]

theorem businessStandardArticle_publishedAt (e : Element) (a : Article)
    (h : businessStandardArticle e = some a) : a.publishedAt = zeroTime := by
  unfold businessStandardArticle at h
  simp only [] at h
  split_ifs at h <;> simp only [Option.some.injEq] at h <;> rw [← h]

/-- C18 (as the code behaves). The Groww and Business Standard adapters accept the element with
title `T` and link `/x` and emit an article whose `PublishedAt` is the zero `time.Time`, not the
scrape time (here 1700000000); this holds for every article these two adapters emit. The four
other adapters set `PublishedAt: time.Now()` on every article they emit. -/
theorem C18_publishedAt_zero_for_two_adapters :
    (∃ a, growwArticle sampleElement = some a ∧ a.url = "https://groww.in/x" ∧
      a.publishedAt = zeroTime ∧ a.publishedAt ≠ 1700000000) ∧
    (∃ a, businessStandardArticle sampleElement = some a ∧
      a.publishedAt = zeroTime ∧ a.publishedAt ≠ 1700000000) ∧
    (∀ e a, growwArticle e = some a → a.publishedAt = zeroTime) ∧
    (∀ e a, businessStandardArticle e = some a → a.publishedAt = zeroTime) ∧
    (∀ sp now e a, livemintArticle sp now e = some a → a.publishedAt = now) ∧
    (∀ sp now e a, economicTimesArticle sp now e = some a → a.publishedAt = now) ∧
    (∀ sp now e a, moneyControlArticle sp now e = some a → a.publishedAt = now) ∧
    (∀ sp now e a, indiaTodayArticle sp now e = some a → a.publishedAt = now) :=
  ⟨⟨_, rfl, by decide, by decide, by decide⟩, ⟨_, rfl, by decide, by decide⟩,
    growwArticle_publishedAt, businessStandardArticle_publishedAt, livemintArticle_publishedAt,
    economicTimesArticle_publishedAt, moneyControlArticle_publishedAt,
    indiaTodayArticle_publishedAt⟩

/-! ## Rounding -/

theorem strip_value (k : Nat) : ∀ (m : Nat) (e : Int),
    ((F64.strip k m e).1 : ℚ) * (2 : ℚ) ^ (F64.strip k m e).2 = (m : ℚ) * (2 : ℚ) ^ e := by
  induction k with
  | zero => intro m e; rfl
  | succ k ih =>
    intro m e
    rw [F64.strip]
    split_ifs with h
    · rw [ih]
      have hm : m = 2 ^ 2 ^ k * (m / 2 ^ 2 ^ k) := (Nat.mul_div_cancel' (Nat.dvd_of_mod_eq_zero h)).symm
      have h2 : (2 : ℚ) ^ (e + 2 ^ k) = (2 : ℚ) ^ e * (2 : ℚ) ^ (2 ^ k : ℕ) := by
        rw [zpow_add₀ (by norm_num)]
        congr 1
        exact_mod_cast zpow_natCast (2 : ℚ) (2 ^ k)
      rw [h2]
      conv_rhs => rw [hm]
      push_cast
      ring
    · exact ih m e

/-- `canon` keeps the value. -/
theorem toRat_canon (s : Bool) (m : Nat) (e : Int) :
    (F64.canon s m e).toRat = (if s then -1 else 1) * (m : ℚ) * (2 : ℚ) ^ e := by
  unfold F64.canon
  by_cases h : m = 0
  · rw [if_pos h]
    subst h
    simp [F64.toRat]
  · rw [if_neg h]
    simp only [F64.toRat]
    rw [mul_assoc, strip_value, mul_assoc]

theorem floor_add_half_of_int (n : ℤ) : ⌊(n : ℚ) + 1 / 2⌋ = n := by
  rw [Int.floor_eq_iff]
  constructor <;> norm_num

/-- For `m = q * 2^k + r` with `r < 2^k`: `floor(m / 2^k + 1/2)` is `q + 1` when `2r >= 2^k`
and `q` otherwise. -/
theorem floor_div_pow_add_half (m k : Nat) :
    ⌊(m : ℚ) / (2 : ℚ) ^ k + 1 / 2⌋ =
      ((if 2 ^ k ≤ 2 * (m % 2 ^ k) then m / 2 ^ k + 1 else m / 2 ^ k : ℕ) : ℤ) := by
  have hpos : (0 : ℚ) < (2 : ℚ) ^ k := by positivity
  have hdm : (m : ℚ) = ((m / 2 ^ k : ℕ) : ℚ) * (2 : ℚ) ^ k + ((m % 2 ^ k : ℕ) : ℚ) := by
    have := Nat.div_add_mod m (2 ^ k)
    have h2 : ((2 ^ k * (m / 2 ^ k) + m % 2 ^ k : ℕ) : ℚ) = (m : ℚ) := by rw [this]
    push_cast at h2
    linarith
  have hr : ((m % 2 ^ k : ℕ) : ℚ) < (2 : ℚ) ^ k := by
    have := Nat.mod_lt m (Nat.pow_pos (n := k) (by norm_num : 0 < 2))
    exact_mod_cast this
  have hr0 : (0 : ℚ) ≤ ((m % 2 ^ k : ℕ) : ℚ) := Nat.cast_nonneg _
  generalize (m / 2 ^ k : ℕ) = q at hdm ⊢
  rw [Int.floor_eq_iff]
  split_ifs with h
  · have h' : (2 : ℚ) ^ k ≤ 2 * ((m % 2 ^ k : ℕ) : ℚ) := by exact_mod_cast h
    generalize ((m % 2 ^ k : ℕ) : ℚ) = r at hdm hr hr0 h'
    have hsplit : (m : ℚ) / (2 : ℚ) ^ k = q + r / (2 : ℚ) ^ k := by
      rw [hdm]; field_simp
    have ht1 : r / (2 : ℚ) ^ k < 1 := (div_lt_one hpos).2 hr
    have hth : 1 / 2 ≤ r / (2 : ℚ) ^ k := by
      rw [le_div_iff₀ hpos]; linarith
    rw [hsplit]
    push_cast
    constructor <;> linarith
  · have h' : 2 * ((m % 2 ^ k : ℕ) : ℚ) < (2 : ℚ) ^ k := by
      have := not_le.1 h
      exact_mod_cast this
    generalize ((m % 2 ^ k : ℕ) : ℚ) = r at hdm hr hr0 h'
    have hsplit : (m : ℚ) / (2 : ℚ) ^ k = q + r / (2 : ℚ) ^ k := by
      rw [hdm]; field_simp
    have ht0 : 0 ≤ r / (2 : ℚ) ^ k := div_nonneg hr0 hpos.le
    have hth : r / (2 : ℚ) ^ k < 1 / 2 := by
      rw [div_lt_iff₀ hpos]; linarith
    rw [hsplit]
    push_cast
    constructor <;> linarith
theorem roundHalfAway_signed (a : ℚ) (ha : 0 ≤ a) (s : Bool) :
    ((roundHalfAway ((if s then -1 else 1) * a) : ℤ) : ℚ) =
      (if s then -1 else 1) * ((⌊a + 1 / 2⌋ : ℤ) : ℚ) := by
  cases s with
  | false =>
    simp only [Bool.false_eq_true, if_false, one_mul, roundHalfAway]
    rw [if_neg (not_lt.2 ha)]
  | true =>
    simp only [if_true, neg_mul, one_mul, roundHalfAway]
    rcases eq_or_lt_of_le ha with h0 | hpos
    · subst h0
      have h1 : ⌊(0 : ℚ) + 1 / 2⌋ = 0 := by
        rw [Int.floor_eq_iff]; constructor <;> norm_num
      have h2 : ⌊-(0 : ℚ) + 1 / 2⌋ = 0 := by
        rw [Int.floor_eq_iff]; constructor <;> norm_num
      rw [neg_zero, if_neg (lt_irrefl _), h1]
      norm_num
    · rw [if_pos (by linarith), neg_neg]
      push_cast
      rfl

/-- `math.Round` is exact: the value of `math.Round(y)` for a finite `y` is the value of `y`
rounded to the nearest integer, halves away from zero. -/
theorem toRat_round (s : Bool) (m : Nat) (e : Int) :
    (F64.round (F64.fin s m e)).toRat = (roundHalfAway (F64.fin s m e).toRat : ℚ) := by
  have hval : (F64.fin s m e).toRat = (if s then -1 else 1) * ((m : ℚ) * (2 : ℚ) ^ e) := by
    simp only [F64.toRat, mul_assoc]
  have hnonneg : (0 : ℚ) ≤ (m : ℚ) * (2 : ℚ) ^ e := by positivity
  rw [hval, roundHalfAway_signed _ hnonneg]
  have hround : F64.round (F64.fin s m e) =
      if 0 ≤ e then F64.fin s m e
      else F64.canon s (if 2 ^ (-e).toNat ≤ 2 * (m % 2 ^ (-e).toNat)
        then m / 2 ^ (-e).toNat + 1 else m / 2 ^ (-e).toNat) 0 := rfl
  rw [hround]
  by_cases he : 0 ≤ e
  · rw [if_pos he]
    obtain ⟨k, rfl⟩ := Int.eq_ofNat_of_zero_le he
    have hint : (m : ℚ) * (2 : ℚ) ^ (k : ℤ) = (((m * 2 ^ k : ℕ) : ℤ) : ℚ) := by
      rw [zpow_natCast]; push_cast; rfl
    rw [hint, floor_add_half_of_int, ← hint]
    simp only [F64.toRat, mul_assoc]
  · rw [if_neg he, toRat_canon]
    have hk : e = -(((-e).toNat : ℕ) : ℤ) := by
      rw [Int.toNat_of_nonneg (by omega)]; ring
    have hdiv : (m : ℚ) * (2 : ℚ) ^ e = (m : ℚ) / (2 : ℚ) ^ (-e).toNat := by
      conv_lhs => rw [hk]
      rw [zpow_neg, zpow_natCast]
      rfl
    rw [hdiv, floor_div_pow_add_half]
    simp only [zpow_zero, mul_one, Int.cast_natCast, mul_assoc]
theorem specRound2_f1_115 : specRound2 (f1_115.toRat - F64.zero.toRat) = 111 / 100 := by
  have hx : (f1_115.toRat - F64.zero.toRat) * 100 = 125537839612952575 / 1125899906842624 := by
    simp only [f1_115, F64.zero, F64.toRat]
    norm_num [zpow_neg]
  have hfl : ⌊(125537839612952575 / 1125899906842624 : ℚ) + 1 / 2⌋ = 111 := by
    rw [Int.floor_eq_iff]
    constructor <;> norm_num
  unfold specRound2 roundHalfAway
  rw [hx, if_neg (by norm_num), hfl]
  norm_num

/-- C11 as stated fails. For price 101.005 and previous close 100 the code returns change 1.0,
not 1.01: the `float64` nearest to 101.005 is slightly below it, the difference is
1.00499999999999545..., and `math.Round(100.499999999999545...)` is 100. For price 1.115 and
previous close 0 the exact product `1.115 * 100` lies below 111.5 and rounds to 111, giving
1.11, but the `float64` product is exactly 111.5 and the code returns 1.12. -/
theorem C11_counterexample :
    F64.ofRatio 101005 1000 = f101_005 ∧
    (calculateChange f101_005 f100).1 = f1 ∧ f1.toRat = 1 ∧
    F64.ofRatio 101 100 ≠ f1 ∧
    F64.ofRatio 1115 1000 = f1_115 ∧
    (calculateChange f1_115 F64.zero).1 = f1_12 ∧ F64.ofRatio 112 100 = f1_12 ∧
    specRound2 (f1_115.toRat - F64.zero.toRat) = 111 / 100 ∧
    (calculateChange f1_115 F64.zero).1.toRat ≠
      specRound2 (f1_115.toRat - F64.zero.toRat) := by
  have h1 : (calculateChange f1_115 F64.zero).1 = f1_12 := by decide!
  refine ⟨by decide!, by decide!, by simp [f1, F64.toRat], by decide!, by decide!, h1,
    by decide!, specRound2_f1_115, ?_⟩
  rw [h1, specRound2_f1_115]
  simp only [f1_12, F64.toRat]
  norm_num [zpow_neg]

/-- C11 (amended). For every finite `currentPrice` and `previousClose`, `calculateChange`
returns `change = math.Round(d*100) / 100` for the `float64` difference
`d = currentPrice - previousClose`, and `changePerc = math.Round(q*100) / 100`, where `q` is 0
when `previousClose` is zero or below `0.000001` in absolute value or when `d / previousClose *
100` is not finite, and `d / previousClose * 100` otherwise; the difference, the products and
the quotients are `float64` operations, and `math.Round` takes the `float64` product to the
nearest integer with halves away from zero, `sign(y) * floor(|y| + 1/2)`. For price 101.005
and previous close 100 the change is 1.0. -/
theorem C11_rounding (currentPrice previousClose : F64)
    (hc : isValidNumber currentPrice = true) (hp : isValidNumber previousClose = true) :
    (calculateChange currentPrice previousClose).1 = round2 (currentPrice.sub previousClose) ∧
    (calculateChange currentPrice previousClose).2 =
      round2
        (if previousClose.eq F64.zero || previousClose.abs.lt (F64.ofRatio 1 1000000) then
          F64.zero
        else if isValidNumber
            (((currentPrice.sub previousClose).div previousClose).mul (F64.ofInt 100)) then
          ((currentPrice.sub previousClose).div previousClose).mul (F64.ofInt 100)
        else F64.zero) ∧
    (∀ x : F64, round2 x = ((x.mul (F64.ofInt 100)).round).div (F64.ofInt 100)) ∧
    (∀ (s : Bool) (m : Nat) (e : Int),
      (F64.round (F64.fin s m e)).toRat = (roundHalfAway (F64.fin s m e).toRat : ℚ)) ∧
    (calculateChange f101_005 f100).1 = f1 := by
  refine ⟨calculateChange_fst_of_valid currentPrice previousClose hc hp, ?_, fun _ => rfl,
    toRat_round, by decide!⟩
  simp only [calculateChange, hc, hp, round2, Bool.not_true, Bool.or_self, Bool.false_eq_true,
    if_false]
  split_ifs <;> simp_all

/-- C11 (amended) at price 101.005 and previous close 100. -/
theorem C11_rounding_witness :
    (calculateChange f101_005 f100).1 = round2 (f101_005.sub f100) ∧
    (calculateChange f101_005 f100).2 =
      round2
        (if f100.eq F64.zero || f100.abs.lt (F64.ofRatio 1 1000000) then
          F64.zero
        else if isValidNumber
            (((f101_005.sub f100).div f100).mul (F64.ofInt 100)) then
          ((f101_005.sub f100).div f100).mul (F64.ofInt 100)
        else F64.zero) ∧
    (∀ x : F64, round2 x = ((x.mul (F64.ofInt 100)).round).div (F64.ofInt 100)) ∧
    (∀ (s : Bool) (m : Nat) (e : Int),
      (F64.round (F64.fin s m e)).toRat = (roundHalfAway (F64.fin s m e).toRat : ℚ)) ∧
    (calculateChange f101_005 f100).1 = f1 :=
  C11_rounding f101_005 f100 (by decide) (by decide)

/-! ## The summarizer -/

/-- On finite values `<` is the order of the values. -/
theorem lt_fin_iff (s : Bool) (m : Nat) (e : Int) (t : Bool) (n : Nat) (f : Int) :
    (F64.fin s m e).lt (F64.fin t n f) = true ↔
      (F64.fin s m e).toRat < (F64.fin t n f).toRat := by
  have key : ∀ (s : Bool) (m : Nat) (e g : Int), g ≤ e →
      ((((if s then -(m : Int) else m) * 2 ^ (e - g).toNat : Int)) : ℚ) =
        (F64.fin s m e).toRat * (2 : ℚ) ^ (-g) := by
    intro s m e g hg
    have h2 : (2 : ℚ) ^ ((e - g).toNat : ℕ) = (2 : ℚ) ^ e * (2 : ℚ) ^ (-g) := by
      rw [← zpow_add₀ (by norm_num : (2 : ℚ) ≠ 0), ← zpow_natCast,
        Int.toNat_of_nonneg (by omega)]
      congr 1
    simp only [F64.toRat]
    push_cast
    rw [h2]
    cases s <;> simp <;> ring
  have hpos : (0 : ℚ) < (2 : ℚ) ^ (-(min e f)) := by positivity
  have hlt : (F64.fin s m e).lt (F64.fin t n f) =
      decide ((if s then -(m : Int) else m) * 2 ^ (e - min e f).toNat <
        (if t then -(n : Int) else n) * 2 ^ (f - min e f).toNat) := rfl
  rw [hlt, decide_eq_true_iff, ← mul_lt_mul_right hpos, ← key s m e _ (min_le_left e f),
    ← key t n f _ (min_le_right e f)]
  exact Int.cast_lt.symm

/-- Go `<` on `float64` is transitive. -/
theorem lt_trans_F64 (x y z : F64) (h1 : x.lt y = true) (h2 : y.lt z = true) :
    x.lt z = true := by
  cases x with
  | nan => simp [F64.lt] at h1
  | inf s =>
    cases y with
    | nan => simp [F64.lt] at h1
    | inf t =>
      cases z with
      | nan => simp [F64.lt] at h2
      | inf u => simp_all [F64.lt]
      | fin u k g => simp_all [F64.lt]
    | fin t n f =>
      cases z with
      | nan => simp [F64.lt] at h2
      | inf u => simp_all [F64.lt]
      | fin u k g =>
        have : s = true := by simpa [F64.lt] using h1
        simp [F64.lt, this]
  | fin s m e =>
    cases y with
    | nan => simp [F64.lt] at h1
    | inf t =>
      cases z with
      | nan => simp [F64.lt] at h2
      | inf u => simp_all [F64.lt]
      | fin u k g =>
        have a1 : t = false := by simpa [F64.lt] using h1
        have a2 : t = true := by simpa [F64.lt] using h2
        rw [a1] at a2
        cases a2
    | fin t n f =>
      cases z with
      | nan => simp [F64.lt] at h2
      | inf u =>
        have : u = false := by simpa [F64.lt] using h2
        simp [F64.lt, this]
      | fin u k g =>
        rw [lt_fin_iff] at h1 h2 ⊢
        exact lt_trans h1 h2

/-- Go `<` on `float64` is irreflexive. -/
theorem lt_irrefl_F64 (x : F64) : x.lt x = false := by
  cases x with
  | nan => rfl
  | inf s => cases s <;> rfl
  | fin s m e =>
    rw [← Bool.not_eq_true, lt_fin_iff]
    exact lt_irrefl _
/-- The elements of a list after `swapAt` at two different valid positions. -/
theorem swapAt_getElem? (l : List ScoredSentence) (i j : Nat) (a b : ScoredSentence)
    (hi : l[i]? = some a) (hj : l[j]? = some b) (hij : i ≠ j) (k : Nat) :
    (swapAt l i j)[k]? = if k = i then some b else if k = j then some a else l[k]? := by
  have hil : i < l.length := (List.getElem?_eq_some.1 hi).1
  have hjl : j < l.length := (List.getElem?_eq_some.1 hj).1
  simp only [swapAt, hi, hj, List.getElem?_set, List.length_set]
  by_cases h1 : k = i
  · subst h1
    simp [hij.symm, hil]
  · by_cases h2 : k = j
    · subst h2
      simp [hjl, h1]
    · simp [h1, h2, Ne.symm h1, Ne.symm h2]

/-- The function `swapAt` rearranges the list. -/
theorem swapAt_perm (l : List ScoredSentence) (i j : Nat) : (swapAt l i j).Perm l := by
  unfold swapAt
  cases hi : l[i]? with
  | none => exact List.Perm.refl _
  | some a =>
    cases hj : l[j]? with
    | none => exact List.Perm.refl _
    | some b =>
      obtain ⟨hil, hia⟩ := List.getElem?_eq_some.1 hi
      obtain ⟨hjl, hjb⟩ := List.getElem?_eq_some.1 hj
      show ((l.set i b).set j a).Perm l
      by_cases hij : i = j
      · subst hij
        have hab : a = b := hia.symm.trans hjb
        subst hab
        rw [List.set_set]
        have : l.set i a = l := by
          apply List.ext_getElem? 
          intro k
          rw [List.getElem?_set]
          split_ifs with h1
          · rw [← h1, hi]
          · rfl
        rw [this]
      · rw [List.perm_iff_count]
        intro c
        have hjl2 : j < (l.set i b).length := by rw [List.length_set]; exact hjl
        have hget : (l.set i b)[j] = b := by
          rw [List.getElem_set_ne hij]; exact hjb
        rw [List.count_set a c (l.set i b) j hjl2, List.count_set b c l i hil, hget, hia]
        have hpos : (a == c) = true → 0 < List.count c l := by
          intro h
          have hac : a = c := by simpa using h
          rw [List.count_pos_iff]
          rw [← hac, ← hia]
          exact List.getElem_mem hil
        by_cases h1 : (a == c) = true <;> by_cases h2 : (b == c) = true
        · have := hpos h1; rw [if_pos h1, if_pos h2]; omega
        · have := hpos h1; rw [if_pos h1, if_neg h2]; omega
        · rw [if_neg h1, if_pos h2]; omega
        · rw [if_neg h1, if_neg h2]; omega

theorem sortInner_spec (i : Nat) : ∀ (n j : Nat) (l : List ScoredSentence),
    i < j → j + n = l.length → NoLaterGreater l i → InnerDone l i j →
    (sortInner i n j l).Perm l ∧ NoLaterGreater (sortInner i n j l) i ∧
      InnerDone (sortInner i n j l) i (j + n) := by
  intro n
  induction n with
  | zero =>
    intro j l _ _ hA hI
    exact ⟨List.Perm.refl _, hA, hI⟩
  | succ n ih =>
    intro j l hij hlen hA hI
    have hjl : j < l.length := by omega
    have hil : i < l.length := by omega
    have hi : l[i]? = some l[i] := List.getElem?_eq_getElem hil
    have hj : l[j]? = some l[j] := List.getElem?_eq_getElem hjl
    generalize l[i] = a at hi
    generalize l[j] = b at hj
    have hstep : sortInner i (n + 1) j l =
        sortInner i n (j + 1) (if a.score.lt b.score then swapAt l i j else l) := by
      simp only [sortInner, hi, hj]
    rw [hstep, show j + (n + 1) = (j + 1) + n by omega]
    by_cases hR : a.score.lt b.score = true
    · rw [if_pos hR]
      have hget := swapAt_getElem? l i j a b hi hj (by omega)
      have hperm := swapAt_perm l i j
      have hA1 : NoLaterGreater (swapAt l i j) i := by
        intro p q x y hp hpq hx hy
        rw [hget] at hx hy
        rw [if_neg (by omega), if_neg (by omega)] at hx
        split_ifs at hy with h1 h2
        · exact hA p j x y hp (by omega) hx (hy ▸ hj)
        · exact hA p i x y hp (by omega) hx (hy ▸ hi)
        · exact hA p q x y hp hpq hx hy
      have hI1 : InnerDone (swapAt l i j) i (j + 1) := by
        intro q x y hiq hqj hx hy
        rw [hget] at hx hy
        rw [if_pos rfl] at hx
        cases hx
        rw [if_neg (by omega)] at hy
        split_ifs at hy with h2
        · cases hy
          cases h : b.score.lt a.score with
          | false => rfl
          | true =>
            have := lt_trans_F64 _ _ _ hR h
            rw [lt_irrefl_F64] at this
            cases this
        · cases h : b.score.lt y.score with
          | false => rfl
          | true =>
            have h3 := lt_trans_F64 _ _ _ hR h
            rw [hI q a y hiq (by omega) hi hy] at h3
            cases h3
      obtain ⟨p1, p2, p3⟩ := ih (j + 1) (swapAt l i j) (by omega)
        (by rw [hperm.length_eq]; omega) hA1 hI1
      exact ⟨p1.trans hperm, p2, p3⟩
    · rw [if_neg hR]
      have hI1 : InnerDone l i (j + 1) := by
        intro q x y hiq hqj hx hy
        by_cases hq : q = j
        · subst hq
          rw [hi] at hx
          rw [hj] at hy
          cases hx
          cases hy
          simpa using hR
        · exact hI q x y hiq (by omega) hx hy
      exact ih (j + 1) l (by omega) (by omega) hA hI1

theorem sortOuter_spec : ∀ (n i : Nat) (l : List ScoredSentence),
    i + n + 1 = l.length → NoLaterGreater l i →
    (sortOuter n i l).Perm l ∧ NoLaterGreater (sortOuter n i l) (i + n) := by
  intro n
  induction n with
  | zero =>
    intro i l _ hA
    exact ⟨List.Perm.refl _, hA⟩
  | succ n ih =>
    intro i l hlen hA
    have hstep : sortOuter (n + 1) i l =
        sortOuter n (i + 1) (sortInner i (l.length - (i + 1)) (i + 1) l) := rfl
    obtain ⟨p1, p2, p3⟩ := sortInner_spec i (l.length - (i + 1)) (i + 1) l (by omega)
      (by omega) hA (fun q _ _ h1 h2 => absurd h2 (by omega))
    have hA1 : NoLaterGreater (sortInner i (l.length - (i + 1)) (i + 1) l) (i + 1) := by
      intro p q x y hp hpq hx hy
      by_cases hpi : p = i
      · subst hpi
        have hq := (List.getElem?_eq_some.1 hy).1
        rw [p1.length_eq] at hq
        exact p3 q x y hpq (by omega) hx hy
      · exact p2 p q x y (by omega) hpq hx hy
    obtain ⟨q1, q2⟩ := ih (i + 1) _ (by rw [p1.length_eq]; omega) hA1
    rw [hstep, show i + (n + 1) = (i + 1) + n by omega]
    exact ⟨q1.trans p1, q2⟩

/-- The sort of `Summarize` rearranges the scored sentences so that no sentence has a strictly
higher score than a sentence before it. -/
theorem sortByScore_spec (l : List ScoredSentence) :
    (sortByScore l).Perm l ∧
      (sortByScore l).Pairwise (fun a b => a.score.lt b.score = false) := by
  unfold sortByScore
  cases hl : l.length with
  | zero =>
    have : l = [] := List.length_eq_zero.1 hl
    subst this
    exact ⟨List.Perm.refl _, List.Pairwise.nil⟩
  | succ k =>
    obtain ⟨p1, p2⟩ := sortOuter_spec k 0 l (by omega)
      (fun p _ _ _ hp => absurd hp (by omega))
    refine ⟨by simpa using p1, ?_⟩
    simp only [Nat.add_sub_cancel]
    rw [List.pairwise_iff_getElem]
    intro p q hp hq hpq
    have hq2 := hq
    rw [p1.length_eq] at hq2
    exact p2 p q _ _ (by omega) hpq (List.getElem?_eq_getElem hp) (List.getElem?_eq_getElem hq)
theorem splitIntoSentences_empty (sp : StringsPkg) (hsp : sp.TrimSpace "" = "") :
    splitIntoSentences sp "" = [] := by
  simp [splitIntoSentences, hsp, FieldsFunc]

/-- C19. For `maxSentences = n >= 1` and a text that splits into more than `n` sentences
(`strings.TrimSpace` keeps the empty string), `Summarize` returns without error the join of the
first sentence and the first `n - 1` sentences of the sorted rest; the sorted rest is a
rearrangement of the remaining sentences with their scores in which no sentence has a strictly
higher score than one before it, so no sentence left out has a strictly higher score than one
included; and the summary has exactly `n` sentences. -/
theorem C19_summarizer_selection (sp : StringsPkg) (hsp : sp.TrimSpace "" = "") (n : Int)
    (hn : 1 ≤ n) (text : String)
    (hmore : n < ((splitIntoSentences sp text).length : Int)) :
    ∃ first rest, splitIntoSentences sp text = first :: rest ∧
      Summarize sp (NewTextSummarizer n) text =
        .ok (" ".intercalate (summaryOf sp (NewTextSummarizer n) text first rest)) ∧
      summaryOf sp (NewTextSummarizer n) text first rest =
        first :: ((sortByScore (rest.map fun sent =>
          ({ sentence := sent, score := scoreSentence sp sent text } : ScoredSentence))).take
            (n - 1).toNat).map (fun s => s.sentence) ∧
      (sortByScore (rest.map fun sent =>
          ({ sentence := sent, score := scoreSentence sp sent text } : ScoredSentence))).Perm
        (rest.map fun sent =>
          ({ sentence := sent, score := scoreSentence sp sent text } : ScoredSentence)) ∧
      (sortByScore (rest.map fun sent =>
          ({ sentence := sent, score := scoreSentence sp sent text } : ScoredSentence))).Pairwise
        (fun a b => a.score.lt b.score = false) ∧
      (∀ x ∈ (sortByScore (rest.map fun sent =>
          ({ sentence := sent, score := scoreSentence sp sent text } : ScoredSentence))).take
            (n - 1).toNat,
        ∀ y ∈ (sortByScore (rest.map fun sent =>
          ({ sentence := sent, score := scoreSentence sp sent text } : ScoredSentence))).drop
            (n - 1).toNat, x.score.lt y.score = false) ∧
      ((summaryOf sp (NewTextSummarizer n) text first rest).length : Int) = n := by
  have hts : (NewTextSummarizer n).maxSentences = n := by
    simp only [NewTextSummarizer]
    rw [if_neg (by omega)]
  have htext : text ≠ "" := by
    intro h
    rw [h, splitIntoSentences_empty sp hsp] at hmore
    simp at hmore
    omega
  cases hsplit : splitIntoSentences sp text with
  | nil =>
    rw [hsplit] at hmore
    simp at hmore
    omega
  | cons first rest =>
    rw [hsplit] at hmore
    obtain ⟨hperm, hpair⟩ := sortByScore_spec (rest.map fun sent =>
      ({ sentence := sent, score := scoreSentence sp sent text } : ScoredSentence))
    refine ⟨first, rest, rfl, ?_, ?_, hperm, hpair, ?_, ?_⟩
    · simp only [Summarize, if_neg htext, hsplit, hts]
      rw [if_neg (by omega)]
    · simp only [summaryOf, hts, List.singleton_append]
    · intro x hx y hy
      have h := hpair
      rw [← List.take_append_drop (n - 1).toNat (sortByScore _), List.pairwise_append] at h
      exact h.2.2 x hx y hy
    · simp only [summaryOf, hts, List.singleton_append, List.length_cons, List.length_map,
        List.length_take, hperm.length_eq]
      simp only [List.length_cons] at hmore
      omega

/-- C19 for the ASCII library functions, `n = 3` and a text of five sentences. -/
theorem C19_summarizer_selection_witness :
    asciiStrings.TrimSpace "" = "" ∧ (1 : Int) ≤ 3 ∧
    (3 : Int) < ((splitIntoSentences asciiStrings sampleText).length : Int) ∧
    (Summarize asciiStrings (NewTextSummarizer 3) sampleText).toOption =
      some "Stocks rose today. Stocks stocks stocks. Was it." ∧
    ∃ first rest, splitIntoSentences asciiStrings sampleText = first :: rest ∧
      Summarize asciiStrings (NewTextSummarizer 3) sampleText =
        .ok (" ".intercalate (summaryOf asciiStrings (NewTextSummarizer 3) sampleText first
          rest)) ∧
      summaryOf asciiStrings (NewTextSummarizer 3) sampleText first rest =
        first :: ((sortByScore (rest.map fun sent =>
          ({ sentence := sent, score := scoreSentence asciiStrings sent sampleText } :
            ScoredSentence))).take ((3 : Int) - 1).toNat).map (fun s => s.sentence) ∧
      (sortByScore (rest.map fun sent =>
          ({ sentence := sent, score := scoreSentence asciiStrings sent sampleText } :
            ScoredSentence))).Perm
        (rest.map fun sent =>
          ({ sentence := sent, score := scoreSentence asciiStrings sent sampleText } :
            ScoredSentence)) ∧
      (sortByScore (rest.map fun sent =>
          ({ sentence := sent, score := scoreSentence asciiStrings sent sampleText } :
            ScoredSentence))).Pairwise
        (fun a b => a.score.lt b.score = false) ∧
      (∀ x ∈ (sortByScore (rest.map fun sent =>
          ({ sentence := sent, score := scoreSentence asciiStrings sent sampleText } :
            ScoredSentence))).take ((3 : Int) - 1).toNat,
        ∀ y ∈ (sortByScore (rest.map fun sent =>
          ({ sentence := sent, score := scoreSentence asciiStrings sent sampleText } :
            ScoredSentence))).drop ((3 : Int) - 1).toNat, x.score.lt y.score = false) ∧
      ((summaryOf asciiStrings (NewTextSummarizer 3) sampleText first rest).length : Int) = 3 :=
  ⟨by decide, by decide, by decide!, by decide!,
    C19_summarizer_selection asciiStrings (by decide) 3 (by decide) sampleText (by decide!)⟩

/-! ## Exact results of `float64` operations -/

theorem strip_odd (k : Nat) : ∀ (m : Nat) (e : Int), m % 2 = 1 → F64.strip k m e = (m, e) := by
  induction k with
  | zero => intro m e _; rfl
  | succ k ih =>
    intro m e hm
    rw [F64.strip]
    have hne : ¬ m % 2 ^ 2 ^ k = 0 := by
      intro h
      have hd : 2 ∣ m :=
        dvd_trans (dvd_pow_self 2 (by positivity)) (Nat.dvd_of_mod_eq_zero h)
      omega
    rw [if_neg hne]
    exact ih m e hm

theorem tdiv_pages_pred_mul_lt (a b : Int) (ha : 0 ≤ a) (hb : 1 ≤ b) :
    (Int.tdiv (a + b - 1) b - 1) * b < a ∧ (0 < a → 1 ≤ Int.tdiv (a + b - 1) b) := by
  have hb0 : (0 : Int) < b := by omega
  rw [Int.tdiv_eq_ediv (by omega) (by omega)]
  have h1 := Int.ediv_add_emod (a + b - 1) b
  have h2 := Int.emod_nonneg (a + b - 1) (by omega : b ≠ 0)
  have h3 := Int.emod_lt_of_pos (a + b - 1) hb0
  generalize (a + b - 1) / b = z at h1 ⊢
  generalize (a + b - 1) % b = r at h1 h2 h3
  constructor
  · nlinarith
  · intro hpos
    by_contra hz
    have hz0 : z ≤ 0 := by omega
    nlinarith

/-- The handler `getNews` is the fetch followed by `getNewsPage`. -/
theorem getNews_eq_page (like : String → String → Bool) (db : DB) (p s : Int) :
    getNews like db p s =
      match FetchAllNews like db with
      | .error err => .ret (.error err)
      | .ok allNews =>
        match getNewsPage allNews p s with
        | .ret resp => .ret (.ok resp)
        | .panic => .panic
        | .outOfFuel => .outOfFuel := by
  unfold getNews getNewsPage
  cases FetchAllNews like db with
  | error err => rfl
  | ok allNews =>
    simp only []
    split_ifs <;> first | rfl | (split <;> simp_all)

/-- C22. The handler `getNews` is the fetch followed by `getNewsPage` on the fetched list. For
every list `allNews` of fetched articles, every requested page `p` and every requested page
size `s`, with `start` and `end` as `getNews` computes them: the slice
`allNews[start:end]` is evaluated exactly when the list is not empty, and then
`0 <= start < end <= len(allNews)` and `end - start <= pageSize`; `getNews` does not panic, and
its response carries that slice (of `end - start` articles, at most `pageSize`) or no article;
`start` is `(CurrentPage - 1) * pageSize` for the page `max(p, 1)` lowered to `TotalPages` when
larger, but not below 1. For 25 articles, page 7 and page size 10 the slice is
`allNews[20:25]`. -/
theorem C22_legacy_pagination_in_range (allNews : List Article) (p s : Int) :
    (∀ (like : String → String → Bool) (db : DB),
      getNews like db p s =
        match FetchAllNews like db with
        | .error err => .ret (.error err)
        | .ok fetched =>
          match getNewsPage fetched p s with
          | .ret resp => .ret (.ok resp)
          | .panic => .panic
          | .outOfFuel => .outOfFuel) ∧
    ((sliceBounds allNews.length p s).2.2 = true ↔ allNews ≠ []) ∧
    ((sliceBounds allNews.length p s).2.2 = true →
      0 ≤ (sliceBounds allNews.length p s).1 ∧
      (sliceBounds allNews.length p s).1 < (sliceBounds allNews.length p s).2.1 ∧
      (sliceBounds allNews.length p s).2.1 ≤ (allNews.length : Int) ∧
      (sliceBounds allNews.length p s).2.1 - (sliceBounds allNews.length p s).1 ≤
        (validPagination p s).2) ∧
    (∃ resp, getNewsPage allNews p s = .ret resp ∧
      resp.Articles =
        (if (sliceBounds allNews.length p s).2.2 = true then
          (allNews.drop (sliceBounds allNews.length p s).1.toNat).take
            ((sliceBounds allNews.length p s).2.1 - (sliceBounds allNews.length p s).1).toNat
        else []) ∧
      ((sliceBounds allNews.length p s).2.2 = true →
        (resp.Articles.length : Int) =
          (sliceBounds allNews.length p s).2.1 - (sliceBounds allNews.length p s).1) ∧
      (resp.Articles.length : Int) ≤ resp.PageSize ∧
      resp.PageSize = (validPagination p s).2 ∧
      resp.TotalPages = Int.tdiv ((allNews.length : Int) + resp.PageSize - 1) resp.PageSize ∧
      resp.CurrentPage = max (min (max p 1) resp.TotalPages) 1 ∧
      (sliceBounds allNews.length p s).1 = (resp.CurrentPage - 1) * resp.PageSize) ∧
    sliceBounds 25 7 10 = (20, 25, true) := by
  refine ⟨fun like db => getNews_eq_page like db p s, ?_⟩
  obtain ⟨hv, hlo, hhi⟩ := validPagination_eq p s
  have hpage : (validPagination p s).1 = max p 1 := by rw [hv]
  have hcount : (0 : Int) ≤ (allNews.length : Int) := Int.natCast_nonneg _
  have hne : allNews ≠ [] ↔ (0 : Int) < (allNews.length : Int) := by
    rw [← List.length_pos, Int.natCast_pos]
  unfold sliceBounds getNewsPage
  simp only []
  rw [hpage]
  generalize (validPagination p s).2 = size at hlo hhi ⊢
  generalize max p 1 = page0
  generalize htc : (allNews.length : Int) = totalCount at hcount hne ⊢
  obtain ⟨hpred, hpos⟩ := tdiv_pages_pred_mul_lt totalCount size hcount hlo
  generalize htp : Int.tdiv (totalCount + size - 1) size = totalPages at hpred hpos ⊢
  have hpg : (if (if page0 > totalPages then totalPages else page0) < 1 then 1
      else (if page0 > totalPages then totalPages else page0)) =
      max (min page0 totalPages) 1 := by
    split_ifs <;> omega
  rw [hpg]
  generalize hpdef : max (min page0 totalPages) 1 = page
  have hp1 : 1 ≤ page := by rw [← hpdef]; exact le_max_right _ _
  have hple : 0 < totalCount → page ≤ totalPages := by
    intro h
    have := hpos h
    rw [← hpdef]
    exact max_le (min_le_right _ _) this
  have hstart : 0 ≤ (page - 1) * size := by nlinarith
  have hguard : (page - 1) * size < totalCount ↔ 0 < totalCount := by
    constructor
    · intro h; omega
    · intro h
      have := hple h
      nlinarith
  have hstop : (page - 1) * size <
      (if (page - 1) * size + size > totalCount then totalCount
        else (page - 1) * size + size) ∨ ¬ (page - 1) * size < totalCount := by
    by_cases h : (page - 1) * size < totalCount
    · left; split_ifs <;> omega
    · right; exact h
  have hstop2 : (if (page - 1) * size + size > totalCount then totalCount
        else (page - 1) * size + size) ≤ totalCount := by
    split_ifs <;> omega
  have hwidth : (if (page - 1) * size + size > totalCount then totalCount
        else (page - 1) * size + size) - (page - 1) * size ≤ size := by
    split_ifs <;> omega
  generalize (if (page - 1) * size + size > totalCount then totalCount
        else (page - 1) * size + size) = stop at hstop hstop2 hwidth ⊢
  refine ⟨?_, ?_, ?_, by decide⟩
  · rw [decide_eq_true_iff, hguard, hne]
  · intro h
    rw [decide_eq_true_iff] at h
    rcases hstop with h1 | h1
    · exact ⟨hstart, h1, hstop2, hwidth⟩
    · exact absurd h h1
  · by_cases h : (page - 1) * size < totalCount
    · have hlt : (page - 1) * size < stop := by
        rcases hstop with h1 | h1
        · exact h1
        · exact absurd h h1
      have hrange : 0 ≤ (page - 1) * size ∧ (page - 1) * size ≤ stop ∧
          stop ≤ (allNews.length : Int) := ⟨hstart, le_of_lt hlt, by rw [htc]; exact hstop2⟩
      simp only [if_pos h, sliceRange, if_pos hrange, decide_eq_true_eq]
      refine ⟨_, rfl, rfl, ?_, ?_, rfl, htp.symm, hpdef.symm, rfl⟩
      · intro _
        simp only [List.length_take, List.length_drop]
        omega
      · simp only [List.length_take, List.length_drop]
        omega
    · simp only [if_neg h, decide_eq_true_eq]
      refine ⟨_, rfl, rfl, fun h2 => absurd h2 h, ?_, rfl, htp.symm, hpdef.symm, rfl⟩
      simp only [List.length_nil, Nat.cast_zero]
      omega

/-! ## Totality of the selection loop -/

/-- More fuel does not change the outcome of a run that did not use up its fuel. -/
theorem selectLoop_fuel_succ (pageSize : Int) (articles : List DbArticle)
    (sources : List String) : ∀ (fuel : Nat) (st : LoopState),
    selectLoop pageSize articles sources fuel st ≠ .outOfFuel →
    selectLoop pageSize articles sources (fuel + 1) st =
      selectLoop pageSize articles sources fuel st := by
  intro fuel
  induction fuel with
  | zero => intro st h; exact absurd rfl h
  | succ fuel ih =>
    intro st h
    rw [selectLoop] at h
    conv_lhs => rw [selectLoop]
    conv_rhs => rw [selectLoop]
    split_ifs at h ⊢ with hc
    · cases hs : sources[st.sourceIndex % sources.length]? with
      | none => rfl
      | some source =>
        simp only [hs] at h ⊢
        cases hg : st.sourceGroups.get source with
        | nil =>
          simp only [hg] at h ⊢
          exact ih _ h
        | cons a rest =>
          simp only [hg] at h ⊢
          exact ih _ h
    · trivial

theorem selectLoop_fuel_add (pageSize : Int) (articles : List DbArticle)
    (sources : List String) (fuel : Nat) (st : LoopState)
    (h : selectLoop pageSize articles sources fuel st ≠ .outOfFuel) (extra : Nat) :
    selectLoop pageSize articles sources (fuel + extra) st =
      selectLoop pageSize articles sources fuel st := by
  induction extra with
  | zero => rfl
  | succ extra ih =>
    rw [← Nat.add_assoc, selectLoop_fuel_succ _ _ _ _ _ (by rw [ih]; exact h), ih]

/-- The states of `loopAfter` are the states that `selectLoop` passes through. -/
theorem selectLoop_loopAfter (pageSize : Int) (articles : List DbArticle)
    (sources : List String) : ∀ (k : Nat) (st0 st : LoopState) (fuel : Nat),
    loopAfter pageSize articles sources k st0 = some st →
    selectLoop pageSize articles sources (k + fuel) st0 =
      selectLoop pageSize articles sources fuel st := by
  intro k
  induction k with
  | zero =>
    intro st0 st fuel h
    rw [loopAfter] at h
    cases h
    rw [Nat.zero_add]
  | succ k ih =>
    intro st0 st fuel h
    rw [loopAfter] at h
    rw [show k + 1 + fuel = (k + fuel) + 1 by omega, selectLoop]
    split_ifs at h ⊢ with hc
    cases hs : sources[st0.sourceIndex % sources.length]? with
    | none => simp [hs] at h
    | some source =>
      simp only [hs] at h ⊢
      cases hg : st0.sourceGroups.get source with
      | nil =>
        simp only [hg] at h ⊢
        exact ih _ _ _ h
      | cons a rest =>
        simp only [hg] at h ⊢
        exact ih _ _ _ h
theorem GroupsOk.sources_pos {articles : List DbArticle} {sources : List String}
    {G : String → List DbArticle} (ok : GroupsOk articles sources G)
    (h : 0 < articles.length) : 0 < sources.length := by
  rcases Nat.eq_zero_or_pos sources.length with h0 | hpos
  · have ht := ok.total
    rw [List.length_eq_zero.1 h0] at ht
    simp at ht
    omega
  · exact hpos

/-- Every state that the loop reaches from a state described by `LoopInv` is described by
`LoopInv`. -/
theorem loopAfter_inv {pageSize : Int} {articles : List DbArticle} {sources : List String}
    {G : String → List DbArticle} (ok : GroupsOk articles sources G) :
    ∀ (k : Nat) (st0 st : LoopState) (q r : Nat),
      LoopInv pageSize articles sources G st0 q r →
      loopAfter pageSize articles sources k st0 = some st →
      ∃ q' r', LoopInv pageSize articles sources G st q' r' := by
  intro k
  induction k with
  | zero =>
    intro st0 st q r h hrun
    rw [loopAfter] at hrun
    cases hrun
    exact ⟨q, r, h⟩
  | succ k ih =>
    intro st0 st q r h hrun
    rw [loopAfter] at hrun
    split_ifs at hrun with hc
    have hn : 0 < sources.length := ok.sources_pos (by omega)
    obtain ⟨q1, r1, h1, hr1⟩ : ∃ q1 r1, LoopInv pageSize articles sources G st0 q1 r1 ∧
        r1 < sources.length := by
      rcases Nat.lt_or_ge r sources.length with hlt | hge
      · exact ⟨q, r, h, hlt⟩
      · have hre : r = sources.length := le_antisymm h.le hge
        subst hre
        exact ⟨q + 1, 0, h.wrap, hn⟩
    have hidx : st0.sourceIndex % sources.length = r1 := by
      rw [h1.index, Nat.mul_add_mod, Nat.mod_eq_of_lt hr1]
    have hget : sources[st0.sourceIndex % sources.length]? = some sources[r1] := by
      rw [hidx, List.getElem?_eq_getElem hr1]
    simp only [hget] at hrun
    cases hg : st0.sourceGroups.get sources[r1] with
    | nil =>
      simp only [hg] at hrun
      exact ih _ _ q1 (r1 + 1) (h1.step_skip hr1 hg) hrun
    | cons a rest =>
      simp only [hg] at hrun
      exact ih _ _ q1 (r1 + 1) (h1.step_take ok hr1 hg hc.1 hc.2) hrun

/-- While the window has an article that is not selected, some source has a non-empty group. -/
theorem LoopInv.nonempty_group {pageSize : Int} {articles : List DbArticle}
    {sources : List String} {G : String → List DbArticle} {st : LoopState} {q r : Nat}
    (ok : GroupsOk articles sources G) (h : LoopInv pageSize articles sources G st q r)
    (hw : st.selectedArticles.length < articles.length) :
    ∃ i, ∃ hi : i < sources.length, st.sourceGroups.get sources[i] ≠ [] := by
  by_contra hcon
  have hempty : ∀ s ∈ sources, st.sourceGroups.get s = [] := by
    intro s hs
    obtain ⟨i, hi, rfl⟩ := List.getElem_of_mem hs
    by_contra hne
    exact hcon ⟨i, hi, hne⟩
  have hsel : ∀ a ∈ st.selectedArticles, a.source ∈ sources := by
    intro a ha
    by_contra hns
    have hG := ok.outside _ hns
    have hsplit := h.split a.source
    rw [hG] at hsplit
    have hnil := (List.append_eq_nil.1 hsplit).1
    have hmem : a ∈ st.selectedArticles.filter fun b => b.source == a.source :=
      List.mem_filter.2 ⟨ha, by simp⟩
    rw [hnil] at hmem
    exact List.not_mem_nil _ hmem
  have hsum := sum_groupOf_length ok.nodup st.selectedArticles hsel
  have hlen : st.selectedArticles.length = articles.length := by
    rw [← hsum, ← ok.total]
    congr 1
    apply List.map_congr_left
    intro s hs
    have hsplit := h.split s
    rw [hempty s hs, List.append_nil] at hsplit
    rw [groupOf, hsplit]
  omega

/-- Counting on from any index, every position of a non-empty slice is met within its length. -/
theorem index_reached (n idx i : Nat) (hi : i < n) : ∃ j, j < n ∧ (idx + j) % n = i := by
  have hn : 0 < n := by omega
  have hm : idx % n < n := Nat.mod_lt _ hn
  refine ⟨(i + n - idx % n) % n, Nat.mod_lt _ hn, ?_⟩
  rw [Nat.add_mod, Nat.mod_mod, ← Nat.add_mod]
  have hd := Nat.div_add_mod idx n
  have h1 : idx + (i + n - idx % n) = i + n * (idx / n + 1) := by
    rw [Nat.mul_add, Nat.mul_one]
    generalize n * (idx / n) = d at hd
    omega
  rw [h1, Nat.add_mul_mod_self_left, Nat.mod_eq_of_lt hi]

/-- C23. For every window, every page size and every outcome of the shuffle, the selection
loop of `GetNewsFromDB` exits after at most `len(sources) * len(articles)` iterations with the
same result whatever fuel is left over, and no run of it stops with a panic, so that
`sourceIndex % len(sources)` is never evaluated with an empty `sources`. In every state that
the loop reaches in which the loop condition holds, `sources` is not empty and one of the next
`len(sources)` values of `sourceIndex` selects a source whose group is not empty. The states of
`loopAfter` are those that the loop passes through. -/
theorem C23_selection_loop_total (sh : Shuffle) (pageSize : Int) (articles : List DbArticle) :
    (∃ out, ∀ extra : Nat,
      balancedSelection sh ((sortedSources articles).length * articles.length + 1 + extra)
        pageSize articles = .ret out) ∧
    (∀ fuel : Nat, balancedSelection sh fuel pageSize articles ≠ .panic) ∧
    (∀ (k : Nat) (st : LoopState),
      loopAfter pageSize articles (sortedSources articles) k (loopEntry sh articles) = some st →
      (∀ fuel : Nat, balancedSelection sh (k + fuel) pageSize articles =
        selectLoop pageSize articles (sortedSources articles) fuel st) ∧
      (((st.selectedArticles.length : Int) < pageSize ∧
          st.selectedArticles.length < articles.length) →
        sortedSources articles ≠ [] ∧
        ∃ j source, j < (sortedSources articles).length ∧
          (sortedSources articles)[(st.sourceIndex + j) %
            (sortedSources articles).length]? = some source ∧
          st.sourceGroups.get source ≠ [])) := by
  have ok := groupsOk_initial sh articles
  have hentry : ∀ fuel, balancedSelection sh fuel pageSize articles =
      selectLoop pageSize articles (sortedSources articles) fuel (loopEntry sh articles) :=
    fun _ => rfl
  have hinit : LoopInv pageSize articles (sortedSources articles) (initialGroups sh articles)
      (loopEntry sh articles) 0 0 :=
    loopInv_initial pageSize articles (sortedSources articles) _
  obtain ⟨st', q, r, hrun, -, -, -⟩ :=
    selectLoop_spec ok ((sortedSources articles).length * articles.length + 1)
      (loopEntry sh articles) 0 0 hinit (by omega) (by omega)
  have hret : ∀ extra : Nat,
      selectLoop pageSize articles (sortedSources articles)
        ((sortedSources articles).length * articles.length + 1 + extra)
        (loopEntry sh articles) = .ret st'.selectedArticles := by
    intro extra
    rw [selectLoop_fuel_add _ _ _ _ _ (by rw [hrun]; exact Run.noConfusion) extra, hrun]
  refine ⟨⟨st'.selectedArticles, fun extra => by rw [hentry]; exact hret extra⟩, ?_, ?_⟩
  · intro fuel hp
    rw [hentry] at hp
    have h1 := selectLoop_fuel_add pageSize articles (sortedSources articles) fuel
      (loopEntry sh articles) (by rw [hp]; exact Run.noConfusion)
      ((sortedSources articles).length * articles.length + 1)
    rw [hp, Nat.add_comm, hret fuel] at h1
    exact Run.noConfusion h1
  · intro k st hk
    refine ⟨fun fuel => by rw [hentry]; exact selectLoop_loopAfter _ _ _ k _ _ fuel hk, ?_⟩
    intro hc
    obtain ⟨q', r', hinv⟩ := loopAfter_inv ok k _ _ 0 0 hinit hk
    have hn : 0 < (sortedSources articles).length := ok.sources_pos (by omega)
    obtain ⟨i, hi, hne⟩ := hinv.nonempty_group ok hc.2
    obtain ⟨j, hj, hmod⟩ := index_reached _ st.sourceIndex i hi
    refine ⟨List.ne_nil_of_length_pos hn, j, (sortedSources articles)[i], hj, ?_, hne⟩
    rw [hmod, List.getElem?_eq_getElem hi]

end NewsAggregator
